import Mathlib

/-!
# rBoot (`src/rboot/rboot.c`): image validation and boot-slot selection

A shallow embedding of `check_image`, `calc_chksum` and `find_image`.

* Flash is a byte store `mem : Nat → Nat` (only `mem a % 256` is ever observed) together with
  oracles telling which `SPIRead` / `SPIEraseSector` / `SPIWrite` calls report failure.
* RAM buffers (`uint8 buffer[...]`) are functions `Nat → Nat` from index to byte; the struct
  pointers that alias a buffer (`header`, `section`, `romconf`) become reads and writes at the
  field offsets.
* `uint32` arithmetic is arithmetic on `Nat` reduced `% 2 ^ 32`; `uint8` values are reduced
  `% 256`.
* Every function returns, next to its C result, the list of flash operations it issued.
* The macros and struct declarations of `rboot-private.h` / `rboot.h` are not among the
  sources; they are the fields of `Decls`.
-/

namespace RBoot

/-! ## Declarations taken as parameters -/

/-- The macros and struct layouts that `rboot.c` takes from `rboot-private.h` and `rboot.h`.
Sizes and field offsets are in bytes.  `BUFFER_SIZE` dimensions an array, so it is positive. -/
structure Decls where
  ROM_MAGIC : Nat
  ROM_MAGIC_NEW1 : Nat
  ROM_MAGIC_NEW2 : Nat
  CHKSUM_INIT : Nat
  BUFFER_SIZE : Nat
  hBUF : 0 < BUFFER_SIZE
  SECTOR_SIZE : Nat
  BOOT_CONFIG_SECTOR : Nat
  BOOT_CONFIG_MAGIC : Nat
  BOOT_CONFIG_VERSION : Nat
  MODE_GPIO_ROM : Nat
  MAX_ROMS : Nat
  /-- Whether `BOOT_CONFIG_CHKSUM` is defined. -/
  BOOT_CONFIG_CHKSUM : Bool
  /-- Whether `BOOT_BIG_FLASH` is defined. -/
  BOOT_BIG_FLASH : Bool
  /-- Size of `rom_header`. -/
  sizeof_rom_header : Nat
  /-- Size of `rom_header_new`. -/
  sizeof_rom_header_new : Nat
  /-- Size of `section_header`. -/
  sizeof_section_header : Nat
  /-- Size of `rboot_config`. -/
  sizeof_rboot_config : Nat
  /-- Offset of `flags2` in `rom_header`. -/
  hdr_flags2 : Nat
  /-- Offset of `magic` in `rom_header_new`. -/
  new_magic : Nat
  /-- Offset of `count` in `rom_header_new`. -/
  new_count : Nat
  /-- Offset of `len` in `rom_header_new`. -/
  new_len : Nat
  /-- Offset of `length` in `section_header`. -/
  sec_length : Nat
  /-- Offset of `magic` in `rboot_config`. -/
  cfg_magic : Nat
  /-- Offset of `version` in `rboot_config`. -/
  cfg_version : Nat
  /-- Offset of `mode` in `rboot_config`. -/
  cfg_mode : Nat
  /-- Offset of `current_rom` in `rboot_config`. -/
  cfg_current_rom : Nat
  /-- Offset of `gpio_rom` in `rboot_config`. -/
  cfg_gpio_rom : Nat
  /-- Offset of `count` in `rboot_config`. -/
  cfg_count : Nat
  /-- Offset of `roms[0]` in `rboot_config`; `roms[i]` is 4 bytes at `cfg_roms + 4 * i`. -/
  cfg_roms : Nat
  /-- Offset of `chksum` in `rboot_config` (only meaningful with `BOOT_CONFIG_CHKSUM`). -/
  cfg_chksum : Nat

/-- The values rBoot v1.2.0 ships with (checksum of the config record enabled). -/
def rboot_h : Decls where
  ROM_MAGIC := 0xe9
  ROM_MAGIC_NEW1 := 0xea
  ROM_MAGIC_NEW2 := 0x04
  CHKSUM_INIT := 0xef
  BUFFER_SIZE := 0x100
  hBUF := by decide
  SECTOR_SIZE := 0x1000
  BOOT_CONFIG_SECTOR := 1
  BOOT_CONFIG_MAGIC := 0xe1
  BOOT_CONFIG_VERSION := 0x01
  MODE_GPIO_ROM := 0x01
  MAX_ROMS := 4
  BOOT_CONFIG_CHKSUM := true
  BOOT_BIG_FLASH := false
  sizeof_rom_header := 8
  sizeof_rom_header_new := 16
  sizeof_section_header := 8
  sizeof_rboot_config := 28
  hdr_flags2 := 3
  new_magic := 0
  new_count := 1
  new_len := 12
  sec_length := 4
  cfg_magic := 0
  cfg_version := 1
  cfg_mode := 2
  cfg_current_rom := 3
  cfg_gpio_rom := 4
  cfg_count := 5
  cfg_roms := 8
  cfg_chksum := 24

/-- The fields `check_image` reads lie inside the structs they belong to, `magic` and `count`
lie inside the part that `rom_header` and `rom_header_new` share, and the two header magics
differ. -/
def Decls.ImageWF (D : Decls) : Prop :=
  D.new_magic < D.sizeof_rom_header_new ∧
  D.new_count < D.sizeof_rom_header_new ∧
  D.new_magic < D.sizeof_rom_header ∧
  D.new_count < D.sizeof_rom_header ∧
  D.new_len + 4 ≤ D.sizeof_rom_header_new ∧
  D.sec_length + 4 ≤ D.sizeof_section_header ∧
  D.ROM_MAGIC ≠ D.ROM_MAGIC_NEW1

instance (D : Decls) : Decidable D.ImageWF := by
  unfold Decls.ImageWF; infer_instance

/-- The one-byte fields of `rboot_config`. -/
def Decls.cfg_fields (D : Decls) : List Nat :=
  [D.cfg_magic, D.cfg_version, D.cfg_mode, D.cfg_current_rom, D.cfg_gpio_rom, D.cfg_count,
   D.cfg_chksum]

/-- The layout of `rboot_config` is that of a C struct: its one-byte fields are distinct, lie
inside the struct and outside the array `roms[MAX_ROMS]`, which has at least two entries and
lies inside the struct; the struct fits the sector buffer; and the default slot addresses
and the config sector address fit 32 bits. -/
def Decls.ConfigWF (D : Decls) : Prop :=
  D.cfg_fields.Nodup ∧
  (∀ f ∈ D.cfg_fields,
    f < D.sizeof_rboot_config ∧ (f < D.cfg_roms ∨ D.cfg_roms + 4 * D.MAX_ROMS ≤ f)) ∧
  D.cfg_roms + 4 * D.MAX_ROMS ≤ D.sizeof_rboot_config ∧
  D.sizeof_rboot_config ≤ D.SECTOR_SIZE ∧
  2 ≤ D.MAX_ROMS ∧
  D.SECTOR_SIZE * 2 + 0x200000 < 2 ^ 32 ∧
  D.BOOT_CONFIG_SECTOR * D.SECTOR_SIZE < 2 ^ 32

instance (D : Decls) : Decidable D.ConfigWF := by
  unfold Decls.ConfigWF; infer_instance

/-! ## Flash and buffers -/

/-- The SPI flash: its content and, for each ROM call, whether that call reports failure
(a nonzero status).  A failing call leaves flash and buffer as they were. -/
structure Flash where
  mem : Nat → Nat
  readErr : Nat → Nat → Bool
  eraseErr : Nat → Bool
  writeErr : Nat → Nat → Bool

/-- One call of a flash ROM function: `SPIRead(addr, _, len)`, `SPIEraseSector(sector)`,
`SPIWrite(addr, data, len)`. -/
inductive Op where
  | read (addr len : Nat)
  | erase (sector : Nat)
  | write (addr len : Nat) (data : Nat → Nat)

/-- Is this operation an erase or a write? -/
def Op.modifies : Op → Bool
  | .read _ _ => false
  | .erase _ => true
  | .write _ _ _ => true

/-- Address and length of a read, as a pair (`none` for erase and write). -/
def Op.asRead : Op → Option (Nat × Nat)
  | .read a l => some (a, l)
  | _ => none

/-- Byte `i` of the data of a write (`none` for read and erase). -/
def Op.written (i : Nat) : Op → Option Nat
  | .write _ _ data => some (data i)
  | _ => none

/-- A `uint8` value. -/
def u8 (x : Nat) : Nat := x % 256

/-- A `uint32` value. -/
def u32 (x : Nat) : Nat := x % 2 ^ 32

/-- The buffer after a successful `SPIRead(addr, buf, len)`: its first `len` bytes come from
flash. -/
def fill (F : Flash) (addr len : Nat) (buf : Nat → Nat) : Nat → Nat :=
  fun i => if i < len then u8 (F.mem (addr + i)) else buf i

/-- A little-endian `uint32` field at offset `off` of a buffer. -/
def get32 (buf : Nat → Nat) (off : Nat) : Nat :=
  buf off + 256 * buf (off + 1) + 65536 * buf (off + 2) + 16777216 * buf (off + 3)

/-- The loop `for (loop = 0; loop < readlen; loop++) chksum ^= buffer[loop];`. -/
def xorBuf (buf : Nat → Nat) (readlen chksum : Nat) : Nat :=
  (List.range readlen).foldl (fun c i => c ^^^ buf i) chksum

/-! ## `check_image` -/

/-- State of `check_image` between reads: `readpos`, `chksum` and the staging buffer. -/
structure Cursor where
  readpos : Nat
  chksum : Nat
  buffer : Nat → Nat

/-- The loop `while (remaining > 0)` of lines 63-79.  The first argument bounds the number of
iterations; each iteration consumes at least one byte (`0 < BUFFER_SIZE`), so `remaining`
iterations always suffice and the loop is called with that bound.  `none` is `return 0`. -/
def stream (D : Decls) (F : Flash) : Nat → Nat → Cursor → Option Cursor × List Op
  | 0, _, c => (some c, [])
  | fuel + 1, remaining, c =>
    if remaining > 0 then
      let readlen := if remaining < D.BUFFER_SIZE then remaining else D.BUFFER_SIZE
      if F.readErr c.readpos readlen then (none, [Op.read c.readpos readlen])
      else
        let buffer := fill F c.readpos readlen c.buffer
        let r := stream D F fuel (remaining - readlen)
          { readpos := u32 (c.readpos + readlen),
            chksum := xorBuf buffer readlen c.chksum,
            buffer := buffer }
        (r.1, Op.read c.readpos readlen :: r.2)
    else (some c, [])

/-- The loop `for (sectcount = header->count; sectcount > 0; sectcount--)` of lines 51-80,
by recursion on `sectcount`. -/
def sections (D : Decls) (F : Flash) : Nat → Cursor → Option Cursor × List Op
  | 0, c => (some c, [])
  | sectcount + 1, c =>
    if F.readErr c.readpos D.sizeof_section_header then
      (none, [Op.read c.readpos D.sizeof_section_header])
    else
      let buffer := fill F c.readpos D.sizeof_section_header c.buffer
      let remaining := get32 buffer D.sec_length
      let r := stream D F remaining remaining
        { readpos := u32 (c.readpos + D.sizeof_section_header),
          chksum := c.chksum,
          buffer := buffer }
      match r.1 with
      | none => (none, Op.read c.readpos D.sizeof_section_header :: r.2)
      | some c1 =>
        let r2 := sections D F sectcount c1
        (r2.1, Op.read c.readpos D.sizeof_section_header :: (r.2 ++ r2.2))

/-- Lines 48-93 of `check_image`: from the resolved header in `buffer` at `readpos`, with the
image base `romaddr` already recorded. -/
def check_sections (D : Decls) (F : Flash) (romaddr readpos : Nat) (buffer : Nat → Nat) :
    Nat × List Op :=
  let r := sections D F (buffer D.new_count)
    { readpos := u32 (readpos + D.sizeof_rom_header),
      chksum := u8 D.CHKSUM_INIT,
      buffer := buffer }
  match r.1 with
  | none => (0, r.2)
  | some c =>
    let readpos := c.readpos ||| 0x0f
    if F.readErr readpos 1 then (0, r.2 ++ [Op.read readpos 1])
    else
      let buffer := fill F readpos 1 c.buffer
      if buffer 0 ≠ c.chksum then (0, r.2 ++ [Op.read readpos 1])
      else (romaddr, r.2 ++ [Op.read readpos 1])

/-- The function `check_image(readpos)`: the returned address (0 on failure) and the reads it
issued.  The staging buffer starts as zeros; under `ImageWF` no byte is used before it has
been read from flash. -/
def check_image (D : Decls) (F : Flash) (readpos : Nat) : Nat × List Op :=
  if readpos = 0 ∨ readpos = 0xffffffff then (0, [])
  else if F.readErr readpos D.sizeof_rom_header_new then
    (0, [Op.read readpos D.sizeof_rom_header_new])
  else
    let buffer := fill F readpos D.sizeof_rom_header_new (fun _ => 0)
    if buffer D.new_magic = D.ROM_MAGIC then
      let r := check_sections D F readpos readpos buffer
      (r.1, Op.read readpos D.sizeof_rom_header_new :: r.2)
    else if buffer D.new_magic = D.ROM_MAGIC_NEW1 ∧ buffer D.new_count = D.ROM_MAGIC_NEW2 then
      let readpos2 := u32 (readpos + u32 (get32 buffer D.new_len + D.sizeof_rom_header_new))
      if F.readErr readpos2 D.sizeof_rom_header then
        (0, [Op.read readpos D.sizeof_rom_header_new, Op.read readpos2 D.sizeof_rom_header])
      else
        let buffer2 := fill F readpos2 D.sizeof_rom_header buffer
        let r := check_sections D F readpos2 readpos2 buffer2
        (r.1, Op.read readpos D.sizeof_rom_header_new
                :: Op.read readpos2 D.sizeof_rom_header :: r.2)
    else (0, [Op.read readpos D.sizeof_rom_header_new])

/-! ## `get_gpio16`, `calc_chksum` and `find_image` -/

/-- The function `get_gpio16()`: bit 0 of the `RTC_GPIO_IN_DATA` register, whose value is an
input of the model. -/
def get_gpio16 (gpio_in_data : Nat) : Nat := gpio_in_data &&& 1

/-- The function `calc_chksum(start, end)` on the bytes of `buf` at offsets
`start, ..., end - 1`. -/
def calc_chksum (D : Decls) (buf : Nat → Nat) (start stop : Nat) : Nat :=
  (List.range (stop - start)).foldl (fun c i => c ^^^ buf (start + i)) (u8 D.CHKSUM_INIT)

/-- Store to a `uint8` field at offset `off`. -/
def set8 (buf : Nat → Nat) (off v : Nat) : Nat → Nat :=
  fun i => if i = off then u8 v else buf i

/-- Store to a little-endian `uint32` field at offset `off`. -/
def set32 (buf : Nat → Nat) (off v : Nat) : Nat → Nat :=
  fun i => if off ≤ i ∧ i < off + 4 then u32 v / 256 ^ (i - off) % 256 else buf i

/-- The call `ets_memset(buf, 0x00, n)`. -/
def memset0 (buf : Nat → Nat) (n : Nat) : Nat → Nat :=
  fun i => if i < n then 0 else buf i

/-- Flash after `SPIEraseSector(sector)`: an erased sector reads 0xff. -/
def Flash.erase (D : Decls) (F : Flash) (sector : Nat) : Flash :=
  if F.eraseErr sector then F
  else { F with mem := fun a =>
    if sector * D.SECTOR_SIZE ≤ a ∧ a < (sector + 1) * D.SECTOR_SIZE then 0xff else F.mem a }

/-- Flash after `SPIWrite(addr, buf, len)`. -/
def Flash.write (F : Flash) (addr len : Nat) (buf : Nat → Nat) : Flash :=
  if F.writeErr addr len then F
  else { F with mem := fun a => if addr ≤ a ∧ a < addr + len then buf (a - addr) else F.mem a }

/-- The buffer after `SPIRead(addr, buf, len)` whose status is ignored (lines 156 and 222). -/
def readInto (F : Flash) (addr len : Nat) (buf : Nat → Nat) : Nat → Nat :=
  if F.readErr addr len then buf else fill F addr len buf

/-- Lines 160-188: the flash size derived from `header->flags2`. -/
def flashsize (D : Decls) (flags2 : Nat) : Nat :=
  let flag := u8 (flags2 / 16)
  if flag = 0 then 0x80000
  else if flag = 1 then 0x40000
  else if flag = 2 then 0x100000
  else if flag = 3 then (if D.BOOT_BIG_FLASH then 0x200000 else 0x100000)
  else if flag = 4 then (if D.BOOT_BIG_FLASH then 0x400000 else 0x100000)
  else 0x80000

/-- The condition of lines 224-228: the loaded record is rejected. -/
def config_rejected (D : Decls) (buf : Nat → Nat) : Bool :=
  decide (buf D.cfg_magic ≠ D.BOOT_CONFIG_MAGIC) ||
  decide (buf D.cfg_version ≠ D.BOOT_CONFIG_VERSION) ||
  (D.BOOT_CONFIG_CHKSUM && decide (buf D.cfg_chksum ≠ calc_chksum D buf 0 D.cfg_chksum))

/-- Lines 288-290: recompute `romconf->chksum` when `BOOT_CONFIG_CHKSUM` is defined. -/
def update_chksum (D : Decls) (buf : Nat → Nat) : Nat → Nat :=
  if D.BOOT_CONFIG_CHKSUM then set8 buf D.cfg_chksum (calc_chksum D buf 0 D.cfg_chksum) else buf

/-- Lines 231-239: the default config built in the sector buffer. -/
def default_config (D : Decls) (buf : Nat → Nat) (flashsz : Nat) : Nat → Nat :=
  let b := memset0 buf D.sizeof_rboot_config
  let b := set8 b D.cfg_magic D.BOOT_CONFIG_MAGIC
  let b := set8 b D.cfg_version D.BOOT_CONFIG_VERSION
  let b := set8 b D.cfg_count 2
  let b := set32 b D.cfg_roms (D.SECTOR_SIZE * 2)
  let b := set32 b (D.cfg_roms + 4) (flashsz / 2 + D.SECTOR_SIZE * 2)
  update_chksum D b

/-- The value `romconf->roms[romToBoot]` for an `int32` index (no bounds check in C). -/
def roms (D : Decls) (buf : Nat → Nat) (romToBoot : Int) : Nat :=
  get32 buf (Int.toNat (D.cfg_roms + 4 * romToBoot))

/-- How the `do ... while (runAddr == 0)` loop of lines 262-283 ends. -/
inductive LoopResult where
  /-- The loop was left with `runAddr != 0`. -/
  | found (runAddr : Nat) (romToBoot : Int) (updateConfig : Bool)
  /-- One of the two `return 0` statements inside the loop. -/
  | failed
  /-- The iteration bound was reached with the loop still running. -/
  | running

/-- The loop of lines 262-283, at most `fuel` iterations.  Returns how the loop ended, the
flash reads issued, and the slot indices passed to `roms[]` / `check_image`, in order. -/
def probe (D : Decls) (F : Flash) (buf : Nat → Nat) (gpio_boot : Bool) :
    Nat → Int → Bool → LoopResult × List Op × List Int
  | 0, _, _ => (.running, [], [])
  | fuel + 1, romToBoot, updateConfig =>
    let r := check_image D F (roms D buf romToBoot)
    if r.1 = 0 then
      if gpio_boot then (.failed, r.2, [romToBoot])
      else
        let romToBoot1 := romToBoot - 1
        let romToBoot2 := if romToBoot1 < 0 then (buf D.cfg_count : Int) - 1 else romToBoot1
        if romToBoot2 = (buf D.cfg_current_rom : Int) then (.failed, r.2, [romToBoot])
        else
          let n := probe D F buf gpio_boot fuel romToBoot2 true
          (n.1, r.2 ++ n.2.1, romToBoot :: n.2.2)
    else (.found r.1 romToBoot updateConfig, r.2, [romToBoot])

/-- What a run of `find_image` produces. -/
structure Outcome where
  /-- The return value: the address to boot, or 0. -/
  ret : Nat
  /-- Flash operations issued, in order. -/
  trace : List Op
  /-- Slot indices passed to `roms[]` / `check_image`, in order. -/
  probes : List Int
  /-- The flash afterwards. -/
  flash : Flash
  /-- The sector buffer (`romconf`) afterwards. -/
  buffer : Nat → Nat

/-- Lines 156 and 222: the sector buffer after the ROM header and then the config sector
have been read into it (read status ignored); `stack` is what the uninitialised buffer held. -/
def load_buffer (D : Decls) (F : Flash) (stack : Nat → Nat) : Nat → Nat :=
  readInto F (u32 (D.BOOT_CONFIG_SECTOR * D.SECTOR_SIZE)) D.SECTOR_SIZE
    (readInto F 0 D.sizeof_rom_header (fun i => u8 (stack i)))

/-- Lines 156-243: read the ROM header and the config sector into the stack buffer, and
rewrite the sector with defaults when the record is rejected.  Returns the buffer, the flash
and the operations issued. -/
def load_config (D : Decls) (F : Flash) (stack : Nat → Nat) : (Nat → Nat) × Flash × List Op :=
  let buf1 := readInto F 0 D.sizeof_rom_header (fun i => u8 (stack i))
  let flashsz := flashsize D (buf1 D.hdr_flags2)
  let cfgaddr := u32 (D.BOOT_CONFIG_SECTOR * D.SECTOR_SIZE)
  let buf2 := load_buffer D F stack
  let rd := [Op.read 0 D.sizeof_rom_header, Op.read cfgaddr D.SECTOR_SIZE]
  if config_rejected D buf2 then
    let buf3 := default_config D buf2 flashsz
    ( buf3,
      (F.erase D D.BOOT_CONFIG_SECTOR).write cfgaddr D.SECTOR_SIZE buf3,
      rd ++ [Op.erase D.BOOT_CONFIG_SECTOR, Op.write cfgaddr D.SECTOR_SIZE buf3] )
  else (buf2, F, rd)

/-- Lines 246-259: the first slot to try, whether this is a GPIO boot, and the record after
a possible correction of `current_rom`. -/
def select (D : Decls) (buf : Nat → Nat) (gpio_in_data : Nat) : Int × Bool × (Nat → Nat) :=
  if (buf D.cfg_mode &&& D.MODE_GPIO_ROM) ≠ 0 ∧ get_gpio16 gpio_in_data = 0 then
    ((buf D.cfg_gpio_rom : Int), true, buf)
  else if buf D.cfg_current_rom ≥ buf D.cfg_count then
    (0, false, set8 buf D.cfg_current_rom 0)
  else ((buf D.cfg_current_rom : Int), false, buf)

/-- Lines 264-299 after the loop: the `return 0` of a failed search, or the rewrite of the
config sector (when `updateConfig` is set) followed by `return runAddr`.  `F` and `ops` are
the flash and the operations issued before the loop, `buf` the sector buffer, `p` what the
loop produced; `none` when the loop is still running. -/
def conclude (D : Decls) (F : Flash) (buf : Nat → Nat) (ops : List Op)
    (p : LoopResult × List Op × List Int) : Option Outcome :=
  let cfgaddr := u32 (D.BOOT_CONFIG_SECTOR * D.SECTOR_SIZE)
  match p.1 with
  | .running => none
  | .failed =>
    some { ret := 0, trace := ops ++ p.2.1, probes := p.2.2, flash := F, buffer := buf }
  | .found runAddr romToBoot updateConfig =>
    if updateConfig then
      let buf2 := update_chksum D (set8 buf D.cfg_current_rom (romToBoot % 256).toNat)
      some { ret := runAddr,
             trace := ops ++ p.2.1 ++
               [Op.erase D.BOOT_CONFIG_SECTOR, Op.write cfgaddr D.SECTOR_SIZE buf2],
             probes := p.2.2,
             flash := (F.erase D D.BOOT_CONFIG_SECTOR).write cfgaddr D.SECTOR_SIZE buf2,
             buffer := buf2 }
    else
      some { ret := runAddr, trace := ops ++ p.2.1, probes := p.2.2, flash := F,
             buffer := buf }

/-- The function `find_image()`, its loop bounded by `fuel` iterations; `none` when the loop
is still running after `fuel` iterations.  Inputs besides the flash: the value of the
`RTC_GPIO_IN_DATA` register and the (uninitialised) content of the stack buffer.
`updateConfig` starts as `TRUE` (line 144). -/
def find_image (D : Decls) (F : Flash) (gpio_in_data : Nat) (stack : Nat → Nat) (fuel : Nat) :
    Option Outcome :=
  let l := load_config D F stack
  let s := select D l.1 gpio_in_data
  conclude D l.2.1 s.2.2 l.2.2 (probe D l.2.1 s.2.2 s.2.1 fuel s.1 true)

/-! ## Concrete inputs -/

/-- Flash content given as byte lists placed at base addresses (the first matching region
wins); every other byte reads 0xff (erased flash). -/
def flashOf : List (Nat × List Nat) → Nat → Nat
  | [], _ => 0xff
  | (base, bytes) :: rest, a =>
    if base ≤ a ∧ a < base + bytes.length then bytes.getD (a - base) 0xff else flashOf rest a

/-- A flash on which no operation ever fails. -/
def goodFlash (mem : Nat → Nat) : Flash :=
  { mem := mem, readErr := fun _ _ => false, eraseErr := fun _ => false,
    writeErr := fun _ _ => false }

/-- A Format A image for `rboot_h`: an 8-byte header announcing one section, the section
header (length 3), the payload bytes 1, 2, 4, twelve bytes of padding, and the checksum byte
0xef ^ 1 ^ 2 ^ 4 = 0xe8 as the last byte of the 16-byte block. -/
def imageA : List Nat :=
  [0xe9, 1, 0, 0, 0, 0, 0, 0,  0, 0, 0, 0x40, 3, 0, 0, 0,  1, 2, 4,
   0, 0, 0, 0, 0, 0, 0, 0, 0, 0, 0, 0,  0xe8]

/-- A flash holding `imageA` at 0x2000, every operation succeeding. -/
def flashA : Flash := goodFlash (flashOf [(0x2000, imageA)])

/-- A Format B image for `rboot_h`: a 16-byte outer header (`len` = 0x20), 32 bytes of irom
content, then the inner header, one section (payload 1, 2, 4), padding and the checksum
byte 0xe8. -/
def imageB : List Nat :=
  [0xea, 4, 0, 0, 0, 0, 0, 0,  0, 0, 0, 0, 0x20, 0, 0, 0] ++ List.replicate 32 0xaa ++
  [0xe9, 1, 0, 0, 0, 0, 0, 0,  0, 0, 0, 0x40, 3, 0, 0, 0,  1, 2, 4,
   0, 0, 0, 0, 0, 0, 0, 0, 0, 0, 0, 0,  0xe8]

/-- A flash holding `imageB` at 0x2000, every operation succeeding. -/
def flashB : Flash := goodFlash (flashOf [(0x2000, imageB)])

/-- A config sector for `rboot_h`: the record with the given `mode`, `current_rom`,
`gpio_rom` and `count`, slots at 0x2000, 0x3000, 0x4000 (a fourth entry unused), followed by
its checksum. -/
def configBytes (mode cur gpio count : Nat) : List Nat :=
  let body := [0xe1, 1, mode, cur, gpio, count, 0, 0,  0, 0x20, 0, 0,  0, 0x30, 0, 0,
    0, 0x40, 0, 0,  0, 0, 0, 0]
  body ++ [body.foldl (fun c b => c ^^^ b) 0xef]

/-- The smallest image that validates under `rboot_h`: a Format A header announcing no
section, padding, and the checksum byte `CHKSUM_INIT` at the end of the 16-byte block. -/
def image0 : List Nat := [0xe9, 0, 0, 0, 0, 0, 0, 0,  0, 0, 0, 0, 0, 0, 0, 0xef]

/-- Three configured slots, `current_rom` = 0, and only slot 1 (at 0x3000) holds an image. -/
def flashSlot1 : Flash := goodFlash (flashOf [(0x1000, configBytes 0 0 0 3), (0x3000, image0)])

/-- Two configured slots, `current_rom` = 5 (out of range), and no slot holds an image. -/
def flashEmptySlots : Flash := goodFlash (flashOf [(0x1000, configBytes 0 5 0 2)])

/-- Three configured slots, GPIO mode enabled with `gpio_rom` = 2, `current_rom` = 1; slot 1
holds an image and slot 2 does not. -/
def flashGpio : Flash := goodFlash (flashOf [(0x1000, configBytes 1 1 2 3), (0x3000, image0)])

/-- Three configured slots, `current_rom` = 1, and slot 1 (at 0x3000) holds an image. -/
def flashCurrentGood : Flash :=
  goodFlash (flashOf [(0x1000, configBytes 0 1 0 3), (0x3000, image0)])

/-- An erased flash: every byte reads 0xff, every operation succeeds. -/
def flashErased : Flash := goodFlash (flashOf [])

/-! ## The image format, as the specification describes it -/

/-- The `n` flash bytes at addresses `pos, ..., pos + n - 1`. -/
def bytesAt (mem : Nat → Nat) (pos n : Nat) : List Nat :=
  (List.range n).map (fun i => u8 (mem (pos + i)))

/-- The little-endian 32-bit word stored in flash at address `a`. -/
def word32 (mem : Nat → Nat) (a : Nat) : Nat :=
  u8 (mem a) + 256 * u8 (mem (a + 1)) + 65536 * u8 (mem (a + 2)) + 16777216 * u8 (mem (a + 3))

/-- Declared length of the section whose header is at `pos`. -/
def sectionLength (D : Decls) (mem : Nat → Nat) (pos : Nat) : Nat :=
  word32 mem (pos + D.sec_length)

/-- Image format: the payload bytes of `n` consecutive sections, the first section header
at `pos`, in section order and in address order within each section. -/
def payload (D : Decls) (mem : Nat → Nat) : Nat → Nat → List Nat
  | 0, _ => []
  | n + 1, pos =>
    bytesAt mem (pos + D.sizeof_section_header) (sectionLength D mem pos) ++
      payload D mem n (pos + D.sizeof_section_header + sectionLength D mem pos)

/-- Image format: the address just past `n` consecutive sections, the first section header
at `pos`. -/
def sectionsEnd (D : Decls) (mem : Nat → Nat) : Nat → Nat → Nat
  | 0, pos => pos
  | n + 1, pos =>
    sectionsEnd D mem n (pos + D.sizeof_section_header + sectionLength D mem pos)

/-- XOR of `init` with every byte of a list, in list order. -/
def xorAll (init : Nat) (bytes : List Nat) : Nat :=
  bytes.foldl (fun c b => c ^^^ b) init

/-- Address of the trailing checksum byte of an image whose `rom_header` is at `base`. -/
def trailerAddr (D : Decls) (mem : Nat → Nat) (base : Nat) : Nat :=
  sectionsEnd D mem (u8 (mem (base + D.new_count))) (base + D.sizeof_rom_header) ||| 0x0f

/-- The checksum an image whose `rom_header` is at `base` must carry: `CHKSUM_INIT` XOR-ed
with every payload byte. -/
def imageChksum (D : Decls) (mem : Nat → Nat) (base : Nat) : Nat :=
  xorAll (u8 D.CHKSUM_INIT)
    (payload D mem (u8 (mem (base + D.new_count))) (base + D.sizeof_rom_header))

/-- Image format: does address `a` hold a payload byte of one of `n` consecutive sections,
the first section header at `pos`? -/
def inPayload (D : Decls) (mem : Nat → Nat) : Nat → Nat → Nat → Bool
  | 0, _, _ => false
  | n + 1, pos, a =>
    (decide (pos + D.sizeof_section_header ≤ a) &&
      decide (a < pos + D.sizeof_section_header + sectionLength D mem pos)) ||
    inPayload D mem n (pos + D.sizeof_section_header + sectionLength D mem pos) a

/-- Image format: where the inner `rom_header` of a Format B image at `offset` lies, namely
`offset + len + sizeof(rom_header_new)` in 32-bit arithmetic. -/
def innerBase (D : Decls) (mem : Nat → Nat) (offset : Nat) : Nat :=
  (offset + word32 mem (offset + D.new_len) + D.sizeof_rom_header_new) % 2 ^ 32

/-! ## The fallback order, as the specification describes it -/

/-- Fallback order: the slot tried at step `j` when starting from slot `s` among `count`
slots: `s, s - 1, ..., 0, count - 1, ..., s + 1`. -/
def slotAt (s count j : Nat) : Nat := if j ≤ s then s - j else s + count - j

/-- Fallback order: all `count` slots in the order they are tried, starting from `s`. -/
def probeOrder (s count : Nat) : List Nat := (List.range count).map (slotAt s count)

/-- Does `check_image` accept slot `i` of the record in `buf`? -/
def slotValid (D : Decls) (F : Flash) (buf : Nat → Nat) (i : Nat) : Bool :=
  decide ((check_image D F (roms D buf (i : Int))).1 ≠ 0)

/-- Fallback as the specification describes it: try the slots of a list in order and stop at
the first that validates.  Returns the result, the reads issued and the slots tried. -/
def scan (D : Decls) (F : Flash) (buf : Nat → Nat) : List Nat → LoopResult × List Op × List Int
  | [] => (.failed, [], [])
  | i :: rest =>
    let r := check_image D F (roms D buf (i : Int))
    if r.1 = 0 then
      let n := scan D F buf rest
      (n.1, r.2 ++ n.2.1, (i : Int) :: n.2.2)
    else (.found r.1 (i : Int) true, r.2, [(i : Int)])

/-- The slot the record in `buf` starts from: `current_rom`, or 0 when that is out of range. -/
def startSlot (D : Decls) (buf : Nat → Nat) : Nat :=
  if buf D.cfg_current_rom ≥ buf D.cfg_count then 0 else buf D.cfg_current_rom

/-- The GPIO override of line 246 is taken. -/
def gpioSelected (D : Decls) (buf : Nat → Nat) (gpio_in_data : Nat) : Prop :=
  (buf D.cfg_mode &&& D.MODE_GPIO_ROM) ≠ 0 ∧ get_gpio16 gpio_in_data = 0

instance (D : Decls) (buf : Nat → Nat) (g : Nat) : Decidable (gpioSelected D buf g) := by
  unfold gpioSelected; infer_instance

/-! ## Traces and further inputs -/

/-- Does this operation report failure on flash `F`? -/
def Op.failsOn (F : Flash) : Op → Bool
  | .read a l => F.readErr a l
  | .erase s => F.eraseErr s
  | .write a l _ => F.writeErr a l

/-- A trace in which no operation fails, or, when `failed` is set, in which only the last
operation may fail. -/
def Clean (F : Flash) (failed : Bool) (tr : List Op) : Prop :=
  (∀ op ∈ tr, op.failsOn F = false) ∨
  (failed = true ∧ ∃ pre last, tr = pre ++ [last] ∧ ∀ op ∈ pre, op.failsOn F = false)

/-- The flash `flashA` with the read of the three payload bytes at 0x2010 failing. -/
def flashAFail : Flash := { flashA with readErr := fun a l => decide (a = 0x2010 ∧ l = 3) }

/-- Is this operation an erase? -/
def Op.isErase : Op → Bool
  | .erase _ => true
  | _ => false

/-- Is this operation a write? -/
def Op.isWrite : Op → Bool
  | .write _ _ _ => true
  | _ => false

/-- Lines 231-236: the default record before its checksum is stored; `default_config` is
`update_chksum` of it. -/
def default_body (D : Decls) (buf : Nat → Nat) (flashsz : Nat) : Nat → Nat :=
  set32 (set32 (set8 (set8 (set8 (memset0 buf D.sizeof_rboot_config)
    D.cfg_magic D.BOOT_CONFIG_MAGIC) D.cfg_version D.BOOT_CONFIG_VERSION) D.cfg_count 2)
    D.cfg_roms (D.SECTOR_SIZE * 2)) (D.cfg_roms + 4) (flashsz / 2 + D.SECTOR_SIZE * 2)

/-- The flash size `find_image` detects from the ROM header at address 0. -/
def detected_flashsize (D : Decls) (F : Flash) (stack : Nat → Nat) : Nat :=
  flashsize D (readInto F 0 D.sizeof_rom_header (fun i => u8 (stack i)) D.hdr_flags2)

/-- The flash `flashSlot1` on which every `SPIEraseSector` reports failure. -/
def flashEraseFails : Flash := { flashSlot1 with eraseErr := fun _ => true }

/-- Two configured slots, GPIO mode enabled with `gpio_rom` = 7; the sector bytes that
`roms[7]` reads (offset 36 of the sector, past the record) hold 0x3000, where an image
lies. -/
def flashGpioOut : Flash :=
  goodFlash (flashOf [(0x1000, configBytes 1 0 7 2), (0x1024, [0, 0x30, 0, 0]),
    (0x3000, image0)])

/-- A valid record with `count` = 0 and `current_rom` = 0; no slot holds an image. -/
def flashCount0 : Flash := goodFlash (flashOf [(0x1000, configBytes 0 0 0 0)])

/-- Three configured slots, GPIO mode enabled with `gpio_rom` = 1, `current_rom` = 0; slot 1
(at 0x3000) holds an image. -/
def flashGpioGood : Flash :=
  goodFlash (flashOf [(0x1000, configBytes 1 0 1 3), (0x3000, image0)])

theorem bytesAt_add (mem : Nat → Nat) (pos a b : Nat) :
    bytesAt mem pos (a + b) = bytesAt mem pos a ++ bytesAt mem (pos + a) b := by
  unfold bytesAt
  rw [List.range_add, List.map_append, List.map_map]
  congr 1
  apply List.map_congr_left
  intro i _
  simp [Nat.add_assoc]

theorem xorAll_append (c : Nat) (l1 l2 : List Nat) :
    xorAll c (l1 ++ l2) = xorAll (xorAll c l1) l2 := by
  simp [xorAll, List.foldl_append]

theorem xorBuf_fill (F : Flash) (pos len : Nat) (buf : Nat → Nat) (c : Nat) :
    xorBuf (fill F pos len buf) len c = xorAll c (bytesAt F.mem pos len) := by
  unfold xorBuf xorAll bytesAt
  rw [List.foldl_map]
  apply List.foldl_ext
  intro c i hi
  have : i < len := List.mem_range.mp hi
  simp [fill, this]

theorem stream_ok (D : Decls) (F : Flash) (hF : ∀ a l, F.readErr a l = false) :
    ∀ (fuel remaining : Nat) (c : Cursor), remaining ≤ fuel → c.readpos + remaining < 2 ^ 32 →
      ∃ buf, (stream D F fuel remaining c).1 =
        some { readpos := c.readpos + remaining,
               chksum := xorAll c.chksum (bytesAt F.mem c.readpos remaining),
               buffer := buf } := by
  intro fuel
  induction fuel with
  | zero =>
    intro remaining c h _
    have : remaining = 0 := by omega
    subst this
    exact ⟨c.buffer, by simp [stream, bytesAt, xorAll]⟩
  | succ fuel ih =>
    intro remaining c h hw
    by_cases hr : remaining > 0
    · have hB := D.hBUF
      simp only [stream, hr, if_true, hF]
      set readlen := if remaining < D.BUFFER_SIZE then remaining else D.BUFFER_SIZE with hrl
      have h1 : readlen ≤ remaining := by rw [hrl]; split <;> omega
      have h2 : 0 < readlen := by rw [hrl]; split <;> omega
      have hu : u32 (c.readpos + readlen) = c.readpos + readlen := by
        unfold u32; apply Nat.mod_eq_of_lt; omega
      obtain ⟨buf, hb⟩ := ih (remaining - readlen)
        { readpos := u32 (c.readpos + readlen),
          chksum := xorBuf (fill F c.readpos readlen c.buffer) readlen c.chksum,
          buffer := fill F c.readpos readlen c.buffer } (by omega) (by simp only [hu]; omega)
      refine ⟨buf, ?_⟩
      simp only [Bool.false_eq_true, if_false]
      rw [hb]
      simp only [hu, xorBuf_fill]
      have hsplit : remaining = readlen + (remaining - readlen) := by omega
      congr 2
      · omega
      · conv_rhs => rw [hsplit, bytesAt_add, xorAll_append]
    · have : remaining = 0 := by omega
      subst this
      exact ⟨c.buffer, by simp [stream, bytesAt, xorAll]⟩

theorem le_sectionsEnd (D : Decls) (mem : Nat → Nat) :
    ∀ (n pos : Nat), pos ≤ sectionsEnd D mem n pos := by
  intro n
  induction n with
  | zero => intro pos; simp [sectionsEnd]
  | succ n ih =>
    intro pos
    have := ih (pos + D.sizeof_section_header + sectionLength D mem pos)
    simp only [sectionsEnd]
    omega

theorem get32_fill (F : Flash) (pos len off : Nat) (buf : Nat → Nat) (h : off + 4 ≤ len) :
    get32 (fill F pos len buf) off = word32 F.mem (pos + off) := by
  have h0 : off < len := by omega
  have h1 : off + 1 < len := by omega
  have h2 : off + 2 < len := by omega
  have h3 : off + 3 < len := by omega
  simp [get32, word32, fill, h0, h1, h2, h3, Nat.add_assoc]

theorem fill_lt (F : Flash) (pos len off : Nat) (buf : Nat → Nat) (h : off < len) :
    fill F pos len buf off = u8 (F.mem (pos + off)) := by
  simp [fill, h]

theorem sections_ok (D : Decls) (F : Flash) (hwf : D.ImageWF)
    (hF : ∀ a l, F.readErr a l = false) :
    ∀ (n : Nat) (c : Cursor), sectionsEnd D F.mem n c.readpos < 2 ^ 32 →
      ∃ buf, (sections D F n c).1 =
        some { readpos := sectionsEnd D F.mem n c.readpos,
               chksum := xorAll c.chksum (payload D F.mem n c.readpos),
               buffer := buf } := by
  intro n
  induction n with
  | zero =>
    intro c _
    exact ⟨c.buffer, by simp [sections, sectionsEnd, payload, xorAll]⟩
  | succ n ih =>
    intro c hw
    have hsec : D.sec_length + 4 ≤ D.sizeof_section_header := hwf.2.2.2.2.2.1
    have hmono := le_sectionsEnd D F.mem n
      (c.readpos + D.sizeof_section_header + sectionLength D F.mem c.readpos)
    simp only [sectionsEnd] at hw
    have hu : u32 (c.readpos + D.sizeof_section_header) = c.readpos + D.sizeof_section_header := by
      unfold u32; apply Nat.mod_eq_of_lt; omega
    have hlen : get32 (fill F c.readpos D.sizeof_section_header c.buffer) D.sec_length
        = sectionLength D F.mem c.readpos := by
      rw [get32_fill _ _ _ _ _ hsec]; rfl
    obtain ⟨b1, hb1⟩ := stream_ok D F hF (sectionLength D F.mem c.readpos)
      (sectionLength D F.mem c.readpos)
      { readpos := u32 (c.readpos + D.sizeof_section_header),
        chksum := c.chksum,
        buffer := fill F c.readpos D.sizeof_section_header c.buffer } (Nat.le_refl _)
      (by simp only [hu]; omega)
    simp only [hu] at hb1
    obtain ⟨b2, hb2⟩ := ih
      { readpos := c.readpos + D.sizeof_section_header + sectionLength D F.mem c.readpos,
        chksum := xorAll c.chksum
          (bytesAt F.mem (c.readpos + D.sizeof_section_header) (sectionLength D F.mem c.readpos)),
        buffer := b1 } hw
    refine ⟨b2, ?_⟩
    simp only [sections, hF, Bool.false_eq_true, if_false, hlen, hu, hb1, hb2, sectionsEnd,
      payload, xorAll_append]

theorem lor_15 (x : Nat) : x ||| 0x0f = x / 16 * 16 + 15 := by
  have hr : x % 16 < 16 := Nat.mod_lt _ (by decide)
  have h1 : x = 2 ^ 4 * (x / 16) ||| x % 16 := by
    rw [← Nat.mul_add_lt_is_or (by simpa using hr)]
    omega
  have h2 : (x % 16) ||| 15 = 15 := by
    generalize x % 16 = r at hr
    interval_cases r <;> rfl
  have h3 : 2 ^ 4 * (x / 16) ||| 15 = 2 ^ 4 * (x / 16) + 15 :=
    (Nat.mul_add_lt_is_or (by decide) _).symm
  conv_lhs => rw [h1]
  rw [Nat.lor_assoc, h2, h3]
  omega

theorem le_lor_15 (x : Nat) : x ≤ x ||| 0x0f := by
  rw [lor_15]; omega

theorem check_sections_ok (D : Decls) (F : Flash) (hwf : D.ImageWF)
    (hF : ∀ a l, F.readErr a l = false) (romaddr base : Nat) (buf : Nat → Nat)
    (hcount : buf D.new_count = u8 (F.mem (base + D.new_count)))
    (hw : trailerAddr D F.mem base < 2 ^ 32) :
    ∃ tr, check_sections D F romaddr base buf =
      (if u8 (F.mem (trailerAddr D F.mem base)) = imageChksum D F.mem base then romaddr else 0,
       tr ++ [Op.read (trailerAddr D F.mem base) 1]) := by
  unfold trailerAddr at hw
  have hle := le_lor_15 (sectionsEnd D F.mem (u8 (F.mem (base + D.new_count)))
    (base + D.sizeof_rom_header))
  have hmono := le_sectionsEnd D F.mem (u8 (F.mem (base + D.new_count)))
    (base + D.sizeof_rom_header)
  have hu : u32 (base + D.sizeof_rom_header) = base + D.sizeof_rom_header := by
    unfold u32; apply Nat.mod_eq_of_lt; omega
  obtain ⟨b, hb⟩ := sections_ok D F hwf hF (u8 (F.mem (base + D.new_count)))
    { readpos := u32 (base + D.sizeof_rom_header), chksum := u8 D.CHKSUM_INIT, buffer := buf }
    (by simp only [hu]; omega)
  simp only [hu] at hb
  refine ⟨(sections D F (u8 (F.mem (base + D.new_count)))
    { readpos := base + D.sizeof_rom_header, chksum := u8 D.CHKSUM_INIT, buffer := buf }).2, ?_⟩
  simp only [check_sections, hcount, hu, hb, hF, Bool.false_eq_true, if_false]
  have h0 : fill F (sectionsEnd D F.mem (u8 (F.mem (base + D.new_count)))
      (base + D.sizeof_rom_header) ||| 15) 1 b 0 =
      u8 (F.mem (trailerAddr D F.mem base)) := by
    simp [fill, trailerAddr]
  simp only [h0, imageChksum, trailerAddr]
  by_cases he : u8 (F.mem (trailerAddr D F.mem base)) =
      xorAll (u8 D.CHKSUM_INIT)
        (payload D F.mem (u8 (F.mem (base + D.new_count))) (base + D.sizeof_rom_header))
  · simp only [trailerAddr] at he; simp [he]
  · simp only [trailerAddr] at he; simp [he]

theorem check_image_A (D : Decls) (F : Flash) (offset : Nat) (hwf : D.ImageWF)
    (h0 : offset ≠ 0) (h1 : offset ≠ 0xffffffff)
    (hF : ∀ a l, F.readErr a l = false)
    (hmagic : u8 (F.mem (offset + D.new_magic)) = D.ROM_MAGIC)
    (hw : trailerAddr D F.mem offset < 2 ^ 32) :
    ∃ tr, check_image D F offset =
      (if u8 (F.mem (trailerAddr D F.mem offset)) = imageChksum D F.mem offset then offset else 0,
       tr ++ [Op.read (trailerAddr D F.mem offset) 1]) := by
  have hwf2 : D.ImageWF := hwf
  obtain ⟨hm, hc, -, -, -, -, -⟩ := hwf
  obtain ⟨tr, htr⟩ := check_sections_ok D F hwf2 hF offset offset
    (fill F offset D.sizeof_rom_header_new (fun _ => 0)) (fill_lt F _ _ _ _ hc) hw
  refine ⟨Op.read offset D.sizeof_rom_header_new :: tr, ?_⟩
  simp only [check_image, h0, h1, or_self, if_false, hF, Bool.false_eq_true,
    fill_lt F _ _ _ _ hm, hmagic, if_true, htr, List.cons_append]

theorem xorAll_eq (c : Nat) (l : List Nat) : xorAll c l = c ^^^ xorAll 0 l := by
  induction l generalizing c with
  | nil => simp [xorAll]
  | cons b l ih =>
    have h1 : xorAll c (b :: l) = xorAll (c ^^^ b) l := rfl
    have h2 : xorAll 0 (b :: l) = xorAll (0 ^^^ b) l := rfl
    rw [h1, h2, ih (c ^^^ b), ih (0 ^^^ b), Nat.zero_xor, Nat.xor_assoc]

theorem bytesAt_congr (mem1 mem2 : Nat → Nat) (pos n : Nat)
    (h : ∀ x, pos ≤ x → x < pos + n → mem1 x = mem2 x) :
    bytesAt mem1 pos n = bytesAt mem2 pos n := by
  unfold bytesAt
  apply List.map_congr_left
  intro i hi
  have : i < n := List.mem_range.mp hi
  rw [h (pos + i) (by omega) (by omega)]

theorem word32_congr (mem1 mem2 : Nat → Nat) (a : Nat)
    (h : ∀ x, a ≤ x → x < a + 4 → mem1 x = mem2 x) : word32 mem1 a = word32 mem2 a := by
  unfold word32
  rw [h a (by omega) (by omega), h (a + 1) (by omega) (by omega),
    h (a + 2) (by omega) (by omega), h (a + 3) (by omega) (by omega)]

theorem sections_congr (D : Decls) (mem1 mem2 : Nat → Nat) :
    ∀ (n pos : Nat), (∀ x, pos ≤ x → mem1 x = mem2 x) →
      payload D mem1 n pos = payload D mem2 n pos ∧
      sectionsEnd D mem1 n pos = sectionsEnd D mem2 n pos := by
  intro n
  induction n with
  | zero => intro pos _; simp [payload, sectionsEnd]
  | succ n ih =>
    intro pos h
    have hl : sectionLength D mem1 pos = sectionLength D mem2 pos :=
      word32_congr _ _ _ (fun x hx _ => h x (by omega))
    have hb := bytesAt_congr mem1 mem2 (pos + D.sizeof_section_header)
      (sectionLength D mem2 pos) (fun x hx _ => h x (by omega))
    have := ih (pos + D.sizeof_section_header + sectionLength D mem2 pos)
      (fun x hx => h x (by omega))
    simp only [payload, sectionsEnd, hl, hb, this, and_self]

theorem inPayload_ge (D : Decls) (mem : Nat → Nat) (a : Nat) :
    ∀ (n pos : Nat), inPayload D mem n pos a = true → pos + D.sizeof_section_header ≤ a := by
  intro n
  induction n with
  | zero => intro pos h; simp [inPayload] at h
  | succ n ih =>
    intro pos h
    simp only [inPayload, Bool.or_eq_true, Bool.and_eq_true, decide_eq_true_eq] at h
    rcases h with h | h
    · exact h.1
    · have := ih _ h
      omega

theorem xor_swap_mid (p q x y : Nat) : p ^^^ y ^^^ q = p ^^^ x ^^^ q ^^^ (x ^^^ y) := by
  have h : p ^^^ x ^^^ q ^^^ (x ^^^ y) = p ^^^ (x ^^^ x) ^^^ y ^^^ q := by ac_rfl
  rw [h, Nat.xor_self, Nat.xor_zero]

theorem xorAll_bytesAt_update (mem : Nat → Nat) (a v pos len : Nat)
    (h1 : pos ≤ a) (h2 : a < pos + len) :
    xorAll 0 (bytesAt (Function.update mem a v) pos len) =
      xorAll 0 (bytesAt mem pos len) ^^^ (u8 (mem a) ^^^ u8 v) := by
  have hlen : len = (a - pos) + (1 + (len - (a - pos) - 1)) := by omega
  have hpa : pos + (a - pos) = a := by omega
  have e1 : bytesAt (Function.update mem a v) pos (a - pos) = bytesAt mem pos (a - pos) :=
    bytesAt_congr _ _ _ _ (fun x _ hx => Function.update_noteq (by omega) _ _)
  have e2 : bytesAt (Function.update mem a v) (a + 1) (len - (a - pos) - 1) =
      bytesAt mem (a + 1) (len - (a - pos) - 1) :=
    bytesAt_congr _ _ _ _ (fun x hx _ => Function.update_noteq (by omega) _ _)
  have e3 : bytesAt (Function.update mem a v) a 1 = [u8 v] := by
    simp [bytesAt, List.range_succ]
  have e4 : bytesAt mem a 1 = [u8 (mem a)] := by
    simp [bytesAt, List.range_succ]
  rw [hlen, bytesAt_add, bytesAt_add, bytesAt_add, bytesAt_add, hpa, e1, e2, e3, e4]
  simp only [xorAll_append]
  have s1 : ∀ c b, xorAll c [b] = c ^^^ b := fun c b => rfl
  rw [s1, s1, xorAll_eq (_ ^^^ u8 v), xorAll_eq (_ ^^^ u8 (mem a))]
  generalize xorAll 0 (bytesAt mem pos (a - pos)) = p
  generalize xorAll 0 (bytesAt mem (a + 1) (len - (a - pos) - 1)) = q
  generalize u8 (mem a) = x
  generalize u8 v = y
  exact xor_swap_mid p q x y

theorem payload_update (D : Decls) (mem : Nat → Nat) (a v : Nat)
    (hsec : D.sec_length + 4 ≤ D.sizeof_section_header) :
    ∀ (n pos : Nat), inPayload D mem n pos a = true →
      sectionsEnd D (Function.update mem a v) n pos = sectionsEnd D mem n pos ∧
      a < sectionsEnd D mem n pos ∧
      xorAll 0 (payload D (Function.update mem a v) n pos) =
        xorAll 0 (payload D mem n pos) ^^^ (u8 (mem a) ^^^ u8 v) := by
  intro n
  induction n with
  | zero => intro pos h; simp [inPayload] at h
  | succ n ih =>
    intro pos h
    have hge := inPayload_ge D mem a (n + 1) pos h
    have hl : sectionLength D (Function.update mem a v) pos = sectionLength D mem pos :=
      word32_congr _ _ _ (fun x _ hx => Function.update_noteq (by omega) _ _)
    simp only [inPayload, Bool.or_eq_true, Bool.and_eq_true, decide_eq_true_eq] at h
    simp only [payload, sectionsEnd, hl]
    by_cases hin : a < pos + D.sizeof_section_header + sectionLength D mem pos
    · -- the byte lies in this section
      have hc := sections_congr D (Function.update mem a v) mem n
        (pos + D.sizeof_section_header + sectionLength D mem pos)
        (fun x hx => Function.update_noteq (by omega) _ _)
      have hmono := le_sectionsEnd D mem n
        (pos + D.sizeof_section_header + sectionLength D mem pos)
      refine ⟨hc.2, by omega, ?_⟩
      rw [hc.1, xorAll_append, xorAll_append, xorAll_eq, xorAll_eq (xorAll 0 (bytesAt mem _ _)),
        xorAll_bytesAt_update mem a v _ _ hge hin]
      generalize xorAll 0 (bytesAt mem (pos + D.sizeof_section_header)
        (sectionLength D mem pos)) = p
      generalize xorAll 0 (payload D mem n
        (pos + D.sizeof_section_header + sectionLength D mem pos)) = q
      generalize u8 (mem a) ^^^ u8 v = d
      rw [Nat.xor_assoc, Nat.xor_assoc, Nat.xor_comm d q]
    · -- the byte lies in a later section
      have hlater : inPayload D mem n
          (pos + D.sizeof_section_header + sectionLength D mem pos) a = true := by
        rcases h with h | h
        · exact absurd h.2 hin
        · exact h
      obtain ⟨he, hlt, hx⟩ := ih _ hlater
      have hb := bytesAt_congr (Function.update mem a v) mem (pos + D.sizeof_section_header)
        (sectionLength D mem pos) (fun x _ hx => Function.update_noteq (by omega) _ _)
      refine ⟨he, hlt, ?_⟩
      rw [hb, xorAll_append, xorAll_append, xorAll_eq, hx,
        xorAll_eq (xorAll 0 (bytesAt mem _ _)), Nat.xor_assoc]

theorem check_sections_cases (D : Decls) (F : Flash) (romaddr base : Nat) (buf : Nat → Nat) :
    (check_sections D F romaddr base buf).1 = 0 ∨
      (check_sections D F romaddr base buf).1 = romaddr := by
  unfold check_sections
  dsimp only
  split
  · exact Or.inl rfl
  · split
    · exact Or.inl rfl
    · split
      · exact Or.inl rfl
      · exact Or.inr rfl

theorem u32_skip (a b c : Nat) : u32 (a + u32 (b + c)) = (a + b + c) % 2 ^ 32 := by
  unfold u32; omega

theorem check_image_B (D : Decls) (F : Flash) (offset : Nat) (hwf : D.ImageWF)
    (h0 : offset ≠ 0) (h1 : offset ≠ 0xffffffff)
    (hr : F.readErr offset D.sizeof_rom_header_new = false)
    (hmagic : u8 (F.mem (offset + D.new_magic)) = D.ROM_MAGIC_NEW1)
    (hmarker : u8 (F.mem (offset + D.new_count)) = D.ROM_MAGIC_NEW2) :
    check_image D F offset =
      if F.readErr (innerBase D F.mem offset) D.sizeof_rom_header then
        (0, [Op.read offset D.sizeof_rom_header_new,
             Op.read (innerBase D F.mem offset) D.sizeof_rom_header])
      else
        ((check_sections D F (innerBase D F.mem offset) (innerBase D F.mem offset)
            (fill F (innerBase D F.mem offset) D.sizeof_rom_header
              (fill F offset D.sizeof_rom_header_new (fun _ => 0)))).1,
         Op.read offset D.sizeof_rom_header_new ::
           Op.read (innerBase D F.mem offset) D.sizeof_rom_header ::
           (check_sections D F (innerBase D F.mem offset) (innerBase D F.mem offset)
            (fill F (innerBase D F.mem offset) D.sizeof_rom_header
              (fill F offset D.sizeof_rom_header_new (fun _ => 0)))).2) := by
  obtain ⟨hm, hc, -, -, hl, -, hne⟩ := hwf
  have hne2 : D.ROM_MAGIC_NEW1 ≠ D.ROM_MAGIC := fun h => hne h.symm
  simp only [check_image, h0, h1, or_self, if_false, hr, Bool.false_eq_true,
    fill_lt F _ _ _ _ hm, fill_lt F _ _ _ _ hc, hmagic, hmarker, hne2, and_self, if_true,
    get32_fill F _ _ _ _ hl, u32_skip, innerBase]

theorem getLast_snoc (l : List Op) (x : Op) : (l ++ [x]).getLast? = some x := by
  simp

/-! ## Lemmas on `find_image` -/

theorem cfg_nodup (D : Decls) (h : D.ConfigWF) :
    D.cfg_magic ≠ D.cfg_version ∧ D.cfg_magic ≠ D.cfg_mode ∧ D.cfg_magic ≠ D.cfg_current_rom ∧
    D.cfg_magic ≠ D.cfg_gpio_rom ∧ D.cfg_magic ≠ D.cfg_count ∧ D.cfg_magic ≠ D.cfg_chksum ∧
    D.cfg_version ≠ D.cfg_mode ∧ D.cfg_version ≠ D.cfg_current_rom ∧
    D.cfg_version ≠ D.cfg_gpio_rom ∧ D.cfg_version ≠ D.cfg_count ∧
    D.cfg_version ≠ D.cfg_chksum ∧
    D.cfg_mode ≠ D.cfg_current_rom ∧ D.cfg_mode ≠ D.cfg_gpio_rom ∧ D.cfg_mode ≠ D.cfg_count ∧
    D.cfg_mode ≠ D.cfg_chksum ∧
    D.cfg_current_rom ≠ D.cfg_gpio_rom ∧ D.cfg_current_rom ≠ D.cfg_count ∧
    D.cfg_current_rom ≠ D.cfg_chksum ∧
    D.cfg_gpio_rom ≠ D.cfg_count ∧ D.cfg_gpio_rom ≠ D.cfg_chksum ∧
    D.cfg_count ≠ D.cfg_chksum := by
  have hnd := h.1
  simp only [Decls.cfg_fields, List.nodup_cons, List.mem_cons,
    List.mem_singleton, List.not_mem_nil, or_false, not_or, List.nodup_nil, and_true,
    not_false_eq_true] at hnd
  tauto

theorem cfg_field_bounds (D : Decls) (h : D.ConfigWF) {f : Nat} (hf : f ∈ D.cfg_fields) :
    f < D.SECTOR_SIZE ∧ f < D.sizeof_rboot_config ∧
      (f < D.cfg_roms ∨ D.cfg_roms + 4 * D.MAX_ROMS ≤ f) := by
  obtain ⟨-, hb, -, hs, -, -, -⟩ := h
  have := hb f hf
  exact ⟨by omega, this.1, this.2⟩

theorem mem_cfg_fields (D : Decls) :
    D.cfg_magic ∈ D.cfg_fields ∧ D.cfg_version ∈ D.cfg_fields ∧ D.cfg_mode ∈ D.cfg_fields ∧
    D.cfg_current_rom ∈ D.cfg_fields ∧ D.cfg_gpio_rom ∈ D.cfg_fields ∧
    D.cfg_count ∈ D.cfg_fields ∧ D.cfg_chksum ∈ D.cfg_fields := by
  simp [Decls.cfg_fields]

theorem probe_eq_scan (D : Decls) (F : Flash) (buf : Nat → Nat) (s count : Nat)
    (hs : buf D.cfg_current_rom = s) (hc : buf D.cfg_count = count) (hsc : s < count) :
    ∀ (m j fuel : Nat), 0 < m → j + m = count → m ≤ fuel →
      probe D F buf false fuel (slotAt s count j : Nat) true =
        scan D F buf ((List.range' j m).map (slotAt s count)) := by
  intro m
  induction m with
  | zero => intro j fuel h; omega
  | succ m ih =>
    intro j fuel _ hj hf
    obtain ⟨fuel, rfl⟩ : ∃ k, fuel = k + 1 := ⟨fuel - 1, by omega⟩
    have hnext : (if ((slotAt s count j : Nat) : Int) - 1 < 0 then (buf D.cfg_count : Int) - 1
        else ((slotAt s count j : Nat) : Int) - 1) = ((slotAt s count (j + 1) : Nat) : Int) := by
      rw [hc]
      unfold slotAt
      split_ifs <;> omega
    simp only [List.range'_succ, List.map_cons, scan, probe, Bool.false_eq_true, if_false, hnext]
    by_cases h0 : (check_image D F (roms D buf ((slotAt s count j : Nat) : Int))).1 = 0
    · simp only [h0, if_true, hs]
      by_cases hm : m = 0
      · subst hm
        have hlast : slotAt s count (j + 1) = s := by
          unfold slotAt; split_ifs <;> omega
        simp [hlast, scan]
      · have hne : ((slotAt s count (j + 1) : Nat) : Int) ≠ (s : Int) := by
          unfold slotAt
          split_ifs <;> omega
        simp only [hne, if_false]
        rw [ih (j + 1) fuel (by omega) (by omega) (by omega)]
    · simp only [h0, if_false]

theorem stream_reads (D : Decls) (F : Flash) :
    ∀ (fuel remaining : Nat) (c : Cursor),
      ∀ op ∈ (stream D F fuel remaining c).2, op.modifies = false := by
  intro fuel
  induction fuel with
  | zero => intro remaining c op h; simp [stream] at h
  | succ fuel ih =>
    intro remaining c op h
    simp only [stream] at h
    by_cases hr : remaining > 0
    · simp only [hr, if_true] at h
      by_cases he : F.readErr c.readpos
          (if remaining < D.BUFFER_SIZE then remaining else D.BUFFER_SIZE) = true
      · simp only [he, if_true, List.mem_singleton] at h
        subst h; rfl
      · simp only [he, Bool.false_eq_true, if_false, List.mem_cons] at h
        rcases h with h | h
        · subst h; rfl
        · exact ih _ _ op h
    · simp [hr] at h

theorem sections_reads (D : Decls) (F : Flash) :
    ∀ (n : Nat) (c : Cursor), ∀ op ∈ (sections D F n c).2, op.modifies = false := by
  intro n
  induction n with
  | zero => intro c op h; simp [sections] at h
  | succ n ih =>
    intro c op h
    simp only [sections] at h
    split at h
    · simp only [List.mem_singleton] at h; subst h; rfl
    · split at h
      · simp only [List.mem_cons] at h
        rcases h with h | h
        · subst h; rfl
        · exact stream_reads D F _ _ _ op h
      · simp only [List.mem_cons, List.mem_append] at h
        rcases h with h | h | h
        · subst h; rfl
        · exact stream_reads D F _ _ _ op h
        · exact ih _ op h

theorem check_sections_reads (D : Decls) (F : Flash) (romaddr base : Nat) (buf : Nat → Nat) :
    ∀ op ∈ (check_sections D F romaddr base buf).2, op.modifies = false := by
  intro op h
  simp only [check_sections] at h
  split at h
  · exact sections_reads D F _ _ op h
  · split at h
    · simp only [List.mem_append, List.mem_singleton] at h
      rcases h with h | h
      · exact sections_reads D F _ _ op h
      · subst h; rfl
    · split at h <;>
      · simp only [List.mem_append, List.mem_singleton] at h
        rcases h with h | h
        · exact sections_reads D F _ _ op h
        · subst h; rfl

theorem check_image_reads (D : Decls) (F : Flash) (readpos : Nat) :
    ∀ op ∈ (check_image D F readpos).2, op.modifies = false := by
  intro op h
  simp only [check_image] at h
  split at h
  · simp at h
  · split at h
    · simp only [List.mem_singleton] at h; subst h; rfl
    · split at h
      · simp only [List.mem_cons] at h
        rcases h with h | h
        · subst h; rfl
        · exact check_sections_reads D F _ _ _ op h
      · split at h
        · split at h
          · simp only [List.mem_cons, List.mem_singleton, List.not_mem_nil, or_false] at h
            rcases h with h | h <;> (subst h; rfl)
          · simp only [List.mem_cons] at h
            rcases h with h | h | h
            · subst h; rfl
            · subst h; rfl
            · exact check_sections_reads D F _ _ _ op h
        · simp only [List.mem_singleton] at h; subst h; rfl

theorem scan_reads (D : Decls) (F : Flash) (buf : Nat → Nat) :
    ∀ (l : List Nat), ∀ op ∈ (scan D F buf l).2.1, op.modifies = false := by
  intro l
  induction l with
  | nil => intro op h; simp [scan] at h
  | cons i rest ih =>
    intro op h
    simp only [scan] at h
    split at h
    · simp only [List.mem_append] at h
      rcases h with h | h
      · exact check_image_reads D F _ op h
      · exact ih op h
    · exact check_image_reads D F _ op h

theorem scan_none (D : Decls) (F : Flash) (buf : Nat → Nat) :
    ∀ (l : List Nat), (∀ i ∈ l, slotValid D F buf i = false) →
      (scan D F buf l).1 = .failed ∧ (scan D F buf l).2.2 = l.map Int.ofNat := by
  intro l
  induction l with
  | nil => intro _; simp [scan]
  | cons i rest ih =>
    intro h
    have hi : (check_image D F (roms D buf (i : Int))).1 = 0 := by
      have := h i (List.mem_cons_self _ _)
      simpa [slotValid] using this
    have := ih (fun k hk => h k (List.mem_cons_of_mem _ hk))
    simp only [scan, hi, if_true, this, List.map_cons, Int.ofNat_eq_coe, and_self]

theorem scan_found (D : Decls) (F : Flash) (buf : Nat → Nat) (w : Nat) :
    ∀ (l : List Nat), l.find? (slotValid D F buf) = some w →
      (scan D F buf l).1 = .found (check_image D F (roms D buf (w : Int))).1 (w : Int) true ∧
      (scan D F buf l).2.2 =
        (l.takeWhile (fun i => !slotValid D F buf i) ++ [w]).map Int.ofNat := by
  intro l
  induction l with
  | nil => intro h; simp at h
  | cons i rest ih =>
    intro h
    by_cases hv : slotValid D F buf i = true
    · have hi : ¬ (check_image D F (roms D buf (i : Int))).1 = 0 := by
        simpa [slotValid] using hv
      rw [List.find?_cons_of_pos _ hv] at h
      have hw : i = w := Option.some.inj h
      subst hw
      simp [scan, hi, List.takeWhile_cons, hv]
    · have hv2 : slotValid D F buf i = false := by simpa using hv
      have hi : (check_image D F (roms D buf (i : Int))).1 = 0 := by
        simpa [slotValid] using hv2
      rw [List.find?_cons_of_neg _ hv] at h
      have := ih h
      simp [scan, hi, this, List.takeWhile_cons, hv2]

theorem set8_same (buf : Nat → Nat) (off v : Nat) : set8 buf off v off = u8 v := by
  simp [set8]

theorem set8_ne (buf : Nat → Nat) (off v i : Nat) (h : i ≠ off) : set8 buf off v i = buf i := by
  simp [set8, h]

theorem get32_set8 (buf : Nat → Nat) (off v a : Nat) (h : off < a ∨ a + 4 ≤ off) :
    get32 (set8 buf off v) a = get32 buf a := by
  unfold get32
  rw [set8_ne _ _ _ _ (by omega), set8_ne _ _ _ _ (by omega), set8_ne _ _ _ _ (by omega),
    set8_ne _ _ _ _ (by omega)]

theorem update_chksum_ne (D : Decls) (buf : Nat → Nat) (i : Nat) (h : i ≠ D.cfg_chksum) :
    update_chksum D buf i = buf i := by
  unfold update_chksum
  split
  · exact set8_ne _ _ _ _ h
  · rfl

theorem roms_set8 (D : Decls) (buf : Nat → Nat) (off v i : Nat) (hi : i < D.MAX_ROMS)
    (h : off < D.cfg_roms ∨ D.cfg_roms + 4 * D.MAX_ROMS ≤ off) :
    roms D (set8 buf off v) (i : Int) = roms D buf (i : Int) := by
  unfold roms
  have : ((D.cfg_roms : Int) + 4 * (i : Int)).toNat = D.cfg_roms + 4 * i := by omega
  rw [this]
  exact get32_set8 _ _ _ _ (by omega)

theorem readInto_lt (F : Flash) (addr len : Nat) (buf : Nat → Nat)
    (h : ∀ i, buf i < 256) (i : Nat) : readInto F addr len buf i < 256 := by
  unfold readInto
  split
  · exact h i
  · unfold fill u8
    split
    · exact Nat.mod_lt _ (by decide)
    · exact h i

theorem load_buffer_lt (D : Decls) (F : Flash) (stack : Nat → Nat) (i : Nat) :
    load_buffer D F stack i < 256 := by
  unfold load_buffer
  apply readInto_lt
  apply readInto_lt
  intro k
  exact Nat.mod_lt _ (by decide)

theorem scan_congr (D : Decls) (F : Flash) (buf1 buf2 : Nat → Nat) :
    ∀ (l : List Nat), (∀ i ∈ l, roms D buf1 (i : Int) = roms D buf2 (i : Int)) →
      scan D F buf1 l = scan D F buf2 l := by
  intro l
  induction l with
  | nil => intro _; rfl
  | cons i rest ih =>
    intro h
    simp only [scan, h i (List.mem_cons_self _ _), ih (fun k hk => h k (List.mem_cons_of_mem _ hk))]

theorem slotAt_lt (s count j : Nat) (hs : s < count) (hj : j < count) :
    slotAt s count j < count := by
  unfold slotAt; split <;> omega

theorem mem_probeOrder_lt (s count i : Nat) (hs : s < count) (h : i ∈ probeOrder s count) :
    i < count := by
  simp only [probeOrder, List.mem_map, List.mem_range] at h
  obtain ⟨j, hj, rfl⟩ := h
  exact slotAt_lt s count j hs hj

theorem load_config_valid (D : Decls) (F : Flash) (stack : Nat → Nat)
    (h : config_rejected D (load_buffer D F stack) = false) :
    load_config D F stack =
      (load_buffer D F stack, F,
        [Op.read 0 D.sizeof_rom_header,
         Op.read (u32 (D.BOOT_CONFIG_SECTOR * D.SECTOR_SIZE)) D.SECTOR_SIZE]) := by
  simp [load_config, h]

theorem startSlot_lt (D : Decls) (buf : Nat → Nat) (h : 1 ≤ buf D.cfg_count) :
    startSlot D buf < buf D.cfg_count := by
  unfold startSlot; split <;> omega

theorem scan_not_running (D : Decls) (F : Flash) (buf : Nat → Nat) :
    ∀ (l : List Nat), (scan D F buf l).1 ≠ .running := by
  intro l
  induction l with
  | nil => simp [scan]
  | cons i rest ih =>
    simp only [scan]
    split
    · exact ih
    · simp

/-- On the non-GPIO path, for a record `B` with `1 ≤ count ≤ MAX_ROMS` left in the buffer by
lines 156-243, `find_image` is the scan of the fallback order followed by the conclusion of
lines 264-299. -/
theorem find_image_nongpio (D : Decls) (F : Flash) (g : Nat) (stack : Nat → Nat) (fuel : Nat)
    (B : Nat → Nat) (F1 : Flash) (ops : List Op)
    (hwf : D.ConfigWF)
    (hl : load_config D F stack = (B, F1, ops))
    (hng : ¬ gpioSelected D B g)
    (h1 : 1 ≤ B D.cfg_count)
    (h2 : B D.cfg_count ≤ D.MAX_ROMS)
    (hfuel : B D.cfg_count ≤ fuel) :
    find_image D F g stack fuel =
      conclude D F1 (select D B g).2.2 ops
        (scan D F1 B (probeOrder (startSlot D B) (B D.cfg_count))) ∧
    (select D B g).2.2 D.cfg_current_rom = startSlot D B ∧
    (∀ i, i ≠ D.cfg_current_rom → (select D B g).2.2 i = B i) := by
  have hn := cfg_nodup D hwf
  have hcur := (cfg_field_bounds D hwf (mem_cfg_fields D).2.2.2.1).2.2
  have hslt := startSlot_lt D B h1
  have hng : ¬ ((B D.cfg_mode &&& D.MODE_GPIO_ROM) ≠ 0 ∧ get_gpio16 g = 0) := hng
  -- the selection
  have hsel1 : (select D B g).1 = (startSlot D B : Int) := by
    unfold select startSlot
    rw [if_neg hng]
    split <;> simp
  have hsel2 : (select D B g).2.1 = false := by
    unfold select
    rw [if_neg hng]
    split <;> rfl
  have hsel3 : (select D B g).2.2 =
      if B D.cfg_current_rom ≥ B D.cfg_count then set8 B D.cfg_current_rom 0 else B := by
    unfold select
    rw [if_neg hng]
    split <;> rfl
  have hcur' : (select D B g).2.2 D.cfg_current_rom = startSlot D B := by
    rw [hsel3]; unfold startSlot
    split
    · rw [set8_same]; rfl
    · rfl
  have hother : ∀ i, i ≠ D.cfg_current_rom → (select D B g).2.2 i = B i := by
    intro i hi
    rw [hsel3]
    split
    · exact set8_ne _ _ _ _ hi
    · rfl
  have hcount : (select D B g).2.2 D.cfg_count = B D.cfg_count :=
    hother _ (fun h => hn.2.2.2.2.2.2.2.2.2.2.2.2.2.2.2.2.1 h.symm)
  have hroms : ∀ i ∈ probeOrder (startSlot D B) (B D.cfg_count),
      roms D (select D B g).2.2 (i : Int) = roms D B (i : Int) := by
    intro i hi
    have hlt := mem_probeOrder_lt _ _ _ hslt hi
    rw [hsel3]
    split
    · exact roms_set8 D B _ _ i (by omega) hcur
    · rfl
  refine ⟨?_, hcur', hother⟩
  unfold find_image
  simp only [hl]
  rw [hsel1, hsel2]
  have hp := probe_eq_scan D F1 (select D B g).2.2 (startSlot D B) (B D.cfg_count) hcur' hcount
    hslt (B D.cfg_count) 0 fuel h1 (by omega) hfuel
  have h0 : slotAt (startSlot D B) (B D.cfg_count) 0 = startSlot D B := by
    unfold slotAt; simp
  rw [h0] at hp
  rw [hp]
  have hsc := scan_congr D F1 (select D B g).2.2 B _ hroms
  simp only [probeOrder, List.range_eq_range'] at hsc ⊢
  rw [hsc]

theorem slotAt_inj (s count j1 j2 : Nat) (h1 : j1 < count) (h2 : j2 < count)
    (h : slotAt s count j1 = slotAt s count j2) : j1 = j2 := by
  unfold slotAt at h
  split_ifs at h <;> omega

theorem probeOrder_count (s count i : Nat) (hs : s < count) (hi : i < count) :
    (probeOrder s count).count i = 1 := by
  apply List.count_eq_one_of_mem
  · unfold probeOrder
    apply List.Nodup.map_on
    · intro a ha b hb hab
      exact slotAt_inj s count a b (List.mem_range.mp ha) (List.mem_range.mp hb) hab
    · exact List.nodup_range count
  · simp only [probeOrder, List.mem_map, List.mem_range]
    refine ⟨if i ≤ s then s - i else s + count - i, ?_, ?_⟩
    · split <;> omega
    · unfold slotAt
      split_ifs <;> omega

theorem probeOrder_length (s count : Nat) : (probeOrder s count).length = count := by
  simp [probeOrder]

theorem get32_set32 (buf : Nat → Nat) (off v : Nat) : get32 (set32 buf off v) off = u32 v := by
  have e0 : off - off = 0 := by omega
  have e1 : off + 1 - off = 1 := by omega
  have e2 : off + 2 - off = 2 := by omega
  have e3 : off + 3 - off = 3 := by omega
  have c0 : off ≤ off ∧ off < off + 4 := by omega
  have c1 : off ≤ off + 1 ∧ off + 1 < off + 4 := by omega
  have c2 : off ≤ off + 2 ∧ off + 2 < off + 4 := by omega
  have c3 : off ≤ off + 3 ∧ off + 3 < off + 4 := by omega
  simp only [get32, set32, if_pos c0, if_pos c1, if_pos c2, if_pos c3, e0, e1, e2, e3]
  have hlt : u32 v < 4294967296 := by unfold u32; omega
  generalize u32 v = x at hlt ⊢
  norm_num
  omega

theorem get32_set32_ne (buf : Nat → Nat) (off v a : Nat) (h : a + 4 ≤ off ∨ off + 4 ≤ a) :
    get32 (set32 buf off v) a = get32 buf a := by
  have n0 : ¬ (off ≤ a ∧ a < off + 4) := by omega
  have n1 : ¬ (off ≤ a + 1 ∧ a + 1 < off + 4) := by omega
  have n2 : ¬ (off ≤ a + 2 ∧ a + 2 < off + 4) := by omega
  have n3 : ¬ (off ≤ a + 3 ∧ a + 3 < off + 4) := by omega
  simp only [get32, set32, if_neg n0, if_neg n1, if_neg n2, if_neg n3]

theorem get32_update_chksum (D : Decls) (buf : Nat → Nat) (a : Nat)
    (h : D.cfg_chksum < a ∨ a + 4 ≤ D.cfg_chksum) :
    get32 (update_chksum D buf) a = get32 buf a := by
  unfold update_chksum
  split
  · exact get32_set8 _ _ _ _ h
  · rfl

theorem set32_ne (buf : Nat → Nat) (off v i : Nat) (h : i < off ∨ off + 4 ≤ i) :
    set32 buf off v i = buf i := by
  have : ¬ (off ≤ i ∧ i < off + 4) := by omega
  simp only [set32, if_neg this]

theorem calc_chksum_congr (D : Decls) (b1 b2 : Nat → Nat) (n : Nat)
    (h : ∀ i, i < n → b1 i = b2 i) : calc_chksum D b1 0 n = calc_chksum D b2 0 n := by
  unfold calc_chksum
  apply List.foldl_ext
  intro c i hi
  have : i < n := by simpa using List.mem_range.mp hi
  simp only [Nat.zero_add, h i this]

theorem flashsize_le (D : Decls) (x : Nat) : flashsize D x ≤ 0x400000 := by
  unfold flashsize
  dsimp only
  split_ifs <;> omega

theorem conclude_some (D : Decls) (F : Flash) (buf : Nat → Nat) (ops : List Op)
    (p : LoopResult × List Op × List Int) (h : p.1 ≠ .running) :
    ∃ o rest, conclude D F buf ops p = some o ∧ o.trace = ops ++ rest := by
  unfold conclude
  dsimp only
  split
  · rename_i heq; exact absurd heq h
  · exact ⟨_, _, rfl, rfl⟩
  · split
    · exact ⟨_, _, rfl, List.append_assoc _ _ _⟩
    · exact ⟨_, _, rfl, rfl⟩

theorem set8_lt (buf : Nat → Nat) (off v : Nat) (h : ∀ i, buf i < 256) (i : Nat) :
    set8 buf off v i < 256 := by
  unfold set8 u8
  split
  · exact Nat.mod_lt _ (by decide)
  · exact h i

theorem set32_lt (buf : Nat → Nat) (off v : Nat) (h : ∀ i, buf i < 256) (i : Nat) :
    set32 buf off v i < 256 := by
  unfold set32
  split
  · exact Nat.mod_lt _ (by decide)
  · exact h i

theorem memset0_lt (buf : Nat → Nat) (n : Nat) (h : ∀ i, buf i < 256) (i : Nat) :
    memset0 buf n i < 256 := by
  unfold memset0
  split
  · decide
  · exact h i

theorem foldl_xor_lt (f : Nat → Nat) (hf : ∀ i, f i < 256) :
    ∀ (l : List Nat) (c : Nat), c < 256 → l.foldl (fun c i => c ^^^ f i) c < 256 := by
  intro l
  induction l with
  | nil => intro c hc; exact hc
  | cons a l ih =>
    intro c hc
    exact ih _ (Nat.xor_lt_two_pow (n := 8) hc (hf a))

theorem calc_chksum_lt (D : Decls) (buf : Nat → Nat) (start stop : Nat)
    (h : ∀ i, buf i < 256) : calc_chksum D buf start stop < 256 := by
  unfold calc_chksum
  exact foldl_xor_lt (fun i => buf (start + i)) (fun i => h _) _ _
    (Nat.mod_lt _ (by decide))

/-- The bytes of the default record outside the checksum field. -/
theorem default_config_byte (D : Decls) (B : Nat → Nat) (fs i : Nat)
    (hi : i ≠ D.cfg_chksum) :
    default_config D B fs i =
      set32 (set32 (set8 (set8 (set8 (memset0 B D.sizeof_rboot_config)
        D.cfg_magic D.BOOT_CONFIG_MAGIC) D.cfg_version D.BOOT_CONFIG_VERSION) D.cfg_count 2)
        D.cfg_roms (D.SECTOR_SIZE * 2)) (D.cfg_roms + 4) (fs / 2 + D.SECTOR_SIZE * 2) i := by
  unfold default_config
  exact update_chksum_ne D _ i hi

theorem clean_nil (F : Flash) (b : Bool) : Clean F b [] :=
  Or.inl (fun _ h => absurd h (List.not_mem_nil _))

theorem clean_fail (F : Flash) (a : Op) : Clean F true [a] :=
  Or.inr ⟨rfl, [], a, rfl, fun _ h => absurd h (List.not_mem_nil _)⟩

theorem clean_append (F : Flash) (b : Bool) (t1 t2 : List Op)
    (h1 : ∀ op ∈ t1, op.failsOn F = false) (h2 : Clean F b t2) : Clean F b (t1 ++ t2) := by
  rcases h2 with h2 | ⟨hb, pre, last, rfl, hp⟩
  · left
    intro op hop
    rcases List.mem_append.mp hop with h | h
    · exact h1 op h
    · exact h2 op h
  · right
    refine ⟨hb, t1 ++ pre, last, (List.append_assoc _ _ _).symm, ?_⟩
    intro op hop
    rcases List.mem_append.mp hop with h | h
    · exact h1 op h
    · exact hp op h

theorem clean_cons (F : Flash) (b : Bool) (a : Op) (t : List Op)
    (h1 : a.failsOn F = false) (h2 : Clean F b t) : Clean F b (a :: t) :=
  clean_append F b [a] t (fun op h => by rw [List.mem_singleton.mp h]; exact h1) h2

theorem clean_ok (F : Flash) (t : List Op) (h : Clean F false t) :
    ∀ op ∈ t, op.failsOn F = false := by
  rcases h with h | ⟨hb, -⟩
  · exact h
  · exact absurd hb (by decide)

theorem clean_weaken (F : Flash) (t : List Op) (h : ∀ op ∈ t, op.failsOn F = false)
    (b : Bool) : Clean F b t := Or.inl h

theorem stream_clean (D : Decls) (F : Flash) :
    ∀ (fuel remaining : Nat) (c : Cursor),
      Clean F (stream D F fuel remaining c).1.isNone (stream D F fuel remaining c).2 := by
  intro fuel
  induction fuel with
  | zero => intro remaining c; exact clean_nil F _
  | succ fuel ih =>
    intro remaining c
    simp only [stream]
    by_cases hr : remaining > 0
    · simp only [hr, if_true]
      by_cases he : F.readErr c.readpos
          (if remaining < D.BUFFER_SIZE then remaining else D.BUFFER_SIZE) = true
      · simp only [he, if_true]
        exact clean_fail F _
      · simp only [he, Bool.false_eq_true, if_false]
        exact clean_cons F _ _ _ (by simpa [Op.failsOn] using he) (ih _ _)
    · simp only [hr, if_false]
      exact clean_nil F _

theorem sections_clean (D : Decls) (F : Flash) :
    ∀ (n : Nat) (c : Cursor), Clean F (sections D F n c).1.isNone (sections D F n c).2 := by
  intro n
  induction n with
  | zero => intro c; exact clean_nil F _
  | succ n ih =>
    intro c
    simp only [sections]
    by_cases he : F.readErr c.readpos D.sizeof_section_header = true
    · simp only [he, if_true]
      exact clean_fail F _
    · simp only [he, Bool.false_eq_true, if_false]
      have hs := stream_clean D F
        (get32 (fill F c.readpos D.sizeof_section_header c.buffer) D.sec_length)
        (get32 (fill F c.readpos D.sizeof_section_header c.buffer) D.sec_length)
        { readpos := u32 (c.readpos + D.sizeof_section_header), chksum := c.chksum,
          buffer := fill F c.readpos D.sizeof_section_header c.buffer }
      have hrd : (Op.read c.readpos D.sizeof_section_header).failsOn F = false := by
        simpa [Op.failsOn] using he
      split
      · rename_i hnone
        rw [hnone] at hs
        exact clean_cons F _ _ _ hrd hs
      · rename_i c1 hsome
        rw [hsome] at hs
        exact clean_cons F _ _ _ hrd (clean_append F _ _ _ (clean_ok F _ hs) (ih c1))

theorem check_sections_clean (D : Decls) (F : Flash) (romaddr base : Nat) (buf : Nat → Nat) :
    Clean F (decide ((check_sections D F romaddr base buf).1 = 0))
      (check_sections D F romaddr base buf).2 := by
  have hs := sections_clean D F (buf D.new_count)
    { readpos := u32 (base + D.sizeof_rom_header), chksum := u8 D.CHKSUM_INIT, buffer := buf }
  simp only [check_sections]
  split
  · rename_i hnone
    rw [hnone] at hs
    simpa using hs
  · rename_i c hsome
    rw [hsome] at hs
    have hok := clean_ok F _ hs
    by_cases he : F.readErr (c.readpos ||| 15) 1 = true
    · simp only [he, if_true]
      exact clean_append F _ _ _ hok (by simpa using clean_fail F _)
    · have hrd : (Op.read (c.readpos ||| 15) 1).failsOn F = false := by
        simpa [Op.failsOn] using he
      have hall : ∀ op ∈ (sections D F (buf D.new_count)
          { readpos := u32 (base + D.sizeof_rom_header), chksum := u8 D.CHKSUM_INIT,
            buffer := buf }).2 ++ [Op.read (c.readpos ||| 15) 1], op.failsOn F = false := by
        intro op hop
        rcases List.mem_append.mp hop with h | h
        · exact hok op h
        · rw [List.mem_singleton.mp h]; exact hrd
      simp only [he, Bool.false_eq_true, if_false]
      split <;> exact clean_weaken F _ hall _

theorem check_image_clean (D : Decls) (F : Flash) (readpos : Nat) :
    Clean F (decide ((check_image D F readpos).1 = 0)) (check_image D F readpos).2 := by
  simp only [check_image]
  split
  · exact clean_nil F _
  · by_cases he : F.readErr readpos D.sizeof_rom_header_new = true
    · simp only [he, if_true]
      simpa using clean_fail F _
    · have hrd : (Op.read readpos D.sizeof_rom_header_new).failsOn F = false := by
        simpa [Op.failsOn] using he
      simp only [he, Bool.false_eq_true, if_false]
      split
      · exact clean_cons F _ _ _ hrd (check_sections_clean D F _ _ _)
      · split
        · split
          · rename_i he2
            exact clean_cons F _ _ _ hrd (by simpa using clean_fail F _)
          · rename_i he2
            have hrd2 : (Op.read (u32 (readpos + u32 (get32 (fill F readpos
                D.sizeof_rom_header_new fun _ => 0) D.new_len + D.sizeof_rom_header_new)))
                D.sizeof_rom_header).failsOn F = false := by
              simpa [Op.failsOn] using he2
            exact clean_cons F _ _ _ hrd (clean_cons F _ _ _ hrd2
              (check_sections_clean D F _ _ _))
        · exact clean_weaken F _ (fun op h => by rw [List.mem_singleton.mp h]; exact hrd) _

theorem stream_indep (D : Decls) (F1 F2 : Flash)
    (hE : ∀ a l, F1.readErr a l = F2.readErr a l) :
    ∀ (fuel remaining : Nat) (c1 c2 : Cursor),
      c1.readpos = c2.readpos → c1.chksum = c2.chksum → remaining ≤ fuel →
      c1.readpos + remaining < 2 ^ 32 →
      (∀ x, c1.readpos ≤ x → x < c1.readpos + remaining → F1.mem x = F2.mem x) →
      (stream D F1 fuel remaining c1).2 = (stream D F2 fuel remaining c2).2 ∧
      (((stream D F1 fuel remaining c1).1 = none ∧ (stream D F2 fuel remaining c2).1 = none) ∨
        ∃ d1 d2, (stream D F1 fuel remaining c1).1 = some d1 ∧
          (stream D F2 fuel remaining c2).1 = some d2 ∧
          d1.readpos = c1.readpos + remaining ∧ d2.readpos = d1.readpos ∧
          d1.chksum = d2.chksum) := by
  intro fuel
  induction fuel with
  | zero =>
    intro remaining c1 c2 hp hc hf _ _
    have : remaining = 0 := by omega
    subst this
    exact ⟨rfl, Or.inr ⟨c1, c2, rfl, rfl, rfl, hp.symm, hc⟩⟩
  | succ fuel ih =>
    intro remaining c1 c2 hp hc hf hw hm
    by_cases hr : remaining > 0
    · have hB := D.hBUF
      simp only [stream, hr, if_true, ← hp, ← hE]
      set readlen := if remaining < D.BUFFER_SIZE then remaining else D.BUFFER_SIZE with hrl
      have h1 : readlen ≤ remaining := by rw [hrl]; split <;> omega
      have h2 : 0 < readlen := by rw [hrl]; split <;> omega
      by_cases he : F1.readErr c1.readpos readlen = true
      · simp only [he, if_true]
        exact ⟨trivial, Or.inl ⟨trivial, trivial⟩⟩
      · simp only [he, Bool.false_eq_true, if_false]
        have hu : u32 (c1.readpos + readlen) = c1.readpos + readlen := by
          unfold u32; apply Nat.mod_eq_of_lt; omega
        have hx : xorBuf (fill F1 c1.readpos readlen c1.buffer) readlen c1.chksum =
            xorBuf (fill F2 c1.readpos readlen c2.buffer) readlen c2.chksum := by
          rw [xorBuf_fill, xorBuf_fill, hc,
            bytesAt_congr F1.mem F2.mem _ _ (fun x hx1 hx2 => hm x hx1 (by omega))]
        obtain ⟨ht, hres⟩ := ih (remaining - readlen)
          { readpos := u32 (c1.readpos + readlen),
            chksum := xorBuf (fill F1 c1.readpos readlen c1.buffer) readlen c1.chksum,
            buffer := fill F1 c1.readpos readlen c1.buffer }
          { readpos := u32 (c1.readpos + readlen),
            chksum := xorBuf (fill F2 c1.readpos readlen c2.buffer) readlen c2.chksum,
            buffer := fill F2 c1.readpos readlen c2.buffer }
          rfl hx (by omega) (by simp only [hu]; omega)
          (fun x hx1 hx2 => hm x (by simp only [hu] at hx1; omega)
            (by simp only [hu] at hx2; omega))
        refine ⟨by rw [ht], ?_⟩
        rcases hres with ⟨n1, n2⟩ | ⟨d1, d2, e1, e2, e3, e4, e5⟩
        · exact Or.inl ⟨n1, n2⟩
        · refine Or.inr ⟨d1, d2, e1, e2, ?_, e4, e5⟩
          rw [e3]; simp only [hu]; omega
    · have : remaining = 0 := by omega
      subst this
      simp only [stream, gt_iff_lt, Nat.lt_irrefl, if_false]
      exact ⟨trivial, Or.inr ⟨c1, c2, rfl, rfl, rfl, hp.symm, hc⟩⟩

theorem sections_indep (D : Decls) (F1 F2 : Flash)
    (hsec : D.sec_length + 4 ≤ D.sizeof_section_header)
    (hE : ∀ a l, F1.readErr a l = F2.readErr a l) :
    ∀ (n : Nat) (c1 c2 : Cursor),
      c1.readpos = c2.readpos → c1.chksum = c2.chksum →
      sectionsEnd D F1.mem n c1.readpos < 2 ^ 32 →
      (∀ x, c1.readpos ≤ x → F1.mem x = F2.mem x) →
      (sections D F1 n c1).2 = (sections D F2 n c2).2 ∧
      (((sections D F1 n c1).1 = none ∧ (sections D F2 n c2).1 = none) ∨
        ∃ d1 d2, (sections D F1 n c1).1 = some d1 ∧ (sections D F2 n c2).1 = some d2 ∧
          d1.readpos = sectionsEnd D F1.mem n c1.readpos ∧
          d2.readpos = d1.readpos ∧ d1.chksum = d2.chksum) := by
  intro n
  induction n with
  | zero =>
    intro c1 c2 hp hc _ _
    exact ⟨rfl, Or.inr ⟨c1, c2, rfl, rfl, rfl, hp.symm, hc⟩⟩
  | succ n ih =>
    intro c1 c2 hp hc hw hm
    have hmono := le_sectionsEnd D F1.mem n
      (c1.readpos + D.sizeof_section_header + sectionLength D F1.mem c1.readpos)
    simp only [sectionsEnd] at hw
    have hu : u32 (c1.readpos + D.sizeof_section_header) =
        c1.readpos + D.sizeof_section_header := by
      unfold u32; apply Nat.mod_eq_of_lt; omega
    have hl1 : get32 (fill F1 c1.readpos D.sizeof_section_header c1.buffer) D.sec_length
        = sectionLength D F1.mem c1.readpos := by
      rw [get32_fill _ _ _ _ _ hsec]; rfl
    have hl2 : get32 (fill F2 c1.readpos D.sizeof_section_header c2.buffer) D.sec_length
        = sectionLength D F1.mem c1.readpos := by
      rw [get32_fill _ _ _ _ _ hsec]
      exact (word32_congr _ _ _ (fun x hx _ => hm x (by omega))).symm
    simp only [sections, ← hp, ← hE]
    by_cases he : F1.readErr c1.readpos D.sizeof_section_header = true
    · simp only [he, if_true]
      exact ⟨trivial, Or.inl ⟨trivial, trivial⟩⟩
    · simp only [he, Bool.false_eq_true, if_false, hl1, hl2, hu]
      obtain ⟨ht, hres⟩ := stream_indep D F1 F2 hE (sectionLength D F1.mem c1.readpos)
        (sectionLength D F1.mem c1.readpos)
        { readpos := c1.readpos + D.sizeof_section_header, chksum := c1.chksum,
          buffer := fill F1 c1.readpos D.sizeof_section_header c1.buffer }
        { readpos := c1.readpos + D.sizeof_section_header, chksum := c2.chksum,
          buffer := fill F2 c1.readpos D.sizeof_section_header c2.buffer }
        rfl hc (Nat.le_refl _) (by dsimp only; omega) (fun x hx _ => hm x (by dsimp only at hx; omega))
      rcases hres with ⟨n1, n2⟩ | ⟨d1, d2, e1, e2, e3, e4, e5⟩
      · simp only [n1, n2, ht]
        exact ⟨trivial, Or.inl ⟨trivial, trivial⟩⟩
      · simp only [e1, e2, ht]
        dsimp only at e3
        obtain ⟨ht2, hres2⟩ := ih d1 d2 e4.symm e5 (by rw [e3]; exact hw)
          (fun x hx => hm x (by rw [e3] at hx; omega))
        refine ⟨by rw [ht2], ?_⟩
        rcases hres2 with ⟨m1, m2⟩ | ⟨f1, f2, g1, g2, g3, g4, g5⟩
        · exact Or.inl ⟨m1, m2⟩
        · refine Or.inr ⟨f1, f2, g1, g2, ?_, g4, g5⟩
          rw [g3, e3]
          simp only [sectionsEnd]

theorem check_sections_indep (D : Decls) (F1 F2 : Flash)
    (hsec : D.sec_length + 4 ≤ D.sizeof_section_header)
    (hE : ∀ a l, F1.readErr a l = F2.readErr a l)
    (romaddr base : Nat) (b1 b2 : Nat → Nat)
    (hcount : b1 D.new_count = b2 D.new_count)
    (hw : sectionsEnd D F1.mem (b1 D.new_count) (base + D.sizeof_rom_header) ||| 0x0f < 2 ^ 32)
    (hm : ∀ x, base + D.sizeof_rom_header ≤ x → F1.mem x = F2.mem x) :
    check_sections D F1 romaddr base b1 = check_sections D F2 romaddr base b2 := by
  have hle := le_lor_15 (sectionsEnd D F1.mem (b1 D.new_count) (base + D.sizeof_rom_header))
  have hmono := le_sectionsEnd D F1.mem (b1 D.new_count) (base + D.sizeof_rom_header)
  have hu : u32 (base + D.sizeof_rom_header) = base + D.sizeof_rom_header := by
    unfold u32; apply Nat.mod_eq_of_lt; omega
  obtain ⟨ht, hres⟩ := sections_indep D F1 F2 hsec hE (b1 D.new_count)
    { readpos := base + D.sizeof_rom_header, chksum := u8 D.CHKSUM_INIT, buffer := b1 }
    { readpos := base + D.sizeof_rom_header, chksum := u8 D.CHKSUM_INIT, buffer := b2 }
    rfl rfl (by dsimp only; omega) (fun x hx => hm x hx)
  simp only [check_sections, hu, ← hcount]
  rcases hres with ⟨n1, n2⟩ | ⟨d1, d2, e1, e2, e3, e4, e5⟩
  · simp only [n1, n2, ht]
  · dsimp only at e3
    have h0 : fill F2 (d1.readpos ||| 15) 1 d2.buffer 0 =
        fill F1 (d1.readpos ||| 15) 1 d1.buffer 0 := by
      simp only [fill, Nat.lt_one_iff, if_true, Nat.add_zero]
      rw [hm (d1.readpos ||| 15) (by rw [e3]; omega)]
    simp only [e1, e2, ht, e4, ← hE, ← e5, h0]

theorem default_config_eq (D : Decls) (buf : Nat → Nat) (fs : Nat) :
    default_config D buf fs = update_chksum D (default_body D buf fs) := rfl

theorem cfg_field_outside (D : Decls) (hwf : D.ConfigWF) {f : Nat} (hf : f ∈ D.cfg_fields) :
    (f < D.cfg_roms ∨ D.cfg_roms + 4 ≤ f) ∧ (f < D.cfg_roms + 4 ∨ D.cfg_roms + 4 + 4 ≤ f) ∧
    ¬ (D.cfg_roms ≤ f ∧ f < D.cfg_roms + 8) := by
  have hb := (cfg_field_bounds D hwf hf).2.2
  have hmax : 2 ≤ D.MAX_ROMS := hwf.2.2.2.2.1
  omega

theorem default_body_zero (D : Decls) (B : Nat → Nat) (fs i : Nat)
    (h1 : i < D.sizeof_rboot_config) (h2 : i ≠ D.cfg_magic) (h3 : i ≠ D.cfg_version)
    (h4 : i ≠ D.cfg_count) (h5 : i < D.cfg_roms ∨ D.cfg_roms + 4 ≤ i)
    (h6 : i < D.cfg_roms + 4 ∨ D.cfg_roms + 4 + 4 ≤ i) :
    default_body D B fs i = 0 := by
  unfold default_body
  rw [set32_ne _ _ _ _ h6, set32_ne _ _ _ _ h5,
    set8_ne _ _ _ _ h4, set8_ne _ _ _ _ h3, set8_ne _ _ _ _ h2]
  simp only [memset0, if_pos h1]

theorem default_body_fields (D : Decls) (hwf : D.ConfigWF) (B : Nat → Nat) (fs : Nat) :
    default_body D B fs D.cfg_magic = u8 D.BOOT_CONFIG_MAGIC ∧
    default_body D B fs D.cfg_version = u8 D.BOOT_CONFIG_VERSION ∧
    default_body D B fs D.cfg_mode = 0 ∧
    default_body D B fs D.cfg_current_rom = 0 ∧
    default_body D B fs D.cfg_gpio_rom = 0 ∧
    default_body D B fs D.cfg_count = 2 := by
  have hn := cfg_nodup D hwf
  obtain ⟨m1, m2, m3, m4, m5, m6, m7⟩ := mem_cfg_fields D
  have o1 := cfg_field_outside D hwf m1
  have o2 := cfg_field_outside D hwf m2
  have o3 := cfg_field_outside D hwf m3
  have o4 := cfg_field_outside D hwf m4
  have o5 := cfg_field_outside D hwf m5
  have o6 := cfg_field_outside D hwf m6
  have s3 := (cfg_field_bounds D hwf m3).2.1
  have s4 := (cfg_field_bounds D hwf m4).2.1
  have s5 := (cfg_field_bounds D hwf m5).2.1
  obtain ⟨n1, n2, n3, n4, n5, n6, n7, n8, n9, n10, n11, n12, n13, n14, n15, n16, n17, n18, n19,
    n20, n21⟩ := hn
  refine ⟨?_, ?_, ?_, ?_, ?_, ?_⟩
  · unfold default_body
    rw [set32_ne _ _ _ _ o1.2.1, set32_ne _ _ _ _ o1.1,
      set8_ne _ _ _ _ n5, set8_ne _ _ _ _ n1, set8_same]
  · unfold default_body
    rw [set32_ne _ _ _ _ o2.2.1, set32_ne _ _ _ _ o2.1, set8_ne _ _ _ _ n10, set8_same]
  · exact default_body_zero D B fs _ s3 (fun h => n2 h.symm) (fun h => n7 h.symm) n14 o3.1 o3.2.1
  · exact default_body_zero D B fs _ s4 (fun h => n3 h.symm) (fun h => n8 h.symm) n17 o4.1 o4.2.1
  · exact default_body_zero D B fs _ s5 (fun h => n4 h.symm) (fun h => n9 h.symm) n19 o5.1 o5.2.1
  · unfold default_body
    rw [set32_ne _ _ _ _ o6.2.1, set32_ne _ _ _ _ o6.1, set8_same]
    rfl

theorem default_body_lt (D : Decls) (F : Flash) (stack : Nat → Nat) (fs i : Nat) :
    default_body D (load_buffer D F stack) fs i < 256 := by
  unfold default_body
  apply set32_lt
  apply set32_lt
  apply set8_lt
  apply set8_lt
  apply set8_lt
  apply memset0_lt
  exact load_buffer_lt D F stack

theorem update_chksum_lt (D : Decls) (buf : Nat → Nat) (h : ∀ i, buf i < 256) (i : Nat) :
    update_chksum D buf i < 256 := by
  unfold update_chksum
  split
  · exact set8_lt _ _ _ h i
  · exact h i

theorem select_lt (D : Decls) (buf : Nat → Nat) (g : Nat) (h : ∀ i, buf i < 256) (i : Nat) :
    (select D buf g).2.2 i < 256 := by
  unfold select
  split
  · exact h i
  · split
    · exact set8_lt _ _ _ h i
    · exact h i

theorem load_config_lt (D : Decls) (F : Flash) (stack : Nat → Nat) (i : Nat) :
    (load_config D F stack).1 i < 256 := by
  unfold load_config
  dsimp only
  split
  · rw [default_config_eq]
    exact update_chksum_lt D _ (default_body_lt D F stack _) i
  · exact load_buffer_lt D F stack i

theorem probe_reads (D : Decls) (F : Flash) (buf : Nat → Nat) (gb : Bool) :
    ∀ (fuel : Nat) (r : Int) (u : Bool),
      ∀ op ∈ (probe D F buf gb fuel r u).2.1, op.modifies = false := by
  intro fuel
  induction fuel with
  | zero => intro r u op h; simp [probe] at h
  | succ fuel ih =>
    intro r u op h
    simp only [probe] at h
    generalize (if r - 1 < 0 then (buf D.cfg_count : Int) - 1 else r - 1) = nx at h
    by_cases h0 : (check_image D F (roms D buf r)).1 = 0
    · simp only [h0, if_true] at h
      rcases Bool.eq_false_or_eq_true gb with hgb | hgb
      · subst hgb
        simp only [if_true] at h
        exact check_image_reads D F _ op h
      · subst hgb
        simp only [Bool.false_eq_true, if_false] at h
        by_cases hnx : nx = (buf D.cfg_current_rom : Int)
        · simp only [hnx, if_true] at h
          exact check_image_reads D F _ op h
        · simp only [hnx, if_false] at h
          rcases List.mem_append.mp h with h | h
          · exact check_image_reads D F _ op h
          · exact ih _ _ op h
    · simp only [h0, if_false] at h
      exact check_image_reads D F _ op h

theorem probe_found (D : Decls) (F : Flash) (buf : Nat → Nat) (gb : Bool) :
    ∀ (fuel : Nat) (r : Int) (u : Bool) (a : Nat) (w : Int) (u2 : Bool),
      (probe D F buf gb fuel r u).1 = .found a w u2 →
      a ≠ 0 ∧ a = (check_image D F (roms D buf w)).1 ∧
      (probe D F buf gb fuel r u).2.2.getLast? = some w := by
  intro fuel
  induction fuel with
  | zero => intro r u a w u2 h; simp [probe] at h
  | succ fuel ih =>
    intro r u a w u2 h
    simp only [probe] at h ⊢
    generalize (if r - 1 < 0 then (buf D.cfg_count : Int) - 1 else r - 1) = nx at h ⊢
    by_cases h0 : (check_image D F (roms D buf r)).1 = 0
    · simp only [h0, if_true] at h ⊢
      rcases Bool.eq_false_or_eq_true gb with hgb | hgb
      · subst hgb
        simp at h
      · subst hgb
        simp only [Bool.false_eq_true, if_false] at h ⊢
        by_cases hnx : nx = (buf D.cfg_current_rom : Int)
        · simp [hnx] at h
        · simp only [hnx, if_false] at h ⊢
          obtain ⟨e1, e2, e3⟩ := ih _ _ a w u2 h
          refine ⟨e1, e2, ?_⟩
          rw [List.getLast?_cons, e3]
          rfl
    · simp only [h0, if_false] at h ⊢
      simp only [LoopResult.found.injEq] at h
      obtain ⟨rfl, rfl, -⟩ := h
      exact ⟨h0, rfl, rfl⟩

theorem probe_head (D : Decls) (F : Flash) (buf : Nat → Nat) (gb : Bool)
    (fuel : Nat) (r : Int) (u : Bool) :
    ∃ rest1 rest2, (probe D F buf gb (fuel + 1) r u).2.1 =
        (check_image D F (roms D buf r)).2 ++ rest1 ∧
      (probe D F buf gb (fuel + 1) r u).2.2 = r :: rest2 := by
  simp only [probe]
  generalize (if r - 1 < 0 then (buf D.cfg_count : Int) - 1 else r - 1) = nx
  by_cases h0 : (check_image D F (roms D buf r)).1 = 0
  · simp only [h0, if_true]
    rcases Bool.eq_false_or_eq_true gb with hgb | hgb
    · subst hgb
      simp only [if_true]
      exact ⟨[], [], (List.append_nil _).symm, rfl⟩
    · subst hgb
      simp only [Bool.false_eq_true, if_false]
      by_cases hnx : nx = (buf D.cfg_current_rom : Int)
      · simp only [hnx, if_true]
        exact ⟨[], [], (List.append_nil _).symm, rfl⟩
      · simp only [hnx, if_false]
        exact ⟨_, _, rfl, rfl⟩
  · simp only [h0, if_false]
    exact ⟨[], [], (List.append_nil _).symm, rfl⟩

theorem probe_update (D : Decls) (F : Flash) (buf : Nat → Nat) (gb : Bool) :
    ∀ (fuel : Nat) (r : Int) (a : Nat) (w : Int) (u2 : Bool),
      (probe D F buf gb fuel r true).1 = .found a w u2 → u2 = true := by
  intro fuel
  induction fuel with
  | zero => intro r a w u2 h; simp [probe] at h
  | succ fuel ih =>
    intro r a w u2 h
    simp only [probe] at h
    generalize (if r - 1 < 0 then (buf D.cfg_count : Int) - 1 else r - 1) = nx at h
    by_cases h0 : (check_image D F (roms D buf r)).1 = 0
    · simp only [h0, if_true] at h
      rcases Bool.eq_false_or_eq_true gb with hgb | hgb
      · subst hgb
        simp at h
      · subst hgb
        simp only [Bool.false_eq_true, if_false] at h
        by_cases hnx : nx = (buf D.cfg_current_rom : Int)
        · simp [hnx] at h
        · simp only [hnx, if_false] at h
          exact ih _ a w u2 h
    · simp only [h0, if_false, LoopResult.found.injEq] at h
      exact h.2.2.symm

/-- The shape of every run of `find_image` that returns: the operations of lines 156-243,
then the reads of the probes (the first probe being the selected slot), then, exactly when
the result is nonzero, the erase and the write of the record with `current_rom` set to the
last slot probed. -/
theorem find_image_shape (D : Decls) (F : Flash) (g : Nat) (stack : Nat → Nat) (fuel : Nat)
    (o : Outcome) (B1 : Nat → Nat) (F1 : Flash) (ops : List Op)
    (hl : load_config D F stack = (B1, F1, ops))
    (h : find_image D F g stack fuel = some o) :
    ∃ reads rest, (∀ op ∈ reads, op.modifies = false) ∧
      reads = (check_image D F1 (roms D (select D B1 g).2.2 (select D B1 g).1)).2 ++ rest ∧
      o.probes.head? = some (select D B1 g).1 ∧
      ((o.ret = 0 ∧ o.trace = ops ++ reads ∧ o.flash = F1 ∧ o.buffer = (select D B1 g).2.2) ∨
       (o.ret ≠ 0 ∧ ∃ w : Int, o.probes.getLast? = some w ∧
          o.ret = (check_image D F1 (roms D (select D B1 g).2.2 w)).1 ∧
          o.buffer = update_chksum D
            (set8 (select D B1 g).2.2 D.cfg_current_rom (w % 256).toNat) ∧
          o.trace = ops ++ reads ++ [Op.erase D.BOOT_CONFIG_SECTOR,
            Op.write (u32 (D.BOOT_CONFIG_SECTOR * D.SECTOR_SIZE)) D.SECTOR_SIZE o.buffer] ∧
          o.flash = (F1.erase D D.BOOT_CONFIG_SECTOR).write
            (u32 (D.BOOT_CONFIG_SECTOR * D.SECTOR_SIZE)) D.SECTOR_SIZE o.buffer)) := by
  unfold find_image at h
  simp only [hl] at h
  obtain ⟨fuel, rfl⟩ : ∃ k, fuel = k + 1 := by
    cases fuel with
    | zero => simp [probe, conclude] at h
    | succ k => exact ⟨k, rfl⟩
  obtain ⟨rest1, rest2, hr1, hr2⟩ := probe_head D F1 (select D B1 g).2.2 (select D B1 g).2.1
    fuel (select D B1 g).1 true
  have hreads := probe_reads D F1 (select D B1 g).2.2 (select D B1 g).2.1 (fuel + 1)
    (select D B1 g).1 true
  generalize hp : probe D F1 (select D B1 g).2.2 (select D B1 g).2.1 (fuel + 1)
    (select D B1 g).1 true = p at h hr1 hr2 hreads
  have hfound := probe_found D F1 (select D B1 g).2.2 (select D B1 g).2.1 (fuel + 1)
    (select D B1 g).1 true
  have hupd := probe_update D F1 (select D B1 g).2.2 (select D B1 g).2.1 (fuel + 1)
    (select D B1 g).1
  rw [hp] at hfound hupd
  refine ⟨p.2.1, rest1, hreads, hr1, ?_, ?_⟩
  · unfold conclude at h
    dsimp only at h
    split at h
    · simp at h
    · simp only [Option.some.injEq] at h
      subst h
      show p.2.2.head? = _
      rw [hr2]; rfl
    · rename_i a w u2 heq
      have hu := hupd a w u2 heq
      subst hu
      simp only [if_true, Option.some.injEq] at h
      subst h
      show p.2.2.head? = _
      rw [hr2]; rfl
  · unfold conclude at h
    dsimp only at h
    split at h
    · simp at h
    · simp only [Option.some.injEq] at h
      subst h
      exact Or.inl ⟨rfl, rfl, rfl, rfl⟩
    · rename_i a w u2 heq
      have hu := hupd a w u2 heq
      subst hu
      obtain ⟨e1, e2, e3⟩ := hfound a w true heq
      simp only [if_true, Option.some.injEq] at h
      subst h
      exact Or.inr ⟨e1, w, e3, e2, rfl, rfl, rfl⟩

theorem load_config_rejected (D : Decls) (F : Flash) (stack : Nat → Nat)
    (h : config_rejected D (load_buffer D F stack) = true) :
    load_config D F stack =
      (default_config D (load_buffer D F stack) (detected_flashsize D F stack),
       (F.erase D D.BOOT_CONFIG_SECTOR).write (u32 (D.BOOT_CONFIG_SECTOR * D.SECTOR_SIZE))
          D.SECTOR_SIZE
          (default_config D (load_buffer D F stack) (detected_flashsize D F stack)),
       [Op.read 0 D.sizeof_rom_header,
        Op.read (u32 (D.BOOT_CONFIG_SECTOR * D.SECTOR_SIZE)) D.SECTOR_SIZE,
        Op.erase D.BOOT_CONFIG_SECTOR,
        Op.write (u32 (D.BOOT_CONFIG_SECTOR * D.SECTOR_SIZE)) D.SECTOR_SIZE
          (default_config D (load_buffer D F stack) (detected_flashsize D F stack))]) := by
  simp only [load_config, h, if_true, detected_flashsize, List.cons_append, List.nil_append]

theorem default_config_fields (D : Decls) (hwf : D.ConfigWF) (B : Nat → Nat) (fs : Nat) :
    default_config D B fs D.cfg_magic = u8 D.BOOT_CONFIG_MAGIC ∧
    default_config D B fs D.cfg_version = u8 D.BOOT_CONFIG_VERSION ∧
    default_config D B fs D.cfg_mode = 0 ∧
    default_config D B fs D.cfg_current_rom = 0 ∧
    default_config D B fs D.cfg_gpio_rom = 0 ∧
    default_config D B fs D.cfg_count = 2 := by
  obtain ⟨n1, n2, n3, n4, n5, n6, n7, n8, n9, n10, n11, n12, n13, n14, n15, n16, n17, n18, n19,
    n20, n21⟩ := cfg_nodup D hwf
  obtain ⟨f1, f2, f3, f4, f5, f6⟩ := default_body_fields D hwf B fs
  rw [default_config_eq, update_chksum_ne D _ _ n6, update_chksum_ne D _ _ n11,
    update_chksum_ne D _ _ n15, update_chksum_ne D _ _ n18, update_chksum_ne D _ _ n20,
    update_chksum_ne D _ _ n21]
  exact ⟨f1, f2, f3, f4, f5, f6⟩

theorem default_config_not_gpio (D : Decls) (hwf : D.ConfigWF) (B : Nat → Nat) (fs g : Nat) :
    ¬ gpioSelected D (default_config D B fs) g := by
  unfold gpioSelected
  rw [(default_config_fields D hwf B fs).2.2.1, Nat.zero_and]
  simp

/-- After a rejected record `find_image` returns (two iterations suffice), its trace starting
with the reads, the erase and the write of lines 156-243. -/
theorem find_image_default_run (D : Decls) (F : Flash) (g : Nat) (stack : Nat → Nat)
    (fuel : Nat) (hwf : D.ConfigWF)
    (hrej : config_rejected D (load_buffer D F stack) = true) (hfuel : 2 ≤ fuel) :
    ∃ o rest, find_image D F g stack fuel = some o ∧
      o.trace = [Op.read 0 D.sizeof_rom_header,
        Op.read (u32 (D.BOOT_CONFIG_SECTOR * D.SECTOR_SIZE)) D.SECTOR_SIZE,
        Op.erase D.BOOT_CONFIG_SECTOR,
        Op.write (u32 (D.BOOT_CONFIG_SECTOR * D.SECTOR_SIZE)) D.SECTOR_SIZE
          (default_config D (load_buffer D F stack) (detected_flashsize D F stack))] ++ rest := by
  have hf := default_config_fields D hwf (load_buffer D F stack) (detected_flashsize D F stack)
  have hmax : 2 ≤ D.MAX_ROMS := hwf.2.2.2.2.1
  obtain ⟨hfi, -, -⟩ := find_image_nongpio D F g stack fuel _ _ _ hwf
    (load_config_rejected D F stack hrej)
    (default_config_not_gpio D hwf _ _ g) (by rw [hf.2.2.2.2.2]; omega)
    (by rw [hf.2.2.2.2.2]; omega) (by rw [hf.2.2.2.2.2]; omega)
  obtain ⟨o, rest, ho, htr⟩ := conclude_some D _ _ _ _ (scan_not_running D _ _ _)
  exact ⟨o, rest, hfi.trans ho, htr⟩

theorem select_out_of_range (D : Decls) (B : Nat → Nat) (g : Nat)
    (hng : ¬ gpioSelected D B g) (hcur : B D.cfg_current_rom ≥ B D.cfg_count) :
    select D B g = (0, false, set8 B D.cfg_current_rom 0) := by
  have hng : ¬ ((B D.cfg_mode &&& D.MODE_GPIO_ROM) ≠ 0 ∧ get_gpio16 g = 0) := hng
  unfold select
  rw [if_neg hng, if_pos hcur]

theorem probe_stuck (D : Decls) (F : Flash) (buf : Nat → Nat)
    (hcount : buf D.cfg_count = 0) (hcur : buf D.cfg_current_rom = 0)
    (hfail : (check_image D F (roms D buf (-1))).1 = 0) :
    ∀ fuel, (probe D F buf false fuel (-1) true).1 = .running := by
  intro fuel
  induction fuel with
  | zero => rfl
  | succ fuel ih =>
    have hnext : (if (-1 : Int) - 1 < 0 then (buf D.cfg_count : Int) - 1 else (-1 : Int) - 1)
        = -1 := by
      rw [hcount]; simp
    have hne : ¬ ((-1 : Int) = (buf D.cfg_current_rom : Int)) := by
      rw [hcur]; decide
    simp only [probe, hfail, if_true, Bool.false_eq_true, if_false, hnext, hne, ih]

/-- With `count` = 0 on the non-GPIO path, if neither `roms[0]` nor `roms[-1]` validates, the
loop of lines 262-283 never ends: after slot 0 the index stays at -1. -/
theorem find_image_count_zero (D : Decls) (F : Flash) (g : Nat) (stack : Nat → Nat)
    (hwf : D.ConfigWF)
    (hvalid : config_rejected D (load_buffer D F stack) = false)
    (hng : ¬ gpioSelected D (load_buffer D F stack) g)
    (hcount : load_buffer D F stack D.cfg_count = 0)
    (h0 : (check_image D F
      (roms D (set8 (load_buffer D F stack) D.cfg_current_rom 0) 0)).1 = 0)
    (h1 : (check_image D F
      (roms D (set8 (load_buffer D F stack) D.cfg_current_rom 0) (-1))).1 = 0) :
    ∀ fuel, find_image D F g stack fuel = none := by
  intro fuel
  have hn := cfg_nodup D hwf
  have hsel := select_out_of_range D (load_buffer D F stack) g hng (by rw [hcount]; omega)
  have hc : set8 (load_buffer D F stack) D.cfg_current_rom 0 D.cfg_count = 0 := by
    rw [set8_ne _ _ _ _ (fun h => hn.2.2.2.2.2.2.2.2.2.2.2.2.2.2.2.2.1 h.symm), hcount]
  have hcu : set8 (load_buffer D F stack) D.cfg_current_rom 0 D.cfg_current_rom = 0 :=
    set8_same _ _ _
  unfold find_image
  simp only [load_config_valid D F stack hvalid, hsel]
  cases fuel with
  | zero => rfl
  | succ fuel =>
    have hstuck := probe_stuck D F _ hc hcu h1 fuel
    have hnext : (if (0 : Int) - 1 < 0 then
        (set8 (load_buffer D F stack) D.cfg_current_rom 0 D.cfg_count : Int) - 1
        else (0 : Int) - 1) = -1 := by
      rw [hc]; simp
    have hne : ¬ ((-1 : Int) =
        (set8 (load_buffer D F stack) D.cfg_current_rom 0 D.cfg_current_rom : Int)) := by
      rw [hcu]; decide
    simp only [probe, h0, if_true, Bool.false_eq_true, if_false, hnext, hne, hstuck, conclude]

theorem select_other (D : Decls) (B : Nat → Nat) (g i : Nat) (hi : i ≠ D.cfg_current_rom) :
    (select D B g).2.2 i = B i := by
  unfold select
  split
  · rfl
  · split
    · exact set8_ne _ _ _ _ hi
    · rfl

theorem get32_congr (b1 b2 : Nat → Nat) (a : Nat)
    (h : ∀ x, a ≤ x → x < a + 4 → b1 x = b2 x) : get32 b1 a = get32 b2 a := by
  unfold get32
  rw [h a (by omega) (by omega), h (a + 1) (by omega) (by omega),
    h (a + 2) (by omega) (by omega), h (a + 3) (by omega) (by omega)]

theorem update_chksum_other (D : Decls) (buf : Nat → Nat) (i : Nat)
    (h : D.BOOT_CONFIG_CHKSUM = true → i ≠ D.cfg_chksum) : update_chksum D buf i = buf i := by
  unfold update_chksum
  split
  · rename_i hc
    exact set8_ne _ _ _ _ (h hc)
  · rfl

theorem write_mem_trace (ops reads : List Op) (a len : Nat) (data buf : Nat → Nat)
    (e : Op) (a2 len2 : Nat)
    (hops : ∀ op ∈ ops, op.isWrite = true → op = Op.write a2 len2 buf)
    (hreads : ∀ op ∈ reads, op.modifies = false)
    (he : e.isWrite = false)
    (h : Op.write a len data ∈ ops ++ reads ++ [e, Op.write a2 len2 buf]) :
    a = a2 ∧ len = len2 ∧ data = buf := by
  simp only [List.mem_append, List.mem_cons, List.mem_singleton, List.not_mem_nil,
    or_false] at h
  rcases h with (h | h) | h | h
  · have := hops _ h rfl
    simp only [Op.write.injEq] at this
    exact this
  · have := hreads _ h
    simp [Op.modifies] at this
  · rw [← h] at he
    simp [Op.isWrite] at he
  · simp only [Op.write.injEq] at h
    exact h

theorem exists_write_of_any (l : List Op) (h : l.any Op.isWrite = true) :
    ∃ a len data, Op.write a len data ∈ l := by
  obtain ⟨op, hop, hw⟩ := List.any_eq_true.mp h
  cases op with
  | read a n => simp [Op.isWrite] at hw
  | erase s => simp [Op.isWrite] at hw
  | write a n d => exact ⟨a, n, d, hop⟩

theorem config_rejected_false_iff (D : Decls) (b : Nat → Nat) :
    config_rejected D b = false ↔
      b D.cfg_magic = D.BOOT_CONFIG_MAGIC ∧ b D.cfg_version = D.BOOT_CONFIG_VERSION ∧
      (D.BOOT_CONFIG_CHKSUM = true → b D.cfg_chksum = calc_chksum D b 0 D.cfg_chksum) := by
  unfold config_rejected
  simp only [Bool.or_eq_false_iff, Bool.and_eq_false_imp, decide_eq_false_iff_not, ne_eq,
    not_not, and_assoc]

theorem update_chksum_valid (D : Decls) (hwf : D.ConfigWF) (b : Nat → Nat)
    (hlt : ∀ i, b i < 256)
    (hm : b D.cfg_magic = D.BOOT_CONFIG_MAGIC) (hv : b D.cfg_version = D.BOOT_CONFIG_VERSION) :
    config_rejected D (update_chksum D b) = false := by
  have hn := cfg_nodup D hwf
  rw [config_rejected_false_iff, update_chksum_ne D _ _ hn.2.2.2.2.2.1,
    update_chksum_ne D _ _ hn.2.2.2.2.2.2.2.2.2.2.1]
  refine ⟨hm, hv, fun hc => ?_⟩
  unfold update_chksum
  simp only [hc, if_true]
  rw [set8_same, calc_chksum_congr D _ b _ (fun i hi => set8_ne _ _ _ _ (by omega))]
  exact Nat.mod_eq_of_lt (calc_chksum_lt D b _ _ hlt)

theorem config_rejected_congr (D : Decls) (hwf : D.ConfigWF) (b1 b2 : Nat → Nat)
    (h : ∀ i, i < D.SECTOR_SIZE → b1 i = b2 i) :
    config_rejected D b1 = config_rejected D b2 := by
  obtain ⟨m1, m2, -, -, -, -, m7⟩ := mem_cfg_fields D
  have s1 := (cfg_field_bounds D hwf m1).1
  have s2 := (cfg_field_bounds D hwf m2).1
  have s7 := (cfg_field_bounds D hwf m7).1
  unfold config_rejected
  rw [h _ s1, h _ s2, h _ s7, calc_chksum_congr D b1 b2 _ (fun i hi => h i (by omega))]

theorem persist_oracles (D : Decls) (G : Flash) (s a n : Nat) (buf : Nat → Nat) :
    ((G.erase D s).write a n buf).readErr = G.readErr ∧
    ((G.erase D s).write a n buf).eraseErr = G.eraseErr ∧
    ((G.erase D s).write a n buf).writeErr = G.writeErr := by
  unfold Flash.write Flash.erase
  split <;> split <;> exact ⟨rfl, rfl, rfl⟩

theorem persist_mem (D : Decls) (G : Flash) (s a n i : Nat) (buf : Nat → Nat)
    (he : G.eraseErr s = false) (hw : G.writeErr a n = false) (hi : i < n) :
    ((G.erase D s).write a n buf).mem (a + i) = buf i := by
  simp only [Flash.write, Flash.erase, he, hw, Bool.false_eq_true, if_false]
  rw [if_pos ⟨by omega, by omega⟩, Nat.add_sub_cancel_left]

theorem load_buffer_read (D : Decls) (G : Flash) (stack : Nat → Nat) (i : Nat)
    (hr : G.readErr (u32 (D.BOOT_CONFIG_SECTOR * D.SECTOR_SIZE)) D.SECTOR_SIZE = false)
    (hi : i < D.SECTOR_SIZE) :
    load_buffer D G stack i = u8 (G.mem (u32 (D.BOOT_CONFIG_SECTOR * D.SECTOR_SIZE) + i)) := by
  unfold load_buffer readInto
  simp only [hr, Bool.false_eq_true, if_false]
  exact fill_lt _ _ _ _ _ hi

/-- Reloading a sector that was persisted successfully gives back the persisted buffer. -/
theorem reload_persisted (D : Decls) (G : Flash) (buf stack2 : Nat → Nat)
    (hlt : ∀ i, buf i < 256)
    (he : G.eraseErr D.BOOT_CONFIG_SECTOR = false)
    (hw : G.writeErr (u32 (D.BOOT_CONFIG_SECTOR * D.SECTOR_SIZE)) D.SECTOR_SIZE = false)
    (hr : G.readErr (u32 (D.BOOT_CONFIG_SECTOR * D.SECTOR_SIZE)) D.SECTOR_SIZE = false) :
    ∀ i, i < D.SECTOR_SIZE →
      load_buffer D ((G.erase D D.BOOT_CONFIG_SECTOR).write
        (u32 (D.BOOT_CONFIG_SECTOR * D.SECTOR_SIZE)) D.SECTOR_SIZE buf) stack2 i = buf i := by
  intro i hi
  rw [load_buffer_read D _ stack2 i (by rw [(persist_oracles D G _ _ _ buf).1]; exact hr) hi,
    persist_mem D G _ _ _ i buf he hw hi]
  exact Nat.mod_eq_of_lt (hlt i)

theorem load_config_facts (D : Decls) (F : Flash) (stack : Nat → Nat) (g : Nat)
    (hwf : D.ConfigWF) (hM : D.BOOT_CONFIG_MAGIC < 256) (hV : D.BOOT_CONFIG_VERSION < 256) :
    ∃ B1 F1 ops, load_config D F stack = (B1, F1, ops) ∧
      (∀ i, B1 i < 256) ∧ config_rejected D B1 = false ∧
      (∀ op ∈ ops, op.isWrite = true →
        op = Op.write (u32 (D.BOOT_CONFIG_SECTOR * D.SECTOR_SIZE)) D.SECTOR_SIZE B1) ∧
      F1.readErr = F.readErr ∧ F1.eraseErr = F.eraseErr ∧ F1.writeErr = F.writeErr ∧
      ((∀ op ∈ ops, op.modifies = false) ∨
        (F1 = (F.erase D D.BOOT_CONFIG_SECTOR).write
            (u32 (D.BOOT_CONFIG_SECTOR * D.SECTOR_SIZE)) D.SECTOR_SIZE B1 ∧
          (select D B1 g).2.2 = B1)) := by
  have hlt := load_config_lt D F stack
  by_cases hrej : config_rejected D (load_buffer D F stack) = true
  · have hl := load_config_rejected D F stack hrej
    rw [hl] at hlt
    have hf := default_config_fields D hwf (load_buffer D F stack) (detected_flashsize D F stack)
    have hbf := default_body_fields D hwf (load_buffer D F stack) (detected_flashsize D F stack)
    have hvalid : config_rejected D (default_config D (load_buffer D F stack)
        (detected_flashsize D F stack)) = false := by
      rw [default_config_eq]
      exact update_chksum_valid D hwf _ (default_body_lt D F stack _)
        (by rw [hbf.1]; exact Nat.mod_eq_of_lt hM) (by rw [hbf.2.1]; exact Nat.mod_eq_of_lt hV)
    have hng := default_config_not_gpio D hwf (load_buffer D F stack)
      (detected_flashsize D F stack) g
    have hng2 : ¬ ((default_config D (load_buffer D F stack) (detected_flashsize D F stack)
        D.cfg_mode &&& D.MODE_GPIO_ROM) ≠ 0 ∧ get_gpio16 g = 0) := hng
    have hsel : (select D (default_config D (load_buffer D F stack)
        (detected_flashsize D F stack)) g).2.2 =
        default_config D (load_buffer D F stack) (detected_flashsize D F stack) := by
      unfold select
      rw [if_neg hng2, if_neg (by rw [hf.2.2.2.1, hf.2.2.2.2.2]; omega)]
    obtain ⟨o1, o2, o3⟩ := persist_oracles D F D.BOOT_CONFIG_SECTOR
      (u32 (D.BOOT_CONFIG_SECTOR * D.SECTOR_SIZE)) D.SECTOR_SIZE
      (default_config D (load_buffer D F stack) (detected_flashsize D F stack))
    refine ⟨_, _, _, hl, hlt, hvalid, ?_, o1, o2, o3, Or.inr ⟨rfl, hsel⟩⟩
    intro op hop hw
    simp only [List.mem_cons, List.mem_singleton, List.not_mem_nil, or_false] at hop
    rcases hop with h | h | h | h
    · subst h; simp [Op.isWrite] at hw
    · subst h; simp [Op.isWrite] at hw
    · subst h; simp [Op.isWrite] at hw
    · exact h
  · have hvalid : config_rejected D (load_buffer D F stack) = false := by simpa using hrej
    have hl := load_config_valid D F stack hvalid
    rw [hl] at hlt
    have hops : ∀ op ∈ [Op.read 0 D.sizeof_rom_header,
        Op.read (u32 (D.BOOT_CONFIG_SECTOR * D.SECTOR_SIZE)) D.SECTOR_SIZE],
        op.modifies = false := by
      intro op hop
      simp only [List.mem_cons, List.mem_singleton, List.not_mem_nil, or_false] at hop
      rcases hop with h | h <;> (subst h; rfl)
    refine ⟨_, _, _, hl, hlt, hvalid, ?_, rfl, rfl, rfl, Or.inl hops⟩
    intro op hop hw
    have := hops op hop
    cases op with
    | read a n => simp [Op.isWrite] at hw
    | erase s => simp [Op.isWrite] at hw
    | write a n d => simp [Op.modifies] at this

/-- C1: for a Format A header at an offset other than 0 and 0xffffffff, with every read
succeeding and no 32-bit wraparound, `check_image` returns the offset exactly when the byte
stored at the trailer address equals `CHKSUM_INIT` XOR-ed with all payload bytes of the
`count` sections in order, and returns 0 otherwise; the trailer byte is the last thing it
reads.  `BUFFER_SIZE` is arbitrary, so the chunking does not matter. -/
theorem check_image_formatA_iff_chksum (D : Decls) (F : Flash) (offset : Nat)
    (hwf : D.ImageWF) (h0 : offset ≠ 0) (h1 : offset ≠ 0xffffffff)
    (hF : ∀ a l, F.readErr a l = false)
    (hmagic : u8 (F.mem (offset + D.new_magic)) = D.ROM_MAGIC)
    (hw : trailerAddr D F.mem offset < 2 ^ 32) :
    ((check_image D F offset).1 = offset ↔
      u8 (F.mem (trailerAddr D F.mem offset)) =
        xorAll (u8 D.CHKSUM_INIT)
          (payload D F.mem (u8 (F.mem (offset + D.new_count))) (offset + D.sizeof_rom_header))) ∧
    ((check_image D F offset).1 ≠ offset → (check_image D F offset).1 = 0) ∧
    (check_image D F offset).2.getLast? = some (Op.read (trailerAddr D F.mem offset) 1) := by
  obtain ⟨tr, h⟩ := check_image_A D F offset hwf h0 h1 hF hmagic hw
  rw [h]
  simp only [imageChksum]
  refine ⟨?_, ?_, by simp⟩
  · constructor
    · intro he
      by_contra hne
      rw [if_neg hne] at he
      exact h0 he.symm
    · intro he
      rw [if_pos he]
  · intro hne
    split
    · rename_i he
      rw [if_pos he] at hne
      exact absurd rfl hne
    · rfl

/-- C1 at `imageA`: the hypotheses hold and the image validates. -/
theorem check_image_formatA_iff_chksum_witness :
    rboot_h.ImageWF ∧ trailerAddr rboot_h flashA.mem 0x2000 = 0x201f ∧
      (check_image rboot_h flashA 0x2000).1 = 0x2000 :=
  ⟨by decide, by decide,
   (check_image_formatA_iff_chksum rboot_h flashA 0x2000 (by decide) (by decide) (by decide)
      (fun _ _ => rfl) (by decide) (by decide)).1.2 (by decide)⟩

/-- C2: on a Format A image that validates (every read succeeding, no wraparound), giving
any single payload byte a different value, with everything else unchanged, makes
`check_image` return 0. -/
theorem check_image_detects_payload_change (D : Decls) (F : Flash) (offset a v : Nat)
    (hwf : D.ImageWF) (h0 : offset ≠ 0) (h1 : offset ≠ 0xffffffff)
    (hF : ∀ x l, F.readErr x l = false)
    (hmagic : u8 (F.mem (offset + D.new_magic)) = D.ROM_MAGIC)
    (hw : trailerAddr D F.mem offset < 2 ^ 32)
    (hok : (check_image D F offset).1 ≠ 0)
    (ha : inPayload D F.mem (u8 (F.mem (offset + D.new_count)))
      (offset + D.sizeof_rom_header) a = true)
    (hv : u8 v ≠ u8 (F.mem a)) :
    (check_image D { F with mem := Function.update F.mem a v } offset).1 = 0 := by
  have hwf2 : D.ImageWF := hwf
  obtain ⟨-, -, hm, hc, -, hsec, -⟩ := hwf
  have hge := inPayload_ge D F.mem a _ _ ha
  obtain ⟨hend, hlt, hx⟩ := payload_update D F.mem a v hsec _ _ ha
  have hcount : Function.update F.mem a v (offset + D.new_count) = F.mem (offset + D.new_count) :=
    Function.update_noteq (by omega) _ _
  have hmag : Function.update F.mem a v (offset + D.new_magic) = F.mem (offset + D.new_magic) :=
    Function.update_noteq (by omega) _ _
  have htr : trailerAddr D (Function.update F.mem a v) offset = trailerAddr D F.mem offset := by
    simp only [trailerAddr, hcount, hend]
  have hle := le_lor_15 (sectionsEnd D F.mem (u8 (F.mem (offset + D.new_count)))
    (offset + D.sizeof_rom_header))
  have hstored : Function.update F.mem a v (trailerAddr D F.mem offset) =
      F.mem (trailerAddr D F.mem offset) :=
    Function.update_noteq (by unfold trailerAddr; omega) _ _
  obtain ⟨t1, e1⟩ := check_image_A D F offset hwf2 h0 h1 hF hmagic hw
  obtain ⟨t2, e2⟩ := check_image_A D { F with mem := Function.update F.mem a v } offset hwf2
    h0 h1 hF (by simpa only [hmag] using hmagic) (by simpa only [htr] using hw)
  rw [e1] at hok
  rw [e2]
  dsimp only at hok ⊢
  rw [htr, hstored]
  simp only [imageChksum, hcount] at hok ⊢
  have hs : u8 (F.mem (trailerAddr D F.mem offset)) =
      xorAll (u8 D.CHKSUM_INIT) (payload D F.mem (u8 (F.mem (offset + D.new_count)))
        (offset + D.sizeof_rom_header)) := by
    by_contra hne
    exact hok (if_neg hne)
  rw [if_neg]
  rw [hs, xorAll_eq, xorAll_eq (u8 D.CHKSUM_INIT), hx]
  intro heq
  have h3 := Nat.xor_right_inj.mp heq
  have h4 : u8 (F.mem a) ^^^ u8 v = 0 := by
    have := congrArg (fun t => xorAll 0 (payload D F.mem (u8 (F.mem (offset + D.new_count)))
      (offset + D.sizeof_rom_header)) ^^^ t) h3
    simp only [Nat.xor_self, Nat.xor_cancel_left] at this
    exact this.symm
  exact hv (Nat.xor_eq_zero.mp h4).symm

/-- C2 at `imageA`: changing the payload byte at 0x2011 from 2 to 5 makes validation fail. -/
theorem check_image_detects_payload_change_witness :
    (check_image rboot_h flashA 0x2000).1 ≠ 0 ∧
      (check_image rboot_h { flashA with mem := Function.update flashA.mem 0x2011 5 } 0x2000).1
        = 0 :=
  ⟨by decide,
   check_image_detects_payload_change rboot_h flashA 0x2000 0x2011 5 (by decide) (by decide)
     (by decide) (fun _ _ => rfl) (by decide) (by decide) (by decide) (by decide) (by decide)⟩

/-- C6: when the header read at an offset (other than 0 and 0xffffffff) succeeds and shows
magic `ROM_MAGIC_NEW1` with marker `ROM_MAGIC_NEW2`, the next read of `check_image` is the
inner header, `sizeof(rom_header)` bytes at `offset + len + sizeof(rom_header_new)`; the
result is 0 or that post-skip address; and with every read succeeding and no wraparound it
is the post-skip address exactly when the sections after the inner header match the
checksum byte. -/
theorem check_image_formatB_skips (D : Decls) (F : Flash) (offset : Nat) (hwf : D.ImageWF)
    (h0 : offset ≠ 0) (h1 : offset ≠ 0xffffffff)
    (hr : F.readErr offset D.sizeof_rom_header_new = false)
    (hmagic : u8 (F.mem (offset + D.new_magic)) = D.ROM_MAGIC_NEW1)
    (hmarker : u8 (F.mem (offset + D.new_count)) = D.ROM_MAGIC_NEW2) :
    (∃ rest, (check_image D F offset).2 =
      Op.read offset D.sizeof_rom_header_new ::
        Op.read (innerBase D F.mem offset) D.sizeof_rom_header :: rest) ∧
    ((check_image D F offset).1 = 0 ∨ (check_image D F offset).1 = innerBase D F.mem offset) ∧
    ((∀ a l, F.readErr a l = false) → trailerAddr D F.mem (innerBase D F.mem offset) < 2 ^ 32 →
      (check_image D F offset).1 =
        if u8 (F.mem (trailerAddr D F.mem (innerBase D F.mem offset))) =
            xorAll (u8 D.CHKSUM_INIT)
              (payload D F.mem (u8 (F.mem (innerBase D F.mem offset + D.new_count)))
                (innerBase D F.mem offset + D.sizeof_rom_header))
        then innerBase D F.mem offset else 0) := by
  have hB := check_image_B D F offset hwf h0 h1 hr hmagic hmarker
  refine ⟨?_, ?_, ?_⟩
  · rw [hB]
    split
    · exact ⟨[], rfl⟩
    · exact ⟨_, rfl⟩
  · rw [hB]
    split
    · exact Or.inl rfl
    · exact check_sections_cases D F _ _ _
  · intro hF hw
    rw [hB, hF]
    simp only [Bool.false_eq_true, if_false]
    obtain ⟨tr, htr⟩ := check_sections_ok D F hwf hF (innerBase D F.mem offset)
      (innerBase D F.mem offset)
      (fill F (innerBase D F.mem offset) D.sizeof_rom_header
        (fill F offset D.sizeof_rom_header_new (fun _ => 0)))
      (fill_lt F _ _ _ _ hwf.2.2.2.1) hw
    rw [htr]
    rfl

/-- C6 at `imageB`: the inner header is at 0x2030 and that address is returned. -/
theorem check_image_formatB_skips_witness :
    innerBase rboot_h flashB.mem 0x2000 = 0x2030 ∧
      (check_image rboot_h flashB 0x2000).1 = 0x2030 :=
  ⟨by decide,
   ((check_image_formatB_skips rboot_h flashB 0x2000 (by decide) (by decide) (by decide) rfl
      (by decide) (by decide)).2.2 (fun _ _ => rfl) (by decide)).trans (by decide)⟩

/-- C7, counterexample: on `imageA` the sections end at 0x2013 and the checksum byte is read
from 0x201f, which is not a multiple of 16 (the next 16-byte boundary is 0x2020). -/
theorem check_image_trailer_not_aligned :
    sectionsEnd rboot_h flashA.mem 1 0x2008 = 0x2013 ∧
    (check_image rboot_h flashA 0x2000).2.getLast?.bind Op.asRead = some (0x201f, 1) ∧
    ¬ (0x201f % 16 = 0) := by
  decide

/-- C7, amended: for an image of either format (every read succeeding, no wraparound), with
`e` the read position after the last section, the checksum byte is read from `e | 0x0f`: the
last byte of the 16-byte block that contains `e`, so an address that is 15 modulo 16, at
least `e` and less than `e + 16`. -/
theorem check_image_trailer_address (D : Decls) (F : Flash) (offset base : Nat)
    (hwf : D.ImageWF) (h0 : offset ≠ 0) (h1 : offset ≠ 0xffffffff)
    (hF : ∀ a l, F.readErr a l = false)
    (hfmt : (u8 (F.mem (offset + D.new_magic)) = D.ROM_MAGIC ∧ base = offset) ∨
      (u8 (F.mem (offset + D.new_magic)) = D.ROM_MAGIC_NEW1 ∧
        u8 (F.mem (offset + D.new_count)) = D.ROM_MAGIC_NEW2 ∧
        base = innerBase D F.mem offset))
    (hw : trailerAddr D F.mem base < 2 ^ 32) :
    (check_image D F offset).2.getLast? =
      some (Op.read (sectionsEnd D F.mem (u8 (F.mem (base + D.new_count)))
        (base + D.sizeof_rom_header) ||| 0x0f) 1) ∧
    (sectionsEnd D F.mem (u8 (F.mem (base + D.new_count)))
        (base + D.sizeof_rom_header) ||| 0x0f) % 16 = 15 ∧
    sectionsEnd D F.mem (u8 (F.mem (base + D.new_count))) (base + D.sizeof_rom_header) ≤
      (sectionsEnd D F.mem (u8 (F.mem (base + D.new_count)))
        (base + D.sizeof_rom_header) ||| 0x0f) ∧
    (sectionsEnd D F.mem (u8 (F.mem (base + D.new_count)))
        (base + D.sizeof_rom_header) ||| 0x0f) <
      sectionsEnd D F.mem (u8 (F.mem (base + D.new_count))) (base + D.sizeof_rom_header) + 16 := by
  refine ⟨?_, ?_, ?_, ?_⟩
  · rcases hfmt with ⟨hm, hb⟩ | ⟨hm, hk, hb⟩
    · rw [hb] at hw ⊢
      obtain ⟨tr, h⟩ := check_image_A D F offset hwf h0 h1 hF hm hw
      rw [h]
      exact getLast_snoc _ _
    · rw [hb] at hw ⊢
      have hB := check_image_B D F offset hwf h0 h1 (hF _ _) hm hk
      obtain ⟨tr, htr⟩ := check_sections_ok D F hwf hF (innerBase D F.mem offset)
        (innerBase D F.mem offset)
        (fill F (innerBase D F.mem offset) D.sizeof_rom_header
          (fill F offset D.sizeof_rom_header_new (fun _ => 0)))
        (fill_lt F _ _ _ _ hwf.2.2.2.1) hw
      rw [hB, hF, htr]
      simp only [Bool.false_eq_true, if_false, ← List.cons_append]
      exact getLast_snoc _ _
  · rw [lor_15]; omega
  · rw [lor_15]; omega
  · rw [lor_15]; omega

/-- C7, amended, at `imageA`: the checksum byte is read from 0x2013 | 0x0f = 0x201f. -/
theorem check_image_trailer_address_witness :
    (check_image rboot_h flashA 0x2000).2.getLast? = some (Op.read 0x201f 1) :=
  (check_image_trailer_address rboot_h flashA 0x2000 0x2000 (by decide) (by decide) (by decide)
    (fun _ _ => rfl) (Or.inl ⟨by decide, rfl⟩) (by decide)).1

/-- C11: `check_image(0)` and `check_image(0xffffffff)` return 0 and issue no flash read,
whatever the flash holds. -/
theorem check_image_rejects_sentinels (D : Decls) (F : Flash) :
    check_image D F 0 = (0, []) ∧ check_image D F 0xffffffff = (0, []) := by
  constructor <;> simp [check_image]

/-- C12: if a read issued by `check_image` reports failure, then `check_image` returns 0 and
that read is the last operation of its trace. -/
theorem check_image_read_failure_aborts (D : Decls) (F : Flash) (offset : Nat)
    (pre post : List Op) (a l : Nat)
    (htr : (check_image D F offset).2 = pre ++ Op.read a l :: post)
    (hfail : F.readErr a l = true) :
    (check_image D F offset).1 = 0 ∧ post = [] := by
  have hmem : Op.read a l ∈ (check_image D F offset).2 := by
    rw [htr]; simp
  have hf : (Op.read a l).failsOn F = true := hfail
  rcases check_image_clean D F offset with h | ⟨hb, pre2, last, h2, hp⟩
  · have := h _ hmem
    rw [hf] at this
    exact absurd this (by decide)
  · refine ⟨by simpa using hb, ?_⟩
    rcases List.eq_nil_or_concat post with hnil | ⟨post2, x, hx⟩
    · exact hnil
    · exfalso
      rw [htr, hx] at h2
      have h3 : (pre ++ Op.read a l :: post2) ++ [x] = pre2 ++ [last] := by
        rw [← h2]; simp
      have h4 := (List.append_inj' h3 rfl).1
      have h5 : Op.read a l ∈ pre2 := by rw [← h4]; simp
      have := hp _ h5
      rw [hf] at this
      exact absurd this (by decide)

/-- C12 at `imageA` with the payload read failing: three reads, the failing one last, and
the result is 0. -/
theorem check_image_read_failure_aborts_witness :
    (check_image rboot_h flashAFail 0x2000).2 =
        [Op.read 0x2000 16, Op.read 0x2008 8] ++ Op.read 0x2010 3 :: [] ∧
      (check_image rboot_h flashAFail 0x2000).1 = 0 :=
  ⟨rfl, (check_image_read_failure_aborts rboot_h flashAFail 0x2000
      [Op.read 0x2000 16, Op.read 0x2008 8] [] 0x2010 3 rfl rfl).1⟩

/-- C18: for a Format B image at `offset` without 32-bit wraparound (in the skip to the inner
header and in the sections after it), `check_image` gives the same result and the same
reads when the magic byte of the inner header, at `offset + len + sizeof(rom_header_new)`,
is replaced by any value `v`, read failures being the same in both runs. -/
theorem check_image_inner_magic_irrelevant (D : Decls) (F : Flash) (offset v : Nat)
    (hwf : D.ImageWF) (hne : D.new_magic ≠ D.new_count)
    (hmagic : u8 (F.mem (offset + D.new_magic)) = D.ROM_MAGIC_NEW1)
    (hmarker : u8 (F.mem (offset + D.new_count)) = D.ROM_MAGIC_NEW2)
    (hskip : offset + word32 F.mem (offset + D.new_len) + D.sizeof_rom_header_new < 2 ^ 32)
    (hw : trailerAddr D F.mem (innerBase D F.mem offset) < 2 ^ 32) :
    check_image D
        { F with mem := Function.update F.mem (innerBase D F.mem offset + D.new_magic) v }
        offset =
      check_image D F offset := by
  obtain ⟨hm, hc, hm2, hc2, hl, hsec, hneq⟩ := hwf
  have hbase : innerBase D F.mem offset =
      offset + word32 F.mem (offset + D.new_len) + D.sizeof_rom_header_new :=
    Nat.mod_eq_of_lt hskip
  set base := innerBase D F.mem offset with hb
  set F2 : Flash := { F with mem := Function.update F.mem (base + D.new_magic) v } with hF2
  have hmem : ∀ x, x ≠ base + D.new_magic → F2.mem x = F.mem x :=
    fun x hx => Function.update_noteq hx _ _
  have hfill : fill F2 offset D.sizeof_rom_header_new (fun _ => 0) =
      fill F offset D.sizeof_rom_header_new (fun _ => 0) := by
    funext i
    unfold fill
    split
    · rw [hmem _ (by omega)]
    · rfl
  have hcnt : fill F base D.sizeof_rom_header
        (fill F offset D.sizeof_rom_header_new (fun _ => 0)) D.new_count =
      fill F2 base D.sizeof_rom_header
        (fill F offset D.sizeof_rom_header_new (fun _ => 0)) D.new_count := by
    rw [fill_lt _ _ _ _ _ hc2, fill_lt _ _ _ _ _ hc2, hmem _ (by omega)]
  have key := check_sections_indep D F F2 hsec (fun _ _ => rfl) base base
    (fill F base D.sizeof_rom_header (fill F offset D.sizeof_rom_header_new (fun _ => 0)))
    (fill F2 base D.sizeof_rom_header (fill F offset D.sizeof_rom_header_new (fun _ => 0)))
    hcnt (by rw [fill_lt _ _ _ _ _ hc2]; exact hw)
    (fun x hx => (hmem x (by omega)).symm)
  have hE : ∀ a l, F2.readErr a l = F.readErr a l := fun _ _ => rfl
  have hpos : u32 (offset + u32 (get32 (fill F offset D.sizeof_rom_header_new fun _ => 0)
      D.new_len + D.sizeof_rom_header_new)) = base := by
    rw [get32_fill _ _ _ _ _ hl, u32_skip]
    rfl
  have hmag : fill F offset D.sizeof_rom_header_new (fun _ => 0) D.new_magic =
      D.ROM_MAGIC_NEW1 := by rw [fill_lt _ _ _ _ _ hm]; exact hmagic
  have hmrk : fill F offset D.sizeof_rom_header_new (fun _ => 0) D.new_count =
      D.ROM_MAGIC_NEW2 := by rw [fill_lt _ _ _ _ _ hc]; exact hmarker
  have hnA : ¬ D.ROM_MAGIC_NEW1 = D.ROM_MAGIC := fun h => hneq h.symm
  simp only [check_image, hfill, hE, hpos, hmag, hmrk, hnA, if_false, and_self, if_true, key]

/-- C18 at `imageB`: with the inner magic byte at 0x2030 changed from 0xe9 to 0 the image
still validates and 0x2030 is returned. -/
theorem check_image_inner_magic_irrelevant_witness :
    innerBase rboot_h flashB.mem 0x2000 + rboot_h.new_magic = 0x2030 ∧
    flashB.mem 0x2030 = 0xe9 ∧
    (check_image rboot_h
      { flashB with
        mem := Function.update flashB.mem
          (innerBase rboot_h flashB.mem 0x2000 + rboot_h.new_magic) 0 } 0x2000).1 = 0x2030 :=
  ⟨by decide, by decide,
   (congrArg Prod.fst (check_image_inner_magic_irrelevant rboot_h flashB 0x2000 0 (by decide)
      (by decide) (by decide) (by decide) (by decide) (by decide))).trans (by decide)⟩

/-! ## Claims on `find_image` -/

/-- C3: on the non-GPIO path with a valid record `B` and `1 ≤ rom_count ≤ MAX_ROMS`, if `w`
is the first slot of the order `s, s - 1, ..., 0, rom_count - 1, ..., s + 1` (with `s` the
start slot) that validates, then `find_image` probes exactly the slots of that order up to
and including `w`, returns what `check_image` returned for `roms[w]`, and ends with the erase
and the write of the config sector, the written record having `current_rom = w`; when erase
and write succeed the flash then holds `w` in `current_rom`. -/
theorem find_image_fallback_order (D : Decls) (F : Flash) (g : Nat) (stack : Nat → Nat)
    (fuel : Nat) (B : Nat → Nat) (w : Nat)
    (hwf : D.ConfigWF)
    (hB : B = load_buffer D F stack)
    (hvalid : config_rejected D B = false)
    (hng : ¬ gpioSelected D B g)
    (h1 : 1 ≤ B D.cfg_count)
    (h2 : B D.cfg_count ≤ D.MAX_ROMS)
    (hfuel : B D.cfg_count ≤ fuel)
    (hw : (probeOrder (startSlot D B) (B D.cfg_count)).find? (slotValid D F B) = some w) :
    ∃ o, find_image D F g stack fuel = some o ∧
      o.ret = (check_image D F (roms D B (w : Int))).1 ∧
      o.ret ≠ 0 ∧
      o.probes = ((probeOrder (startSlot D B) (B D.cfg_count)).takeWhile
        (fun i => !slotValid D F B i) ++ [w]).map Int.ofNat ∧
      (∃ pre data, o.trace = pre ++ [Op.erase D.BOOT_CONFIG_SECTOR,
          Op.write (u32 (D.BOOT_CONFIG_SECTOR * D.SECTOR_SIZE)) D.SECTOR_SIZE data] ∧
        (∀ op ∈ pre, op.modifies = false) ∧ data D.cfg_current_rom = w) ∧
      (F.eraseErr D.BOOT_CONFIG_SECTOR = false →
        F.writeErr (u32 (D.BOOT_CONFIG_SECTOR * D.SECTOR_SIZE)) D.SECTOR_SIZE = false →
        o.flash.mem (D.BOOT_CONFIG_SECTOR * D.SECTOR_SIZE + D.cfg_current_rom) = w) := by
  subst hB
  have hn := cfg_nodup D hwf
  have hb := cfg_field_bounds D hwf (mem_cfg_fields D).2.2.2.1
  have hcfg : D.BOOT_CONFIG_SECTOR * D.SECTOR_SIZE < 2 ^ 32 := hwf.2.2.2.2.2.2
  obtain ⟨hfi, -, -⟩ := find_image_nongpio D F g stack fuel _ F _ hwf
    (load_config_valid D F stack hvalid) hng h1 h2 hfuel
  obtain ⟨hs1, hs2⟩ := scan_found D F (load_buffer D F stack) w _ hw
  have hwmem := List.mem_of_find?_eq_some hw
  have hwlt := mem_probeOrder_lt _ _ _ (startSlot_lt D _ h1) hwmem
  have hc256 := load_buffer_lt D F stack D.cfg_count
  have hwv : slotValid D F (load_buffer D F stack) w = true := List.find?_some hw
  have hw8 : ((w : Int) % 256).toNat = w := by omega
  have hdata : update_chksum D (set8 (select D (load_buffer D F stack) g).2.2
      D.cfg_current_rom w) D.cfg_current_rom = w := by
    rw [update_chksum_ne D _ _ hn.2.2.2.2.2.2.2.2.2.2.2.2.2.2.2.2.2.1, set8_same]
    unfold u8; omega
  refine ⟨_, by rw [hfi]; simp only [conclude, hs1, if_true]; rfl, rfl, ?_, hs2, ?_, ?_⟩
  · simpa [slotValid] using hwv
  · refine ⟨_, _, rfl, ?_, ?_⟩
    · intro op hop
      simp only [List.mem_append, List.mem_cons, List.mem_singleton, List.not_mem_nil,
        or_false] at hop
      rcases hop with (h | h) | h
      · subst h; rfl
      · subst h; rfl
      · exact scan_reads D F _ _ op h
    · rw [hw8]; exact hdata
  · intro he hwr
    have hu : u32 (D.BOOT_CONFIG_SECTOR * D.SECTOR_SIZE) = D.BOOT_CONFIG_SECTOR * D.SECTOR_SIZE :=
      Nat.mod_eq_of_lt hcfg
    rw [hu] at hwr
    simp only [Flash.write, Flash.erase, he, hwr, Bool.false_eq_true, if_false, hu, hw8]
    rw [if_pos ⟨by omega, by omega⟩, Nat.add_sub_cancel_left]
    exact hdata

/-- C3 at the specification's example: three slots, only slot 1 valid, `current_rom` = 0:
the order is 0, 2, 1, the probes are 0, 2, 1, and `current_rom` = 1 ends up in flash. -/
theorem find_image_fallback_order_witness :
    probeOrder 0 3 = [0, 2, 1] ∧
    ∃ o, find_image rboot_h flashSlot1 1 (fun _ => 0) 3 = some o ∧ o.ret = 0x3000 ∧
      o.probes = [0, 2, 1] ∧ o.flash.mem 0x1003 = 1 := by
  obtain ⟨o, h1, h2, -, h4, -, h6⟩ := find_image_fallback_order rboot_h flashSlot1 1
    (fun _ => 0) 3 _ 1 (by decide) rfl (by decide) (by decide) (by decide) (by decide)
    (by decide) (by decide)
  exact ⟨by decide, o, h1, h2.trans (by decide), h4.trans (by decide), h6 rfl rfl⟩

/-- C4: on the non-GPIO path with a valid record `B` and `1 ≤ rom_count ≤ MAX_ROMS`, if no
configured slot validates then `find_image` returns 0 after probing the slots in the
fallback order: `rom_count` probes in which every slot index below `rom_count` occurs
exactly once.  The start slot is `current_rom`, or 0 when `current_rom` is out of range. -/
theorem find_image_all_fail (D : Decls) (F : Flash) (g : Nat) (stack : Nat → Nat)
    (fuel : Nat) (B : Nat → Nat)
    (hwf : D.ConfigWF)
    (hB : B = load_buffer D F stack)
    (hvalid : config_rejected D B = false)
    (hng : ¬ gpioSelected D B g)
    (h1 : 1 ≤ B D.cfg_count)
    (h2 : B D.cfg_count ≤ D.MAX_ROMS)
    (hfuel : B D.cfg_count ≤ fuel)
    (hall : ∀ i, i < B D.cfg_count → slotValid D F B i = false) :
    ∃ o, find_image D F g stack fuel = some o ∧
      o.ret = 0 ∧
      o.probes = (probeOrder (startSlot D B) (B D.cfg_count)).map Int.ofNat ∧
      o.probes.length = B D.cfg_count ∧
      (∀ i, i < B D.cfg_count → o.probes.count (i : Int) = 1) := by
  subst hB
  obtain ⟨hfi, -, -⟩ := find_image_nongpio D F g stack fuel _ F _ hwf
    (load_config_valid D F stack hvalid) hng h1 h2 hfuel
  have hslt := startSlot_lt D _ h1
  obtain ⟨hs1, hs2⟩ := scan_none D F (load_buffer D F stack)
    (probeOrder (startSlot D (load_buffer D F stack)) (load_buffer D F stack D.cfg_count))
    (fun i hi => hall i (mem_probeOrder_lt _ _ _ hslt hi))
  refine ⟨_, by rw [hfi]; simp only [conclude, hs1]; rfl, rfl, hs2, ?_, ?_⟩
  · show (scan D F _ _).2.2.length = _
    rw [hs2, List.length_map, probeOrder_length]
  · intro i hi
    show (scan D F _ _).2.2.count (i : Int) = 1
    rw [hs2]
    have hinj : Function.Injective Int.ofNat := fun a b h => Int.ofNat.inj h
    have := List.count_map_of_injective
      (probeOrder (startSlot D (load_buffer D F stack)) (load_buffer D F stack D.cfg_count))
      Int.ofNat hinj i
    rw [Int.ofNat_eq_coe] at this
    rw [this]
    exact probeOrder_count _ _ i hslt hi

/-- C4 with `current_rom` out of range: two empty slots, `current_rom` = 5: slot 0 and then
slot 1 are probed, once each, and 0 is returned. -/
theorem find_image_all_fail_witness :
    ∃ o, find_image rboot_h flashEmptySlots 1 (fun _ => 0) 2 = some o ∧ o.ret = 0 ∧
      o.probes = [0, 1] := by
  obtain ⟨o, h1, h2, h3, -, -⟩ := find_image_all_fail rboot_h flashEmptySlots 1 (fun _ => 0) 2 _
    (by decide) rfl (by decide) (by decide) (by decide) (by decide) (by decide) (by decide)
  exact ⟨o, h1, h2, h3.trans (by decide)⟩

/-- C10, counterexample: two empty slots and `current_rom` = 5 in a valid record:
`find_image` returns 0 having issued four reads and no erase or write, and the config sector
still holds `current_rom` = 5. -/
theorem find_image_correction_not_persisted :
    (find_image rboot_h flashEmptySlots 1 (fun _ => 0) 2).map
      (fun o => (o.ret, o.trace.map Op.modifies, o.flash.mem 0x1003, o.buffer 3)) =
      some (0, [false, false, false, false], 5, 0) := by
  decide

/-- C10, amended: when a valid record `B` has `current_rom ≥ rom_count` (non-GPIO path,
`1 ≤ rom_count ≤ MAX_ROMS`) and every slot fails validation, `find_image` returns 0 without
any erase or write and leaves the flash as it was; `current_rom` is 0 only in the RAM copy
of the record. -/
theorem find_image_correction_only_in_ram (D : Decls) (F : Flash) (g : Nat)
    (stack : Nat → Nat) (fuel : Nat) (B : Nat → Nat)
    (hwf : D.ConfigWF)
    (hB : B = load_buffer D F stack)
    (hvalid : config_rejected D B = false)
    (hng : ¬ gpioSelected D B g)
    (h1 : 1 ≤ B D.cfg_count)
    (h2 : B D.cfg_count ≤ D.MAX_ROMS)
    (hfuel : B D.cfg_count ≤ fuel)
    (hcur : B D.cfg_current_rom ≥ B D.cfg_count)
    (hall : ∀ i, i < B D.cfg_count → slotValid D F B i = false) :
    ∃ o, find_image D F g stack fuel = some o ∧
      o.ret = 0 ∧
      (∀ op ∈ o.trace, op.modifies = false) ∧
      o.flash = F ∧
      o.buffer D.cfg_current_rom = 0 := by
  subst hB
  obtain ⟨hfi, hsel, -⟩ := find_image_nongpio D F g stack fuel _ F _ hwf
    (load_config_valid D F stack hvalid) hng h1 h2 hfuel
  have hslt := startSlot_lt D _ h1
  obtain ⟨hs1, -⟩ := scan_none D F (load_buffer D F stack)
    (probeOrder (startSlot D (load_buffer D F stack)) (load_buffer D F stack D.cfg_count))
    (fun i hi => hall i (mem_probeOrder_lt _ _ _ hslt hi))
  refine ⟨_, by rw [hfi]; simp only [conclude, hs1]; rfl, rfl, ?_, rfl, ?_⟩
  · intro op hop
    simp only [List.mem_append, List.mem_cons, List.mem_singleton, List.not_mem_nil,
      or_false] at hop
    rcases hop with (h | h) | h
    · subst h; rfl
    · subst h; rfl
    · exact scan_reads D F _ _ op h
  · show (select D (load_buffer D F stack) g).2.2 D.cfg_current_rom = 0
    rw [hsel]
    unfold startSlot
    rw [if_pos hcur]

/-- C10, amended, at two empty slots with `current_rom` = 5: 0 is returned and the flash is
untouched. -/
theorem find_image_correction_only_in_ram_witness :
    ∃ o, find_image rboot_h flashEmptySlots 1 (fun _ => 0) 2 = some o ∧ o.ret = 0 ∧
      o.flash = flashEmptySlots := by
  obtain ⟨o, h1, h2, -, h4, -⟩ := find_image_correction_only_in_ram rboot_h flashEmptySlots 1
    (fun _ => 0) 2 _ (by decide) rfl (by decide) (by decide) (by decide) (by decide)
    (by decide) (by decide) (by decide)
  exact ⟨o, h1, h2, h4⟩

/-- C5: for a valid record `B` with the GPIO override taken (`MODE_GPIO_ROM` set and
`get_gpio16() == 0`), if `check_image` fails on `roms[gpio_rom]` then `find_image` returns 0
after that single probe: its flash operations are the two initial reads followed by the
reads of that one `check_image` call, with no erase and no write, and the flash is as it
was. -/
theorem find_image_gpio_fail (D : Decls) (F : Flash) (g : Nat) (stack : Nat → Nat)
    (fuel : Nat) (B : Nat → Nat)
    (hB : B = load_buffer D F stack)
    (hvalid : config_rejected D B = false)
    (hg : gpioSelected D B g)
    (hfail : (check_image D F (roms D B (B D.cfg_gpio_rom : Int))).1 = 0)
    (hfuel : 1 ≤ fuel) :
    ∃ o, find_image D F g stack fuel = some o ∧
      o.ret = 0 ∧
      o.probes = [(B D.cfg_gpio_rom : Int)] ∧
      o.trace = [Op.read 0 D.sizeof_rom_header,
          Op.read (u32 (D.BOOT_CONFIG_SECTOR * D.SECTOR_SIZE)) D.SECTOR_SIZE] ++
        (check_image D F (roms D B (B D.cfg_gpio_rom : Int))).2 ∧
      (∀ op ∈ o.trace, op.modifies = false) ∧
      o.flash = F := by
  subst hB
  obtain ⟨fuel, rfl⟩ : ∃ k, fuel = k + 1 := ⟨fuel - 1, by omega⟩
  have hg2 : (load_buffer D F stack D.cfg_mode &&& D.MODE_GPIO_ROM) ≠ 0 ∧ get_gpio16 g = 0 := hg
  have hsel : select D (load_buffer D F stack) g =
      ((load_buffer D F stack D.cfg_gpio_rom : Int), true, load_buffer D F stack) := by
    unfold select
    rw [if_pos hg2]
  have hfi : find_image D F g stack (fuel + 1) =
      some { ret := 0,
             trace := [Op.read 0 D.sizeof_rom_header,
                Op.read (u32 (D.BOOT_CONFIG_SECTOR * D.SECTOR_SIZE)) D.SECTOR_SIZE] ++
              (check_image D F (roms D (load_buffer D F stack)
                (load_buffer D F stack D.cfg_gpio_rom : Int))).2,
             probes := [(load_buffer D F stack D.cfg_gpio_rom : Int)],
             flash := F,
             buffer := load_buffer D F stack } := by
    unfold find_image
    simp only [load_config_valid D F stack hvalid, hsel, probe, hfail, if_true, conclude]
  refine ⟨_, hfi, rfl, rfl, rfl, ?_, rfl⟩
  intro op hop
  simp only [List.mem_append, List.mem_cons, List.mem_singleton, List.not_mem_nil,
    or_false] at hop
  rcases hop with (h | h) | h
  · subst h; rfl
  · subst h; rfl
  · exact check_image_reads D F _ op h

/-- C5 at a record with GPIO mode, `gpio_rom` = 2 empty and `current_rom` = 1 good: GPIO
low makes `find_image` probe slot 2 only and return 0. -/
theorem find_image_gpio_fail_witness :
    ∃ o, find_image rboot_h flashGpio 0 (fun _ => 0) 3 = some o ∧ o.ret = 0 ∧
      o.probes = [2] ∧ o.flash = flashGpio := by
  obtain ⟨o, h1, h2, h3, -, -, h6⟩ := find_image_gpio_fail rboot_h flashGpio 0 (fun _ => 0) 3 _
    rfl (by decide) (by decide) (by decide) (by decide)
  exact ⟨o, h1, h2, h3.trans (by decide), h6⟩

/-- C8, the code at the failing input: a valid record with `current_rom` = 1 in range
(non-GPIO), slot 1 validating at the first probe: `find_image` returns 0x3000 after that
single probe and still erases and rewrites the config sector (the last two operations). -/
theorem find_image_rewrites_unchanged_record :
    (find_image rboot_h flashCurrentGood 1 (fun _ => 0) 3).map
      (fun o => (o.ret, o.probes, o.trace.map Op.modifies)) =
      some (0x3000, [1], [false, false, false, false, true, true]) := by
  decide

/-- C9, counterexample: with `BOOT_CONFIG_CHKSUM` (as in `rboot_h`) the default record
written for an erased config sector has a nonzero byte that is none of magic, version, mode,
`current_rom`, `gpio_rom`, count, `roms[0]`, `roms[1]`: its checksum byte, 9, at offset 24 of
the 28-byte record. -/
theorem find_image_default_record_chksum_byte :
    (find_image rboot_h flashErased 1 (fun _ => 0) 2).map
      (fun o => o.trace.map (Op.written rboot_h.cfg_chksum)) =
      some [none, none, none, some 9, none, none] ∧
    rboot_h.cfg_chksum < rboot_h.sizeof_rboot_config ∧
    rboot_h.cfg_chksum ∉ [rboot_h.cfg_magic, rboot_h.cfg_version, rboot_h.cfg_mode,
      rboot_h.cfg_current_rom, rboot_h.cfg_gpio_rom, rboot_h.cfg_count] ∧
    ¬ (rboot_h.cfg_roms ≤ rboot_h.cfg_chksum ∧ rboot_h.cfg_chksum < rboot_h.cfg_roms + 8) := by
  decide

/-- C9, amended: when the loaded record `B` is rejected (magic, version or, with
`BOOT_CONFIG_CHKSUM`, checksum mismatch), `find_image` returns, and its first four flash
operations are the two initial reads, the erase of `BOOT_CONFIG_SECTOR` and the write of
the sector, every slot probe coming later.  The written record has magic and version set,
mode = 0, `current_rom` = 0, `gpio_rom` = 0, count = 2, `roms[0] = 2 * SECTOR_SIZE`,
`roms[1] = flashsize / 2 + 2 * SECTOR_SIZE`; with `BOOT_CONFIG_CHKSUM` its checksum field
holds `calc_chksum` of the bytes before it; every other byte of the record is zero. -/
theorem find_image_default_config (D : Decls) (F : Flash) (g : Nat) (stack : Nat → Nat)
    (fuel : Nat) (B : Nat → Nat)
    (hwf : D.ConfigWF)
    (hB : B = load_buffer D F stack)
    (hrej : config_rejected D B = true)
    (hfuel : 2 ≤ fuel) :
    ∃ o data rest, find_image D F g stack fuel = some o ∧
      o.trace = [Op.read 0 D.sizeof_rom_header,
        Op.read (u32 (D.BOOT_CONFIG_SECTOR * D.SECTOR_SIZE)) D.SECTOR_SIZE,
        Op.erase D.BOOT_CONFIG_SECTOR,
        Op.write (u32 (D.BOOT_CONFIG_SECTOR * D.SECTOR_SIZE)) D.SECTOR_SIZE data] ++ rest ∧
      data D.cfg_magic = u8 D.BOOT_CONFIG_MAGIC ∧
      data D.cfg_version = u8 D.BOOT_CONFIG_VERSION ∧
      data D.cfg_mode = 0 ∧
      data D.cfg_current_rom = 0 ∧
      data D.cfg_gpio_rom = 0 ∧
      data D.cfg_count = 2 ∧
      roms D data 0 = 2 * D.SECTOR_SIZE ∧
      roms D data 1 =
        flashsize D (readInto F 0 D.sizeof_rom_header (fun i => u8 (stack i)) D.hdr_flags2) / 2
          + 2 * D.SECTOR_SIZE ∧
      (D.BOOT_CONFIG_CHKSUM = true → data D.cfg_chksum = calc_chksum D data 0 D.cfg_chksum) ∧
      (∀ i, i < D.sizeof_rboot_config → i ≠ D.cfg_magic → i ≠ D.cfg_version →
        i ≠ D.cfg_count → ¬ (D.cfg_roms ≤ i ∧ i < D.cfg_roms + 8) →
        (D.BOOT_CONFIG_CHKSUM = true → i ≠ D.cfg_chksum) → data i = 0) := by
  subst hB
  have hn := cfg_nodup D hwf
  obtain ⟨m1, m2, m3, m4, m5, m6, m7⟩ := mem_cfg_fields D
  have b1 := cfg_field_bounds D hwf m1
  have b2 := cfg_field_bounds D hwf m2
  have b3 := cfg_field_bounds D hwf m3
  have b4 := cfg_field_bounds D hwf m4
  have b5 := cfg_field_bounds D hwf m5
  have b6 := cfg_field_bounds D hwf m6
  have b7 := cfg_field_bounds D hwf m7
  have hmax : 2 ≤ D.MAX_ROMS := hwf.2.2.2.2.1
  have hsz : D.SECTOR_SIZE * 2 + 0x200000 < 2 ^ 32 := hwf.2.2.2.2.2.1
  set fs := flashsize D (readInto F 0 D.sizeof_rom_header (fun i => u8 (stack i)) D.hdr_flags2)
    with hfs
  have hfsle : fs ≤ 0x400000 := flashsize_le D _
  set data := default_config D (load_buffer D F stack) fs with hdata
  have hl : load_config D F stack =
      (data, (F.erase D D.BOOT_CONFIG_SECTOR).write
          (u32 (D.BOOT_CONFIG_SECTOR * D.SECTOR_SIZE)) D.SECTOR_SIZE data,
        [Op.read 0 D.sizeof_rom_header,
         Op.read (u32 (D.BOOT_CONFIG_SECTOR * D.SECTOR_SIZE)) D.SECTOR_SIZE] ++
        [Op.erase D.BOOT_CONFIG_SECTOR,
         Op.write (u32 (D.BOOT_CONFIG_SECTOR * D.SECTOR_SIZE)) D.SECTOR_SIZE data]) := by
    simp only [load_config, hrej, if_true]
  -- bytes of the default record
  have hbyte := default_config_byte D (load_buffer D F stack) fs
  have hmagic : data D.cfg_magic = u8 D.BOOT_CONFIG_MAGIC := by
    rw [hdata, hbyte _ hn.2.2.2.2.2.1, set32_ne _ _ _ _ (by omega), set32_ne _ _ _ _ (by omega),
      set8_ne _ _ _ _ hn.2.2.2.2.1, set8_ne _ _ _ _ hn.1, set8_same]
  have hversion : data D.cfg_version = u8 D.BOOT_CONFIG_VERSION := by
    rw [hdata, hbyte _ hn.2.2.2.2.2.2.2.2.2.2.1, set32_ne _ _ _ _ (by omega),
      set32_ne _ _ _ _ (by omega), set8_ne _ _ _ _ hn.2.2.2.2.2.2.2.2.2.1, set8_same]
  have hcount : data D.cfg_count = 2 := by
    rw [hdata, hbyte _ hn.2.2.2.2.2.2.2.2.2.2.2.2.2.2.2.2.2.2.2.2, set32_ne _ _ _ _ (by omega),
      set32_ne _ _ _ _ (by omega), set8_same]
    rfl
  have hzero : ∀ i, i < D.sizeof_rboot_config → i ≠ D.cfg_magic → i ≠ D.cfg_version →
      i ≠ D.cfg_count → ¬ (D.cfg_roms ≤ i ∧ i < D.cfg_roms + 8) →
      i ≠ D.cfg_chksum → data i = 0 := by
    intro i h1 h2 h3 h4 h5 h6
    rw [hdata, hbyte _ h6, set32_ne _ _ _ _ (by omega), set32_ne _ _ _ _ (by omega),
      set8_ne _ _ _ _ h4, set8_ne _ _ _ _ h3, set8_ne _ _ _ _ h2]
    simp only [memset0, if_pos h1]
  have hmode : data D.cfg_mode = 0 :=
    hzero _ b3.2.1 (fun h => hn.2.1 h.symm) (fun h => hn.2.2.2.2.2.2.1 h.symm)
      hn.2.2.2.2.2.2.2.2.2.2.2.2.2.1 (by omega) hn.2.2.2.2.2.2.2.2.2.2.2.2.2.2.1
  have hcur : data D.cfg_current_rom = 0 :=
    hzero _ b4.2.1 (fun h => hn.2.2.1 h.symm) (fun h => hn.2.2.2.2.2.2.2.1 h.symm)
      hn.2.2.2.2.2.2.2.2.2.2.2.2.2.2.2.2.1 (by omega) hn.2.2.2.2.2.2.2.2.2.2.2.2.2.2.2.2.2.1
  have hgpio : data D.cfg_gpio_rom = 0 :=
    hzero _ b5.2.1 (fun h => hn.2.2.2.1 h.symm) (fun h => hn.2.2.2.2.2.2.2.2.1 h.symm)
      hn.2.2.2.2.2.2.2.2.2.2.2.2.2.2.2.2.2.2.1 (by omega)
      hn.2.2.2.2.2.2.2.2.2.2.2.2.2.2.2.2.2.2.2.1
  have hr0 : roms D data 0 = 2 * D.SECTOR_SIZE := by
    have e : ((D.cfg_roms : Int) + 4 * 0).toNat = D.cfg_roms := by omega
    unfold roms
    rw [e, hdata]
    unfold default_config
    dsimp only
    rw [get32_update_chksum D _ _ (by omega), get32_set32_ne _ _ _ _ (by omega), get32_set32]
    unfold u32; omega
  have hr1 : roms D data 1 = fs / 2 + 2 * D.SECTOR_SIZE := by
    have e : ((D.cfg_roms : Int) + 4 * 1).toNat = D.cfg_roms + 4 := by omega
    unfold roms
    rw [e, hdata]
    unfold default_config
    dsimp only
    rw [get32_update_chksum D _ _ (by omega), get32_set32]
    unfold u32; omega
  have hchk : D.BOOT_CONFIG_CHKSUM = true →
      data D.cfg_chksum = calc_chksum D data 0 D.cfg_chksum := by
    intro hc
    have hlt : ∀ n, n < 256 → u8 n = n := fun n h => Nat.mod_eq_of_lt h
    rw [hdata]
    unfold default_config update_chksum
    simp only [hc, if_true]
    rw [set8_same, hlt _ (calc_chksum_lt D _ _ _ ?_)]
    · exact calc_chksum_congr D _ _ _ (fun i hi => (set8_ne _ _ _ _ (by omega)).symm)
    · intro i
      apply set32_lt
      apply set32_lt
      apply set8_lt
      apply set8_lt
      apply set8_lt
      apply memset0_lt
      exact load_buffer_lt D F stack
  -- the run continues on the non-GPIO path and terminates
  have hng : ¬ gpioSelected D data g := by
    unfold gpioSelected
    rw [hmode, Nat.zero_and]
    simp
  obtain ⟨hfi, -, -⟩ := find_image_nongpio D F g stack fuel data _ _ hwf hl hng
    (by omega) (by omega) (by omega)
  obtain ⟨o, rest, ho, htr⟩ := conclude_some D
    ((F.erase D D.BOOT_CONFIG_SECTOR).write (u32 (D.BOOT_CONFIG_SECTOR * D.SECTOR_SIZE))
      D.SECTOR_SIZE data) (select D data g).2.2 _ _
    (scan_not_running D _ data (probeOrder (startSlot D data) (data D.cfg_count)))
  refine ⟨o, data, rest, hfi.trans ho, htr, hmagic, hversion, hmode, hcur, hgpio, hcount, hr0,
    hr1, hchk, ?_⟩
  intro i h1 h2 h3 h4 h5 h6
  by_cases hc : D.BOOT_CONFIG_CHKSUM = true
  · exact hzero i h1 h2 h3 h4 h5 (h6 hc)
  · by_cases hi : i = D.cfg_chksum
    · have hf : D.BOOT_CONFIG_CHKSUM = false := by simpa using hc
      rw [hdata]
      unfold default_config update_chksum
      rw [hf]
      simp only [Bool.false_eq_true, if_false]
      rw [hi] at h1 h2 h3 h4 h5 ⊢
      rw [set32_ne _ _ _ _ (by omega), set32_ne _ _ _ _ (by omega),
        set8_ne _ _ _ _ h4, set8_ne _ _ _ _ h3, set8_ne _ _ _ _ h2]
      simp only [memset0, if_pos h1]
    · exact hzero i h1 h2 h3 h4 h5 hi

/-- C9, amended, at an erased flash: the sector is erased and rewritten before any probe, with
two slots at 0x2000 and 0x42000 (flash size 0x80000). -/
theorem find_image_default_config_witness :
    ∃ o data rest, find_image rboot_h flashErased 1 (fun _ => 0) 2 = some o ∧
      o.trace = [Op.read 0 8, Op.read 0x1000 0x1000, Op.erase 1,
        Op.write 0x1000 0x1000 data] ++ rest ∧
      data 5 = 2 ∧ roms rboot_h data 0 = 0x2000 ∧ roms rboot_h data 1 = 0x42000 := by
  obtain ⟨o, data, rest, h1, h2, -, -, -, -, -, h8, h9, h10, -, -⟩ :=
    find_image_default_config rboot_h flashErased 1 (fun _ => 0) 2 _ (by decide) rfl
      (by decide) (by decide)
  exact ⟨o, data, rest, h1, h2, h8, h9, h10.trans (by decide)⟩

/-- C13, counterexample: with every erase failing, a valid record and slot 1 the only valid
slot, `find_image` still issues the write of the config sector right after the failed
erase, and returns the image address 0x3000 instead of reporting the failure. -/
theorem find_image_writes_after_failed_erase :
    (find_image rboot_h flashEraseFails 1 (fun _ => 0) 3).map
      (fun o => (o.ret, (o.trace.drop 6).map
        (fun op => (op.isErase, op.isWrite, op.failsOn flashEraseFails)))) =
      some (0x3000, [(true, false, true), (false, true, false)]) := by
  decide

/-- C13, amended: `find_image` does not look at the status of `SPIEraseSector`.  When the
erase of `BOOT_CONFIG_SECTOR` reports failure, a rejected record is still followed by the
erase and then the write of the default sector, and a successful selection (valid record,
non-GPIO path, `w` the first valid slot of the fallback order) still ends with the erase
and then the write of the sector and returns the image address. -/
theorem find_image_ignores_erase_failure (D : Decls) (F : Flash) (g : Nat)
    (stack : Nat → Nat) (fuel : Nat) (B : Nat → Nat) (w : Nat)
    (hwf : D.ConfigWF)
    (hB : B = load_buffer D F stack)
    (herase : F.eraseErr D.BOOT_CONFIG_SECTOR = true) :
    (Op.erase D.BOOT_CONFIG_SECTOR).failsOn F = true ∧
    (config_rejected D B = true → 2 ≤ fuel →
      ∃ o data rest, find_image D F g stack fuel = some o ∧
        o.trace = [Op.read 0 D.sizeof_rom_header,
          Op.read (u32 (D.BOOT_CONFIG_SECTOR * D.SECTOR_SIZE)) D.SECTOR_SIZE,
          Op.erase D.BOOT_CONFIG_SECTOR,
          Op.write (u32 (D.BOOT_CONFIG_SECTOR * D.SECTOR_SIZE)) D.SECTOR_SIZE data] ++ rest) ∧
    (config_rejected D B = false → ¬ gpioSelected D B g → 1 ≤ B D.cfg_count →
      B D.cfg_count ≤ D.MAX_ROMS → B D.cfg_count ≤ fuel →
      (probeOrder (startSlot D B) (B D.cfg_count)).find? (slotValid D F B) = some w →
      ∃ o pre data, find_image D F g stack fuel = some o ∧
        o.ret = (check_image D F (roms D B (w : Int))).1 ∧ o.ret ≠ 0 ∧
        o.trace = pre ++ [Op.erase D.BOOT_CONFIG_SECTOR,
          Op.write (u32 (D.BOOT_CONFIG_SECTOR * D.SECTOR_SIZE)) D.SECTOR_SIZE data] ∧
        (∀ op ∈ pre, op.modifies = false)) := by
  subst hB
  refine ⟨herase, ?_, ?_⟩
  · intro hrej hfuel
    obtain ⟨o, rest, ho, htr⟩ := find_image_default_run D F g stack fuel hwf hrej hfuel
    exact ⟨o, _, rest, ho, htr⟩
  · intro hvalid hng h1 h2 hfuel hw
    obtain ⟨hfi, -, -⟩ := find_image_nongpio D F g stack fuel _ F _ hwf
      (load_config_valid D F stack hvalid) hng h1 h2 hfuel
    obtain ⟨hs1, -⟩ := scan_found D F (load_buffer D F stack) w _ hw
    have hwv : slotValid D F (load_buffer D F stack) w = true := List.find?_some hw
    refine ⟨_, _, _, by rw [hfi]; simp only [conclude, hs1, if_true]; rfl, rfl, ?_, rfl, ?_⟩
    · simpa [slotValid] using hwv
    · intro op hop
      simp only [List.mem_append, List.mem_cons, List.mem_singleton, List.not_mem_nil,
        or_false] at hop
      rcases hop with (h | h) | h
      · subst h; rfl
      · subst h; rfl
      · exact scan_reads D F _ _ op h

/-- C13, amended, with every erase failing: the run of `flashEraseFails` returns 0x3000 and
ends with erase and write. -/
theorem find_image_ignores_erase_failure_witness :
    flashEraseFails.eraseErr 1 = true ∧
    ∃ o pre data, find_image rboot_h flashEraseFails 1 (fun _ => 0) 3 = some o ∧
      o.ret = 0x3000 ∧
      o.trace = pre ++ [Op.erase 1, Op.write 0x1000 0x1000 data] := by
  obtain ⟨o, pre, data, h1, h2, -, h4, -⟩ :=
    (find_image_ignores_erase_failure rboot_h flashEraseFails 1 (fun _ => 0) 3 _ 1
      (by decide) rfl rfl).2.2 (by decide) (by decide) (by decide) (by decide) (by decide)
      (by decide)
  exact ⟨rfl, o, pre, data, h1, h2.trans (by decide), h4⟩

/-- C15, the code at the failing input: a valid record with two slots, GPIO mode and
`gpio_rom` = 7, GPIO16 low: `find_image` passes index 7 to `roms[]`, boots the address
0x3000 found past the record, and persists `current_rom` = 7. -/
theorem find_image_gpio_rom_unchecked :
    config_rejected rboot_h (load_buffer rboot_h flashGpioOut (fun _ => 0)) = false ∧
    load_buffer rboot_h flashGpioOut (fun _ => 0) rboot_h.cfg_count = 2 ∧
    (find_image rboot_h flashGpioOut 0 (fun _ => 0) 1).map
      (fun o => (o.ret, o.probes, o.flash.mem 0x1003)) = some (0x3000, [7], 7) := by
  decide

/-- C16, the code at the failing input: a valid record with `count` = 0 and no image at
`roms[0]`: whatever the iteration bound, the loop of `find_image` is still running. -/
theorem find_image_count_zero_loops :
    ∀ fuel, find_image rboot_h flashCount0 1 (fun _ => 0) fuel = none :=
  find_image_count_zero rboot_h flashCount0 1 (fun _ => 0) (by decide) (by decide) (by decide)
    (by decide) (by decide) (by decide)

/-- C19: for a valid record `B` with the GPIO override taken, if `check_image` succeeds on
`roms[gpio_rom]` then `find_image` returns that address after this single probe and then
erases and rewrites the config sector, the written record having `current_rom = gpio_rom`;
when erase and write succeed the flash then holds `gpio_rom` in `current_rom`. -/
theorem find_image_gpio_boot_persists (D : Decls) (F : Flash) (g : Nat) (stack : Nat → Nat)
    (fuel : Nat) (B : Nat → Nat)
    (hwf : D.ConfigWF)
    (hB : B = load_buffer D F stack)
    (hvalid : config_rejected D B = false)
    (hg : gpioSelected D B g)
    (hok : (check_image D F (roms D B (B D.cfg_gpio_rom : Int))).1 ≠ 0)
    (hfuel : 1 ≤ fuel) :
    ∃ o data, find_image D F g stack fuel = some o ∧
      o.ret = (check_image D F (roms D B (B D.cfg_gpio_rom : Int))).1 ∧
      o.probes = [(B D.cfg_gpio_rom : Int)] ∧
      o.trace = [Op.read 0 D.sizeof_rom_header,
          Op.read (u32 (D.BOOT_CONFIG_SECTOR * D.SECTOR_SIZE)) D.SECTOR_SIZE] ++
        (check_image D F (roms D B (B D.cfg_gpio_rom : Int))).2 ++
        [Op.erase D.BOOT_CONFIG_SECTOR,
         Op.write (u32 (D.BOOT_CONFIG_SECTOR * D.SECTOR_SIZE)) D.SECTOR_SIZE data] ∧
      data D.cfg_current_rom = B D.cfg_gpio_rom ∧
      (F.eraseErr D.BOOT_CONFIG_SECTOR = false →
        F.writeErr (u32 (D.BOOT_CONFIG_SECTOR * D.SECTOR_SIZE)) D.SECTOR_SIZE = false →
        o.flash.mem (D.BOOT_CONFIG_SECTOR * D.SECTOR_SIZE + D.cfg_current_rom) =
          B D.cfg_gpio_rom) := by
  subst hB
  obtain ⟨fuel, rfl⟩ : ∃ k, fuel = k + 1 := ⟨fuel - 1, by omega⟩
  have hn := cfg_nodup D hwf
  have hcc : D.cfg_current_rom ≠ D.cfg_chksum := hn.2.2.2.2.2.2.2.2.2.2.2.2.2.2.2.2.2.1
  have hb := cfg_field_bounds D hwf (mem_cfg_fields D).2.2.2.1
  have hcfg : D.BOOT_CONFIG_SECTOR * D.SECTOR_SIZE < 2 ^ 32 := hwf.2.2.2.2.2.2
  have hu : u32 (D.BOOT_CONFIG_SECTOR * D.SECTOR_SIZE) = D.BOOT_CONFIG_SECTOR * D.SECTOR_SIZE :=
    Nat.mod_eq_of_lt hcfg
  have h256 := load_buffer_lt D F stack D.cfg_gpio_rom
  have hg2 : (load_buffer D F stack D.cfg_mode &&& D.MODE_GPIO_ROM) ≠ 0 ∧ get_gpio16 g = 0 := hg
  have hsel : select D (load_buffer D F stack) g =
      ((load_buffer D F stack D.cfg_gpio_rom : Int), true, load_buffer D F stack) := by
    unfold select
    rw [if_pos hg2]
  have hw8 : (((load_buffer D F stack D.cfg_gpio_rom : Nat) : Int) % 256).toNat =
      load_buffer D F stack D.cfg_gpio_rom := by omega
  have hdata : update_chksum D (set8 (load_buffer D F stack) D.cfg_current_rom
      (load_buffer D F stack D.cfg_gpio_rom)) D.cfg_current_rom =
      load_buffer D F stack D.cfg_gpio_rom := by
    rw [update_chksum_ne D _ _ hcc, set8_same]
    unfold u8; omega
  have hfi : find_image D F g stack (fuel + 1) =
      some { ret := (check_image D F (roms D (load_buffer D F stack)
                (load_buffer D F stack D.cfg_gpio_rom : Int))).1,
             trace := [Op.read 0 D.sizeof_rom_header,
                Op.read (u32 (D.BOOT_CONFIG_SECTOR * D.SECTOR_SIZE)) D.SECTOR_SIZE] ++
              (check_image D F (roms D (load_buffer D F stack)
                (load_buffer D F stack D.cfg_gpio_rom : Int))).2 ++
              [Op.erase D.BOOT_CONFIG_SECTOR,
               Op.write (u32 (D.BOOT_CONFIG_SECTOR * D.SECTOR_SIZE)) D.SECTOR_SIZE
                (update_chksum D (set8 (load_buffer D F stack) D.cfg_current_rom
                  (load_buffer D F stack D.cfg_gpio_rom)))],
             probes := [(load_buffer D F stack D.cfg_gpio_rom : Int)],
             flash := (F.erase D D.BOOT_CONFIG_SECTOR).write
                (u32 (D.BOOT_CONFIG_SECTOR * D.SECTOR_SIZE)) D.SECTOR_SIZE
                (update_chksum D (set8 (load_buffer D F stack) D.cfg_current_rom
                  (load_buffer D F stack D.cfg_gpio_rom))),
             buffer := update_chksum D (set8 (load_buffer D F stack) D.cfg_current_rom
                  (load_buffer D F stack D.cfg_gpio_rom)) } := by
    unfold find_image
    simp only [load_config_valid D F stack hvalid, hsel, probe, hok, if_false, conclude,
      if_true, hw8]
  refine ⟨_, _, hfi, rfl, rfl, rfl, hdata, ?_⟩
  intro he hwr
  rw [hu] at hwr
  simp only [Flash.write, Flash.erase, he, hwr, Bool.false_eq_true, if_false, hu]
  rw [if_pos ⟨by omega, by omega⟩, Nat.add_sub_cancel_left]
  exact hdata

/-- C19 at a record with `current_rom` = 0 and `gpio_rom` = 1: with GPIO16 low, slot 1 is
booted and the flash afterwards holds `current_rom` = 1. -/
theorem find_image_gpio_boot_persists_witness :
    flashGpioGood.mem 0x1003 = 0 ∧
    ∃ o, find_image rboot_h flashGpioGood 0 (fun _ => 0) 1 = some o ∧ o.ret = 0x3000 ∧
      o.probes = [1] ∧ o.flash.mem 0x1003 = 1 := by
  obtain ⟨o, data, h1, h2, h3, -, -, h6⟩ := find_image_gpio_boot_persists rboot_h flashGpioGood
    0 (fun _ => 0) 1 _ (by decide) rfl (by decide) (by decide) (by decide) (by decide)
  exact ⟨by decide, o, h1, h2.trans (by decide), h3.trans (by decide), h6 rfl rfl⟩

/-- C20: for a record `B` that passes validation on load, every write `find_image` issues in
a run that returns carries a record that agrees with `B` in every byte other than
`current_rom` and (with `BOOT_CONFIG_CHKSUM`) the checksum byte: magic, version, mode,
`gpio_rom`, count and every `roms[k]`, `k < MAX_ROMS`, are unchanged. -/
theorem find_image_writes_change_only_current_rom (D : Decls) (F : Flash) (g : Nat)
    (stack : Nat → Nat) (fuel : Nat) (B : Nat → Nat) (o : Outcome)
    (hwf : D.ConfigWF)
    (hB : B = load_buffer D F stack)
    (hvalid : config_rejected D B = false)
    (hrun : find_image D F g stack fuel = some o) :
    ∀ a len data, Op.write a len data ∈ o.trace →
      (∀ i, i ≠ D.cfg_current_rom → (D.BOOT_CONFIG_CHKSUM = true → i ≠ D.cfg_chksum) →
        data i = B i) ∧
      data D.cfg_magic = B D.cfg_magic ∧ data D.cfg_version = B D.cfg_version ∧
      data D.cfg_mode = B D.cfg_mode ∧ data D.cfg_gpio_rom = B D.cfg_gpio_rom ∧
      data D.cfg_count = B D.cfg_count ∧
      (∀ k : Nat, k < D.MAX_ROMS → roms D data (k : Int) = roms D B (k : Int)) := by
  subst hB
  intro a len data hmem
  obtain ⟨n1, n2, n3, n4, n5, n6, n7, n8, n9, n10, n11, n12, n13, n14, n15, n16, n17, n18, n19,
    n20, n21⟩ := cfg_nodup D hwf
  obtain ⟨m1, m2, m3, m4, m5, m6, m7⟩ := mem_cfg_fields D
  have ocur := (cfg_field_bounds D hwf m4).2.2
  have ochk := (cfg_field_bounds D hwf m7).2.2
  obtain ⟨reads, rest, hreads, -, -, hcase⟩ := find_image_shape D F g stack fuel o _ _ _
    (load_config_valid D F stack hvalid) hrun
  have hagree : ∀ i, i ≠ D.cfg_current_rom →
      (D.BOOT_CONFIG_CHKSUM = true → i ≠ D.cfg_chksum) →
      data i = load_buffer D F stack i := by
    intro i h1 h2
    rcases hcase with ⟨-, htr, -, -⟩ | ⟨-, w, -, -, hbuf, htr, -⟩
    · exfalso
      rw [htr] at hmem
      simp only [List.mem_append, List.mem_cons, List.mem_singleton, List.not_mem_nil,
        or_false] at hmem
      rcases hmem with (h | h) | h
      · simp at h
      · simp at h
      · have := hreads _ h
        simp [Op.modifies] at this
    · rw [htr] at hmem
      have hd := (write_mem_trace _ reads a len data o.buffer (Op.erase D.BOOT_CONFIG_SECTOR)
        _ _ (fun op hop hw => by
          simp only [List.mem_cons, List.mem_singleton, List.not_mem_nil, or_false] at hop
          rcases hop with h | h <;> (subst h; simp [Op.isWrite] at hw))
        hreads rfl hmem).2.2
      rw [hd, hbuf, update_chksum_other D _ _ h2, set8_ne _ _ _ _ h1,
        select_other D _ g i h1]
  clear hcase hmem hrun hreads
  refine ⟨hagree, ?_, ?_, ?_, ?_, ?_, ?_⟩
  · exact hagree _ n3 (fun _ => n6)
  · exact hagree _ n8 (fun _ => n11)
  · exact hagree _ n12 (fun _ => n15)
  · exact hagree _ (fun h => n16 h.symm) (fun _ => n20)
  · exact hagree _ (fun h => n17 h.symm) (fun _ => n21)
  · intro k hk
    unfold roms
    have e : ((D.cfg_roms : Int) + 4 * (k : Int)).toNat = D.cfg_roms + 4 * k := by omega
    rw [e]
    exact get32_congr _ _ _ (fun x hx1 hx2 => hagree x (by omega) (fun _ => by omega))

/-- C20 at the specification's example (three slots, only slot 1 valid, `current_rom` = 0):
the run returns and writes, and what it writes keeps count = 3 and the slot addresses. -/
theorem find_image_writes_change_only_current_rom_witness :
    ∃ o, find_image rboot_h flashSlot1 1 (fun _ => 0) 3 = some o ∧
      (∃ a len data, Op.write a len data ∈ o.trace) ∧
      ∀ a len data, Op.write a len data ∈ o.trace →
        data 5 = 3 ∧ roms rboot_h data (1 : Nat) = 0x3000 := by
  have hsome : (find_image rboot_h flashSlot1 1 (fun _ => 0) 3).isSome = true := by decide
  obtain ⟨o, ho⟩ := Option.isSome_iff_exists.mp hsome
  have hany : (find_image rboot_h flashSlot1 1 (fun _ => 0) 3).map
      (fun o => o.trace.any Op.isWrite) = some true := by decide
  rw [ho] at hany
  refine ⟨o, ho, exists_write_of_any _ (Option.some.inj hany), fun a len data hmem => ?_⟩
  have h := find_image_writes_change_only_current_rom rboot_h flashSlot1 1 (fun _ => 0) 3 _ o
    (by decide) rfl (by decide) ho a len data hmem
  exact ⟨h.2.2.2.2.2.1.trans (by decide), (h.2.2.2.2.2.2 1 (by decide)).trans (by decide)⟩

/-- C17: in every run of `find_image` that returns, each write (the one of default
regeneration and the one after a successful selection) goes to the config sector with a
record that a reload accepts: magic and version match and, with `BOOT_CONFIG_CHKSUM`, the
stored checksum is `calc_chksum` of the bytes before it; on any flash where erasing,
writing and reading the sector succeed, loading what was written gives the same record
byte for byte and does not reject it.  When the run persisted something and the three
operations succeed, reloading the sector from the final flash gives back the buffer
`find_image` ended with, and it is not rejected, so no defaults are regenerated. -/
theorem find_image_persists_valid_record (D : Decls) (F : Flash) (g : Nat)
    (stack : Nat → Nat) (fuel : Nat) (o : Outcome)
    (hwf : D.ConfigWF) (hM : D.BOOT_CONFIG_MAGIC < 256) (hV : D.BOOT_CONFIG_VERSION < 256)
    (hrun : find_image D F g stack fuel = some o) :
    (∀ a len data, Op.write a len data ∈ o.trace →
      a = u32 (D.BOOT_CONFIG_SECTOR * D.SECTOR_SIZE) ∧ len = D.SECTOR_SIZE ∧
      config_rejected D data = false ∧
      data D.cfg_magic = D.BOOT_CONFIG_MAGIC ∧ data D.cfg_version = D.BOOT_CONFIG_VERSION ∧
      (D.BOOT_CONFIG_CHKSUM = true →
        data D.cfg_chksum = calc_chksum D data 0 D.cfg_chksum) ∧
      ∀ (G : Flash) (stack2 : Nat → Nat), G.eraseErr D.BOOT_CONFIG_SECTOR = false →
        G.writeErr a len = false → G.readErr a len = false →
        (∀ i, i < D.SECTOR_SIZE →
          load_buffer D ((G.erase D D.BOOT_CONFIG_SECTOR).write a len data) stack2 i = data i) ∧
        config_rejected D
          (load_buffer D ((G.erase D D.BOOT_CONFIG_SECTOR).write a len data) stack2) = false) ∧
    ((∃ op ∈ o.trace, op.modifies = true) →
      F.eraseErr D.BOOT_CONFIG_SECTOR = false →
      F.writeErr (u32 (D.BOOT_CONFIG_SECTOR * D.SECTOR_SIZE)) D.SECTOR_SIZE = false →
      F.readErr (u32 (D.BOOT_CONFIG_SECTOR * D.SECTOR_SIZE)) D.SECTOR_SIZE = false →
      ∀ stack2,
        (∀ i, i < D.SECTOR_SIZE → load_buffer D o.flash stack2 i = o.buffer i) ∧
        config_rejected D (load_buffer D o.flash stack2) = false) := by
  have hn := cfg_nodup D hwf
  obtain ⟨B1, F1, ops, hl, hlt, hvalid1, hops, hre, hee, hwe, hF1⟩ :=
    load_config_facts D F stack g hwf hM hV
  obtain ⟨reads, rest, hreads, -, -, hcase⟩ := find_image_shape D F g stack fuel o _ _ _ hl hrun
  obtain ⟨hm1, hv1, -⟩ := (config_rejected_false_iff D B1).mp hvalid1
  -- the record written after a successful selection is valid
  have hfinal : ∀ v, config_rejected D
      (update_chksum D (set8 (select D B1 g).2.2 D.cfg_current_rom v)) = false := by
    intro v
    apply update_chksum_valid D hwf _ (set8_lt _ _ _ (select_lt D B1 g hlt))
    · rw [set8_ne _ _ _ _ hn.2.2.1, select_other D B1 g _ hn.2.2.1]; exact hm1
    · rw [set8_ne _ _ _ _ hn.2.2.2.2.2.2.2.1, select_other D B1 g _ hn.2.2.2.2.2.2.2.1]
      exact hv1
  have hfinal_lt : ∀ v i,
      update_chksum D (set8 (select D B1 g).2.2 D.cfg_current_rom v) i < 256 :=
    fun v i => update_chksum_lt D _ (set8_lt _ _ _ (select_lt D B1 g hlt)) i
  have hvalid_all : ∀ a len data, Op.write a len data ∈ o.trace →
      a = u32 (D.BOOT_CONFIG_SECTOR * D.SECTOR_SIZE) ∧ len = D.SECTOR_SIZE ∧
      config_rejected D data = false ∧ ∀ i, data i < 256 := by
    intro a len data hmem
    rcases hcase with ⟨-, htr, -, -⟩ | ⟨-, w, -, -, hbuf, htr, -⟩
    · rw [htr] at hmem
      rcases List.mem_append.mp hmem with h | h
      · have := hops _ h rfl
        simp only [Op.write.injEq] at this
        obtain ⟨rfl, rfl, rfl⟩ := this
        exact ⟨rfl, rfl, hvalid1, hlt⟩
      · have := hreads _ h
        simp [Op.modifies] at this
    · rw [htr] at hmem
      simp only [List.mem_append, List.mem_cons, List.mem_singleton, List.not_mem_nil,
        or_false] at hmem
      rcases hmem with (h | h) | h | h
      · have := hops _ h rfl
        simp only [Op.write.injEq] at this
        obtain ⟨rfl, rfl, rfl⟩ := this
        exact ⟨rfl, rfl, hvalid1, hlt⟩
      · have := hreads _ h
        simp [Op.modifies] at this
      · simp at h
      · simp only [Op.write.injEq] at h
        obtain ⟨rfl, rfl, rfl⟩ := h
        exact ⟨rfl, rfl, by rw [hbuf]; exact hfinal _, by rw [hbuf]; exact hfinal_lt _⟩
  refine ⟨fun a len data hmem => ?_, ?_⟩
  · obtain ⟨e1, e2, e3, e4⟩ := hvalid_all a len data hmem
    obtain ⟨f1, f2, f3⟩ := (config_rejected_false_iff D data).mp e3
    refine ⟨e1, e2, e3, f1, f2, f3, ?_⟩
    subst e1 e2
    intro G stack2 he hw hr
    have hre2 := reload_persisted D G data stack2 e4 he hw hr
    refine ⟨hre2, ?_⟩
    rw [config_rejected_congr D hwf _ data hre2]
    exact e3
  · intro hmod he hw hr stack2
    rcases hcase with ⟨-, htr, hfl, hbuf⟩ | ⟨-, w, -, -, hbuf, -, hfl⟩
    · -- the search failed: what was persisted is the default record
      obtain ⟨op, hop, hopm⟩ := hmod
      rw [htr] at hop
      have hop' : op ∈ ops := by
        rcases List.mem_append.mp hop with h | h
        · exact h
        · have := hreads _ h
          rw [hopm] at this
          exact absurd this (by decide)
      rcases hF1 with hno | ⟨hF1e, hsel⟩
      · have := hno op hop'
        rw [hopm] at this
        exact absurd this (by decide)
      · have hre2 := reload_persisted D F B1 stack2 hlt he hw hr
        rw [← hF1e, ← hfl] at hre2
        rw [hbuf, hsel]
        refine ⟨hre2, ?_⟩
        rw [config_rejected_congr D hwf _ B1 hre2]
        exact hvalid1
    · -- a slot was selected: what was persisted last is the final buffer
      have hre2 := reload_persisted D F1 o.buffer stack2
        (by rw [hbuf]; exact hfinal_lt _) (by rw [hee]; exact he) (by rw [hwe]; exact hw)
        (by rw [hre]; exact hr)
      rw [← hfl] at hre2
      refine ⟨hre2, ?_⟩
      rw [config_rejected_congr D hwf _ o.buffer hre2, hbuf]
      exact hfinal _

/-- C17 at the specification's example: the run persists, and reloading the sector gives a
record that is accepted and has `current_rom` = 1. -/
theorem find_image_persists_valid_record_witness :
    ∃ o, find_image rboot_h flashSlot1 1 (fun _ => 0) 3 = some o ∧
      (∃ op ∈ o.trace, op.modifies = true) ∧
      config_rejected rboot_h (load_buffer rboot_h o.flash (fun _ => 0)) = false ∧
      load_buffer rboot_h o.flash (fun _ => 0) 3 = o.buffer 3 := by
  have hsome : (find_image rboot_h flashSlot1 1 (fun _ => 0) 3).isSome = true := by decide
  obtain ⟨o, ho⟩ := Option.isSome_iff_exists.mp hsome
  have hany : (find_image rboot_h flashSlot1 1 (fun _ => 0) 3).map
      (fun o => o.trace.any Op.modifies) = some true := by decide
  rw [ho] at hany
  have hmod : ∃ op ∈ o.trace, op.modifies = true :=
    List.any_eq_true.mp (Option.some.inj hany)
  have h := (find_image_persists_valid_record rboot_h flashSlot1 1 (fun _ => 0) 3 o
    (by decide) (by decide) (by decide) ho).2 hmod rfl rfl rfl (fun _ => 0)
  exact ⟨o, ho, hmod, h.2, h.1 3 (by decide)⟩

end RBoot
